import Mathlib

/-!
# Chain synchronisation engine (eth/downloader)

A shallow embedding of the parts of `eth/downloader/downloader.go` and
`eth/downloader/modes.go` that the verified properties talk about, followed by
the properties themselves.

Conventions of the embedding:

* Go `uint64` values are natural numbers; where Go arithmetic can wrap the
  wrap is written out (`u64sub`, `toInt64`).
* A `select` loop reads its channels from an explicit list of events, in the
  order in which the Go runtime delivered them.  A loop that has consumed the
  whole list without returning is still waiting (`Outcome.waiting`).
* Calls into collaborators (chain store, queue, peer set, callbacks) are
  recorded as explicit results or call lists.
-/

namespace Downloader

/-! ## Sync modes (modes.go) -/

/-- The type `SyncMode` of modes.go is a `uint32`. -/
abbrev SyncMode := Nat

/-- Constant `FullSync` (iota = 0). -/
def FullSync : SyncMode := 0

/-- Constant `FastSync` (iota = 1). -/
def FastSync : SyncMode := 1

/-- Constant `LightSync` (iota = 2). -/
def LightSync : SyncMode := 2

/-! ## Constants of downloader.go -/

/-- Variable `MaxHeaderFetch`. -/
def MaxHeaderFetch : Nat := 192

/-- Variable `fullMaxForkAncestry` (params.FullImmutabilityThreshold). -/
def fullMaxForkAncestry : Nat := 90000

/-- Variable `lightMaxForkAncestry` (params.LightImmutabilityThreshold). -/
def lightMaxForkAncestry : Nat := 30000

/-- Variable `fsHeaderCheckFrequency`. -/
def fsHeaderCheckFrequency : Nat := 100

/-- Variable `fsHeaderSafetyNet`. -/
def fsHeaderSafetyNet : Nat := 2048

/-- Variable `fsHeaderForceVerify`. -/
def fsHeaderForceVerify : Nat := 24

/-- Variable `fsMinFullBlocks`. -/
def fsMinFullBlocks : Nat := 64

/-- Variable `reorgProtHeaderDelay`. -/
def reorgProtHeaderDelay : Nat := 2

/-- Variable `maxHeadersProcess`. -/
def maxHeadersProcess : Nat := 2048

/-- Variable `maxQueuedHeaders`. -/
def maxQueuedHeaders : Nat := 32 * 1024

/-! ## Machine integers -/

/-- Subtraction of two `uint64` values, wrapping below zero. -/
def u64sub (a b : Nat) : Nat := (a % 2 ^ 64 + 2 ^ 64 - b % 2 ^ 64) % 2 ^ 64

/-- Addition of two `uint64` values, wrapping at 2^64. -/
def u64add (a b : Nat) : Nat := (a + b) % 2 ^ 64

/-- Conversion of an unsigned value to `int64` (Go `int64(x)`, `int(x)`,
`big.Int.Int64`): the low 64 bits read as a two-complement number. -/
def toInt64 (n : Nat) : Int :=
  if n % 2 ^ 64 < 2 ^ 63 then ((n % 2 ^ 64 : Nat) : Int) else ((n % 2 ^ 64 : Nat) : Int) - 2 ^ 64

/-- Conversion of a signed value to `uint64` (Go `uint64(x)`). -/
def toUint64 (i : Int) : Nat := (i % 2 ^ 64).toNat

/-! ## Errors -/

/-- The package-level error values (`errors.New`) the downloader compares
against, together with errors created by collaborators (`foreign`). -/
inductive Sentinel where
  | errBusy
  | errUnknownPeer
  | errBadPeer
  | errStallingPeer
  | errUnsyncedPeer
  | errNoPeers
  | errTimeout
  | errEmptyHeaderSet
  | errPeersUnavailable
  | errInvalidAncestor
  | errInvalidChain
  | errInvalidBody
  | errInvalidReceipt
  | errCancelStateFetch
  | errCancelContentProcessing
  | errCanceled
  | errNoSyncActive
  | errTooOld
  | errStaleDelivery
  | foreign (tag : Nat)
  deriving DecidableEq, Repr

/-- A Go error value: a sentinel, or an error built by `fmt.Errorf` with the
verb `%w` around another error. -/
inductive GoError where
  | sentinel (s : Sentinel)
  | wrapf (msg : String) (inner : GoError)
  deriving DecidableEq, Repr

/-- Go `errors.Is(err, target)` for a sentinel target: walk the `Unwrap`
chain comparing by identity. -/
def errorsIs : GoError → Sentinel → Bool
  | .sentinel s, t => decide (s = t)
  | .wrapf _ inner, t => errorsIs inner t

/-- Go `err == target` for a sentinel target. -/
def errEq (e : GoError) (t : Sentinel) : Bool := decide (e = .sentinel t)

/-! ## Synchronise -/

/-- What a call of `Synchronise` did: the error it returned and the ids it
passed to the `dropPeer` callback, in call order. -/
structure SyncOutcome where
  ret : Option GoError
  dropped : List String
  deriving DecidableEq, Repr

/-- Method `Downloader.Synchronise`.  `dropPeerSet` says whether `d.dropPeer`
is non-nil, `inner` is what `d.synchronise(id, head, td, mode)` returned. -/
def Synchronise (dropPeerSet : Bool) (id : String) (inner : Option GoError) : SyncOutcome :=
  match inner with
  | none => { ret := none, dropped := [] }
  | some err =>
    if errEq err .errBusy || errEq err .errCanceled then
      { ret := some err, dropped := [] }
    else if errorsIs err .errInvalidChain || errorsIs err .errBadPeer || errorsIs err .errTimeout ||
        errorsIs err .errStallingPeer || errorsIs err .errUnsyncedPeer ||
        errorsIs err .errEmptyHeaderSet || errorsIs err .errPeersUnavailable ||
        errorsIs err .errTooOld || errorsIs err .errInvalidAncestor then
      if dropPeerSet then { ret := some err, dropped := [id] }
      else { ret := some err, dropped := [] }
    else
      { ret := some err, dropped := [] }

/-- The error kinds the error table lists with peer action "drop" and caller
outcome "propagate", as far as `Synchronise` is concerned. -/
def dropKinds : List Sentinel :=
  [.errBadPeer, .errStallingPeer, .errUnsyncedPeer, .errEmptyHeaderSet,
   .errInvalidAncestor, .errInvalidChain, .errTimeout, .errTooOld]

/-! ## Headers, events and outcomes -/

/-- The attributes of `types.Header` the downloader looks at.  `number` is the
value of the big integer `Number`; the zero `hash` is the zero value
`common.Hash{}`. -/
structure Header where
  number : Nat
  hash : Nat
  parentHash : Nat
  root : Nat
  deriving DecidableEq, Repr

/-- Go `header.Number.Uint64()`. -/
def Header.NumberU64 (h : Header) : Nat := h.number % 2 ^ 64

/-- Go `header.Number.Int64()`. -/
def Header.NumberI64 (h : Header) : Int := toInt64 h.number

/-- One message received by a `select` statement of `fetchHead` or
`findAncestor`. -/
inductive Event where
  /-- Receive on `d.cancelCh`. -/
  | cancel
  /-- Receive on `d.headerCh` of a header pack of peer `peerId`. -/
  | headers (peerId : String) (hs : List Header)
  /-- Receive on the `timeout` channel. -/
  | timeout
  /-- Receive on `d.bodyCh` or `d.receiptCh` (out of bounds delivery). -/
  | stray
  deriving DecidableEq, Repr

/-- How a function with a `select` loop ends. -/
inductive Outcome (α : Type) where
  /-- Normal return with a nil error. -/
  | ok (a : α)
  /-- Return with a non-nil error. -/
  | error (e : GoError)
  /-- All supplied events are consumed and the loop is blocked in `select`. -/
  | waiting
  /-- Go run-time panic (nil dereference, index out of range). -/
  | panic
  deriving DecidableEq, Repr

/-! ## fetchHead -/

/-- The number of headers `fetchHead` requests (its local variable `fetch`):
1, and 2 in fast mode. -/
def fetchHeadCount (mode : SyncMode) : Nat := if mode = FastSync then 2 else 1

/-- Method `Downloader.fetchHead`: the head (and pivot) header served by peer
`pid`, read from the events the `select` loop receives. -/
def fetchHead (mode : SyncMode) (checkpoint : Nat) (pid : String) :
    List Event → Outcome (Header × Option Header)
  | [] => .waiting
  | .cancel :: _ => .error (.sentinel .errCanceled)
  | .timeout :: _ => .error (.sentinel .errTimeout)
  | .stray :: rest => fetchHead mode checkpoint pid rest
  | .headers peerId headers :: rest =>
    if peerId ≠ pid then fetchHead mode checkpoint pid rest
    else
      let fetch := fetchHeadCount mode
      match headers with
      | [] => .error (.wrapf "returned headers != requested" (.sentinel .errBadPeer))
      | head :: more =>
        if headers.length > fetch then
          .error (.wrapf "returned headers != requested" (.sentinel .errBadPeer))
        else if (mode = FastSync ∨ mode = LightSync) ∧ head.NumberU64 < checkpoint then
          .error (.wrapf "remote head below checkpoint" (.sentinel .errUnsyncedPeer))
        else
          match more with
          | [] =>
            if mode = FastSync ∧ head.NumberU64 > fsMinFullBlocks then
              .error (.wrapf "no pivot included along head header" (.sentinel .errBadPeer))
            else .ok (head, none)
          | pivot :: _ =>
            if pivot.NumberU64 ≠ u64sub head.NumberU64 fsMinFullBlocks then
              .error (.wrapf "remote pivot != requested" (.sentinel .errInvalidChain))
            else .ok (head, some pivot)

/-- Events that the `select` loops of `fetchHead` and `findAncestor` skip
while they wait for peer `pid`: header packs of other peers and out of bounds
body or receipt deliveries. -/
def ignorable (pid : String) : Event → Bool
  | .stray => true
  | .headers peerId _ => decide (peerId ≠ pid)
  | _ => false

/-! ## calculateRequestSpan -/

/-- Wrap of a signed result into the `int64` range (Go signed overflow). -/
def wrapInt64 (i : Int) : Int := (i + 2 ^ 63) % 2 ^ 64 - 2 ^ 63

/-- Function `calculateRequestSpan`: returns `(from, count, span-1, max)`.
Go `/` on `int` truncates towards zero (`Int.tdiv`). -/
def calculateRequestSpan (remoteHeight localHeight : Nat) : Int × Int × Int × Nat :=
  let MaxCount : Int := ((MaxHeaderFetch / 16 : Nat) : Int)
  let requestHead := wrapInt64 (toInt64 remoteHeight - 1)
  let requestHead := if requestHead < 0 then 0 else requestHead
  let requestBottom := toInt64 (u64sub localHeight 1)
  let requestBottom := if requestBottom < 0 then 0 else requestBottom
  let totalSpan := requestHead - requestBottom
  let span := 1 + Int.tdiv totalSpan MaxCount
  let span := if span < 2 then 2 else span
  let span := if span > 16 then 16 else span
  let count := 1 + Int.tdiv totalSpan span
  let count := if count > MaxCount then MaxCount else count
  let count := if count < 2 then 2 else count
  let from_ := requestHead - (count - 1) * span
  let from_ := if from_ < 0 then 0 else from_
  let max := from_ + (count - 1) * span
  (from_, count, span - 1, toUint64 max)

/-! ## findAncestor -/

/-- The chain store as `findAncestor` sees it.  `ancestry` lists the headers
that `GetHeaderByHash(header.ParentHash)` returns one after the other when
started at `CurrentHeader()`, up to the first nil. -/
structure Chain where
  /-- Result of `d.blockchain.CurrentBlock().NumberU64()`. -/
  currentBlock : Nat
  /-- Result of `d.blockchain.CurrentFastBlock().NumberU64()`. -/
  currentFastBlock : Nat
  /-- Result of `d.lightchain.CurrentHeader()`. -/
  currentHeader : Header
  ancestry : List Header
  /-- Method `HasBlock(hash, number)`. -/
  hasBlock : Nat → Nat → Bool
  /-- Method `HasFastBlock(hash, number)`. -/
  hasFastBlock : Nat → Nat → Bool
  /-- Method `HasHeader(hash, number)`. -/
  hasHeader : Nat → Nat → Bool
  /-- Method `GetHeaderByHash(hash)`, `none` for nil. -/
  getHeaderByHash : Nat → Option Header

/-- The local height `findAncestor` starts from (`switch mode`). -/
def localHeightOf (mode : SyncMode) (c : Chain) : Nat :=
  if mode = FullSync then c.currentBlock
  else if mode = FastSync then c.currentFastBlock
  else c.currentHeader.NumberU64

/-- The mode-specific locality probe of `findAncestor` (`switch mode`). -/
def known (mode : SyncMode) (c : Chain) (h n : Nat) : Bool :=
  if mode = FullSync then c.hasBlock h n
  else if mode = FastSync then c.hasFastBlock h n
  else c.hasHeader h n

/-- The loop `for header != nil` of `findAncestor` that resolves `d.genesis`
in light mode; the second argument is the header chain still to walk, the
third the current value of `d.genesis`. -/
def genesisWalk (floor : Int) : List Header → Nat → Nat
  | [], genesis => genesis
  | header :: parents, _ =>
    if floor ≥ wrapInt64 (toInt64 header.NumberU64 - 1) then header.NumberU64
    else genesisWalk floor parents header.NumberU64

/-- The first part of `findAncestor`: the value of `floor` when the span
request is made, and the value of `d.genesis` after it. -/
def ancestorFloor (mode : SyncMode) (c : Chain) (genesis : Nat) : Int × Nat :=
  let localHeight := localHeightOf mode c
  let maxForkAncestry := if mode = LightSync then lightMaxForkAncestry else fullMaxForkAncestry
  let floor : Int :=
    if localHeight ≥ maxForkAncestry then toInt64 (localHeight - maxForkAncestry) else -1
  if mode = LightSync then
    let genesis :=
      if genesis = 0 then genesisWalk floor (c.currentHeader :: c.ancestry) genesis else genesis
    let floor :=
      if floor < wrapInt64 (toInt64 genesis - 1) then wrapInt64 (toInt64 genesis - 1) else floor
    (floor, genesis)
  else (floor, genesis)

/-- The check of `findAncestor` that the span response has the requested
numbers: `true` when no header "broke chain ordering".  The first argument is
the index of the head of the list in the response. -/
def orderingOk (from_ skip : Int) : Nat → List Header → Bool
  | _, [] => true
  | i, header :: rest =>
    if header.NumberI64 ≠ from_ + (i : Int) * (skip + 1) then false
    else orderingOk from_ skip (i + 1) rest

/-- The loop `for i := len(headers) - 1; i >= 0; i--` of `findAncestor` over
the headers taken in reverse order: the `(number, hash)` it leaves. -/
def spanScan (mode : SyncMode) (c : Chain) (from_ : Int) (max : Nat) : List Header → Nat × Nat
  | [] => (0, 0)
  | header :: lower =>
    if header.NumberI64 < from_ ∨ header.NumberU64 > max then spanScan mode c from_ max lower
    else if known mode c header.hash header.NumberU64 then (header.NumberU64, header.hash)
    else spanScan mode c from_ max lower

/-- The loop `for finished := false; !finished;` of `findAncestor`: waits for
the span response and leaves `(number, hash)` and the events not yet read. -/
def spanProbe (mode : SyncMode) (c : Chain) (pid : String) (from_ skip : Int) (max : Nat) :
    List Event → Outcome ((Nat × Nat) × List Event)
  | [] => .waiting
  | .cancel :: _ => .error (.sentinel .errCanceled)
  | .timeout :: _ => .error (.sentinel .errTimeout)
  | .stray :: rest => spanProbe mode c pid from_ skip max rest
  | .headers peerId headers :: rest =>
    if peerId ≠ pid then spanProbe mode c pid from_ skip max rest
    else if headers.length = 0 then .error (.sentinel .errEmptyHeaderSet)
    else if orderingOk from_ skip 0 headers = false then
      .error (.wrapf "head headers broke chain ordering" (.sentinel .errInvalidChain))
    else .ok (spanScan mode c from_ max headers.reverse, rest)

/-- The loop `for start+1 < end` of `findAncestor` with its inner `select`
loop: the value of `start` when the loop is left. -/
def binarySearch (mode : SyncMode) (c : Chain) (pid : String) (start end_ : Nat) :
    List Event → Outcome Nat
  | [] => if u64add start 1 < end_ then .waiting else .ok start
  | ev :: rest =>
    if u64add start 1 < end_ then
      let check := u64add start end_ / 2
      match ev with
      | .cancel => .error (.sentinel .errCanceled)
      | .timeout => .error (.sentinel .errTimeout)
      | .stray => binarySearch mode c pid start end_ rest
      | .headers peerId headers =>
        if peerId ≠ pid then binarySearch mode c pid start end_ rest
        else
          match headers with
          | [header] =>
            if known mode c header.hash header.NumberU64 = false then
              binarySearch mode c pid start check rest
            else
              match c.getHeaderByHash header.hash with
              | none => .panic
              | some stored =>
                if stored.NumberU64 ≠ check then
                  .error (.wrapf "non-requested header" (.sentinel .errBadPeer))
                else binarySearch mode c pid check end_ rest
          | _ => .error (.wrapf "multiple headers for single request" (.sentinel .errBadPeer))
    else .ok start

/-- Method `Downloader.findAncestor`.  `genesis` is the value of `d.genesis`
on entry, `remoteHeight` is `remoteHeader.Number.Uint64()`. -/
def findAncestor (mode : SyncMode) (c : Chain) (genesis : Nat) (pid : String)
    (remoteHeight : Nat) (evs : List Event) : Outcome Nat :=
  let floor := (ancestorFloor mode c genesis).1
  let span := calculateRequestSpan remoteHeight (localHeightOf mode c)
  match spanProbe mode c pid span.1 span.2.2.1 span.2.2.2 evs with
  | .error e => .error e
  | .waiting => .waiting
  | .panic => .panic
  | .ok ((number, hash), rest) =>
    if hash ≠ 0 then
      if toInt64 number ≤ floor then .error (.sentinel .errInvalidAncestor)
      else .ok number
    else
      let start := if floor > 0 then toUint64 floor else 0
      match binarySearch mode c pid start remoteHeight rest with
      | .error e => .error e
      | .waiting => .waiting
      | .panic => .panic
      | .ok start =>
        if toInt64 start ≤ floor then .error (.sentinel .errInvalidAncestor)
        else .ok start

/-- A chain store that holds nothing but a current header: every locality
probe answers false. -/
def emptyChain (height : Nat) : Chain :=
  { currentBlock := height, currentFastBlock := height,
    currentHeader := { number := height, hash := 1, parentHash := 0, root := 0 },
    ancestry := [],
    hasBlock := fun _ _ => false, hasFastBlock := fun _ _ => false,
    hasHeader := fun _ _ => false, getHeaderByHash := fun _ => none }

/-- A header of the given height and hash. -/
def mkHeader (number hash : Nat) : Header :=
  { number := number, hash := hash, parentHash := 0, root := 0 }

/-- The floor of the ancestor search in the words of the specification:
`localHeight - maxForkAncestry` when `localHeight >= maxForkAncestry` and -1
otherwise, raised to `genesis - 1` in light mode. -/
def specFloor (mode : SyncMode) (localHeight genesis : Nat) : Int :=
  let maxForkAncestry := if mode = LightSync then lightMaxForkAncestry else fullMaxForkAncestry
  let floor : Int :=
    if localHeight ≥ maxForkAncestry then (localHeight : Int) - (maxForkAncestry : Int) else -1
  if mode = LightSync then max floor ((genesis : Int) - 1) else floor

/-- A chain store of height 0 whose genesis block has hash 100. -/
def genesisOnlyChain : Chain :=
  { currentBlock := 0, currentFastBlock := 0,
    currentHeader := mkHeader 0 100,
    ancestry := [],
    hasBlock := fun h n => decide (h = 100 ∧ n = 0),
    hasFastBlock := fun h n => decide (h = 100 ∧ n = 0),
    hasHeader := fun h n => decide (h = 100 ∧ n = 0),
    getHeaderByHash := fun h => if h = 100 then some (mkHeader 0 100) else none }

/-! ## processHeaders -/

/-- One message received by the outer `select` of `processHeaders`. -/
inductive ProcEvent where
  /-- Receive on `d.cancelCh`. -/
  | cancel
  /-- Receive on `d.headerProcCh` of a header run (empty for the sentinel). -/
  | run (headers : List Header)
  deriving DecidableEq, Repr

/-- How the wait `for d.queue.PendingBlocks() >= maxQueuedHeaders || ...` of
`processHeaders` ends. -/
inductive QueueWait where
  /-- The queue has, or gets, room. -/
  | room
  /-- The sync is cancelled while the queue is full. -/
  | cancelled
  /-- The queue never drains and the sync is never cancelled. -/
  | stuck
  deriving DecidableEq, Repr

/-- What the collaborators answer while `processHeaders` handles one chunk. -/
structure ChunkEnv where
  /-- Whether `d.cancelCh` is closed at the check before the chunk. -/
  cancelled : Bool
  /-- Value of `d.pivotHeader.Number.Uint64()`, `none` for a nil pivot header. -/
  pivot : Option Nat
  /-- Result of `InsertHeaderChain(chunk, frequency)`: `none` for a nil
  error, `some (n, err)` for a failure at index `n`. -/
  insert : Option (Nat × GoError)
  queueWait : QueueWait
  /-- Value of `len(d.queue.Schedule(chunk, origin))`. -/
  scheduled : Nat

/-- The calls `processHeaders` makes into the chain store and the queue
while it handles header runs. -/
inductive ProcCall where
  | insertHeaderChain (chunk : List Header) (frequency : Nat) (result : Option (Nat × GoError))
  | schedule (chunk : List Header) (origin : Nat)
  deriving DecidableEq, Repr

/-- The local variables of `processHeaders` together with the calls made so
far; `chunkIndex` counts the chunks handled. -/
structure ProcState where
  rollback : Nat
  origin : Nat
  chunkIndex : Nat
  calls : List ProcCall
  deriving DecidableEq, Repr

/-- The header insertion of one chunk in `processHeaders` (the block
`if mode == FastSync || mode == LightSync`).  The result holds `none` when
the function goes on with the chunk. -/
def insertChunk (mode : SyncMode) (e : ChunkEnv) (st : ProcState) (chunk : List Header) :
    ProcState × Option (Outcome Unit) :=
  let last := (chunk.getLast?.map Header.NumberU64).getD 0
  let first := (chunk.head?.map Header.NumberU64).getD 0
  if mode = FastSync ∨ mode = LightSync then
    let pivot := e.pivot.getD 0
    let frequency :=
      if u64add last fsHeaderForceVerify > pivot then 1 else fsHeaderCheckFrequency
    let st := { st with calls := st.calls ++ [.insertHeaderChain chunk frequency e.insert] }
    match e.insert with
    | some (n, _) =>
      let st :=
        if (mode = FastSync ∨ frequency > 1) ∧ n > 0 ∧ st.rollback = 0 then
          { st with rollback := first }
        else st
      if n < chunk.length then
        (st, some (.error (.wrapf "invalid header encountered" (.sentinel .errInvalidChain))))
      else (st, some .panic)
    | none =>
      if mode = FastSync then
        if u64sub last st.rollback > fsHeaderSafetyNet then
          ({ st with rollback := u64sub last fsHeaderSafetyNet }, none)
        else ({ st with rollback := 1 }, none)
      else (st, none)
  else (st, none)

/-- The scheduling of one chunk in `processHeaders` (the block
`if mode == FullSync || mode == FastSync`). -/
def scheduleChunk (mode : SyncMode) (e : ChunkEnv) (st : ProcState) (chunk : List Header) :
    ProcState × Option (Outcome Unit) :=
  if mode = FullSync ∨ mode = FastSync then
    match e.queueWait with
    | .cancelled => (st, some (.error (.sentinel .errCanceled)))
    | .stuck => (st, some .waiting)
    | .room =>
      let st := { st with calls := st.calls ++ [.schedule chunk st.origin] }
      if e.scheduled ≠ chunk.length then
        (st, some (.error (.wrapf "stale headers" (.sentinel .errBadPeer))))
      else (st, none)
  else (st, none)

/-- The loop `for len(headers) > 0` of `processHeaders`.  `fuel` bounds the
number of chunks; the length of `headers` always suffices.  The result holds
`none` when the run is used up and the outer loop goes on. -/
def processChunks (mode : SyncMode) (env : Nat → ChunkEnv) :
    Nat → ProcState → List Header → ProcState × Option (Outcome Unit)
  | 0, st, _ => (st, none)
  | fuel + 1, st, headers =>
    if headers.length = 0 then (st, none)
    else
      let e := env st.chunkIndex
      let st := { st with chunkIndex := st.chunkIndex + 1 }
      if e.cancelled then (st, some (.error (.sentinel .errCanceled)))
      else
        let limit := if maxHeadersProcess > headers.length then headers.length else maxHeadersProcess
        let chunk := headers.take limit
        match insertChunk mode e st chunk with
        | (st, some out) => (st, some out)
        | (st, none) =>
          match scheduleChunk mode e st chunk with
          | (st, some out) => (st, some out)
          | (st, none) =>
            processChunks mode env fuel { st with origin := u64add st.origin limit }
              (headers.drop limit)

/-- The outer loop `for { select { ... } }` of `processHeaders`.  `td` is the
advertised total difficulty, `blockTd` and `headerTd` what `GetTd` returns for
the current block and the current header when the sentinel arrives. -/
def processLoop (mode : SyncMode) (env : Nat → ChunkEnv) (td blockTd headerTd : Nat) :
    ProcState → Bool → List ProcEvent → ProcState × Outcome Unit
  | st, _, [] => (st, .waiting)
  | st, _, .cancel :: _ => (st, .error (.sentinel .errCanceled))
  | st, gotHeaders, .run headers :: rest =>
    if headers.length = 0 then
      if mode ≠ LightSync ∧ gotHeaders = false ∧ td > blockTd then
        (st, .error (.sentinel .errStallingPeer))
      else if (mode = FastSync ∨ mode = LightSync) ∧ td > headerTd then
        (st, .error (.sentinel .errStallingPeer))
      else ({ st with rollback := 0 }, .ok ())
    else
      match processChunks mode env headers.length st headers with
      | (st, some out) => (st, out)
      | (st, none) => processLoop mode env td blockTd headerTd st true rest

/-- What a call of `processHeaders` did: how it ended, the calls it made while
handling header runs, and the argument of the call `d.lightchain.SetHead` of
its deferred function, if that call was made. -/
structure ProcResult where
  outcome : Outcome Unit
  calls : List ProcCall
  setHead : Option Nat
  deriving DecidableEq, Repr

/-- Method `Downloader.processHeaders`, with its deferred function: when the
function is left with `rollback > 0` the chain is set back to `rollback - 1`. -/
def processHeaders (mode : SyncMode) (env : Nat → ChunkEnv) (td blockTd headerTd : Nat)
    (origin : Nat) (evs : List ProcEvent) : ProcResult :=
  match processLoop mode env td blockTd headerTd
      { rollback := 0, origin := origin, chunkIndex := 0, calls := [] } false evs with
  | (st, .waiting) => { outcome := .waiting, calls := st.calls, setHead := none }
  | (st, out) =>
    if st.rollback > 0 then
      { outcome := out, calls := st.calls, setHead := some (st.rollback - 1) }
    else { outcome := out, calls := st.calls, setHead := none }

/-- The headers of all runs received, in order. -/
def runHeaders : List ProcEvent → List Header
  | [] => []
  | .cancel :: rest => runHeaders rest
  | .run headers :: rest => headers ++ runHeaders rest

/-- Heights increase by one from `start` on along the list. -/
def contiguousFrom : Nat → List Header → Bool
  | _, [] => true
  | start, h :: rest => decide (h.number = start) && contiguousFrom (start + 1) rest

/-- A run of `count` headers with heights `start`, `start + 1`, ... -/
def headerRun (start : Nat) : Nat → List Header
  | 0 => []
  | count + 1 => mkHeader start (start + 1000) :: headerRun (start + 1) count

/-- An environment for `processHeaders` in which the chunk with index
`failing` fails to insert at index 1 and every other chunk succeeds. -/
def failingEnv (pivot : Option Nat) (failing : Nat) (i : Nat) : ChunkEnv :=
  { cancelled := false, pivot := pivot,
    insert := if i = failing then some (1, .sentinel (.foreign 1)) else none,
    queueWait := .room, scheduled := 3 }

/-- The call list does not end with a failed header insertion. -/
def noFailLast (calls : List ProcCall) : Prop :=
  ∀ pre chunk frequency n err,
    calls ≠ pre ++ [ProcCall.insertHeaderChain chunk frequency (some (n, err))]

/-- Invariant of `processHeaders` in fast mode between two chunks: `next` is
the height of the next header; before the first chunk `rollback` is 0, after
a chunk that ended at height `head` it is `max 1 (head - 2048)`. -/
def rollbackInv (origin0 : Nat) (st : ProcState) (next : Nat) : Prop :=
  noFailLast st.calls ∧
  ((st.rollback = 0 ∧ next = origin0) ∨
    (∃ head, next = head + 1 ∧ origin0 ≤ head ∧ st.rollback = max 1 (head - 2048)))

/-- The bound on the rollback target when `processHeaders` is left right after
a failed header insertion. -/
def rollbackBound (origin0 : Nat) (st : ProcState) : Prop :=
  ∀ pre chunk frequency n err hf,
    st.calls = pre ++ [ProcCall.insertHeaderChain chunk frequency (some (n, err))] →
    chunk[n]? = some hf → st.rollback > 0 →
    ((st.rollback - 1 : Nat) : Int) ≤ max ((hf.number : Int) - 2048) ((origin0 : Int) - 1)

/-! ## fetchParts -/

/-- One entry of the map returned by `expire()`, with the answer of
`d.peers.Peer(pid)` for it. -/
structure ExpiredPeer where
  pid : String
  fails : Nat
  /-- Whether `d.peers.Peer(pid)` is non-nil. -/
  registered : Bool
  deriving DecidableEq, Repr

/-- One idle peer handed out by `idle()`, with the answers the queue gives
while the reservation loop handles it. -/
structure IdlePeer where
  pid : String
  /-- Value of `pending()` when the loop body starts for this peer. -/
  pending : Nat
  /-- Whether `reserve` returns a non-nil request. -/
  request : Bool
  progress : Bool
  throttle : Bool
  /-- Whether `fetch(peer, request)` returns an error. -/
  fetchFails : Bool
  deriving DecidableEq, Repr

/-- What the collaborators answer during one scheduling round (the case
`<-update`) of `fetchParts`.  `expired` lists the map of `expire()` in the
order in which `range` visits it. -/
structure RoundEnv where
  /-- Value of `d.peers.Len()`. -/
  peerCount : Nat
  expired : List ExpiredPeer
  /-- Value of `pending()` in `if pending() == 0`. -/
  pendingFirst : Nat
  /-- Value of `inFlight()` in `!inFlight() && finished`. -/
  inFlightFirst : Bool
  /-- Value of `inFlight()` that initialises `running`. -/
  running : Bool
  /-- Value of `pending()` that initialises `pendCount`. -/
  pendCount : Nat
  idles : List IdlePeer
  /-- Second result of `idle()`. -/
  total : Nat
  deriving DecidableEq, Repr

/-- The calls `fetchParts` makes on peers and on the downloader. -/
inductive PartsAction where
  /-- Call `setIdle(peer, accepted, time.Now())`. -/
  | setIdle (pid : String) (accepted : Nat)
  /-- Call `setIdle(peer, accepted, deliveryTime)`, with the time read when
  the packet was received. -/
  | setIdleAt (pid : String) (accepted : Nat) (deliveryTime : Nat)
  /-- Call `d.dropPeer(pid)`. -/
  | dropPeer (pid : String)
  /-- Call `d.cancel()`. -/
  | cancel
  /-- Call `fetch(peer, request)`. -/
  | fetch (pid : String)
  deriving DecidableEq, Repr

/-- The loop `for pid, fails := range expire()` of `fetchParts`: the calls it
makes and the error it returns with, if it returns. -/
def expireLoop (dropPeerSet : Bool) (cancelPeer : String) :
    List ExpiredPeer → List PartsAction × Option GoError
  | [] => ([], none)
  | p :: rest =>
    if p.registered then
      if p.fails > 2 then
        let r := expireLoop dropPeerSet cancelPeer rest
        (.setIdle p.pid 0 :: r.1, r.2)
      else if dropPeerSet = false then expireLoop dropPeerSet cancelPeer rest
      else if p.pid = cancelPeer then
        ([.dropPeer p.pid, .cancel], some (.sentinel .errTimeout))
      else
        let r := expireLoop dropPeerSet cancelPeer rest
        (.dropPeer p.pid :: r.1, r.2)
    else expireLoop dropPeerSet cancelPeer rest

/-- The local variables of the reservation loop of `fetchParts`. -/
structure ReserveState where
  progressed : Bool
  throttled : Bool
  running : Bool
  pendCount : Nat
  actions : List PartsAction
  panicked : Bool
  deriving DecidableEq, Repr

/-- The loop `for _, peer := range idles` of `fetchParts`. -/
def reserveLoop : ReserveState → List IdlePeer → ReserveState
  | st, [] => st
  | st, peer :: rest =>
    if st.throttled then st
    else if peer.pending = 0 then { st with pendCount := 0 }
    else
      let st := { st with pendCount := peer.pending }
      let st := if peer.progress then { st with progressed := true } else st
      let st := if peer.throttle then { st with throttled := true } else st
      if peer.request = false then reserveLoop st rest
      else if peer.fetchFails then
        { st with actions := st.actions ++ [.fetch peer.pid], panicked := true }
      else
        reserveLoop { st with actions := st.actions ++ [.fetch peer.pid], running := true } rest

/-- What one scheduling round of `fetchParts` did: the calls made and, when
the round leaves `fetchParts`, how. -/
structure RoundResult where
  actions : List PartsAction
  ret : Option (Outcome Unit)
  deriving DecidableEq, Repr

/-- The part of a scheduling round of `fetchParts` after the expiry loop:
completion check and reservations. -/
def scheduleParts (finished : Bool) (env : RoundEnv) : RoundResult :=
  if env.pendingFirst = 0 then
    if env.inFlightFirst = false ∧ finished = true then { actions := [], ret := some (.ok ()) }
    else { actions := [], ret := none }
  else
    let st := reserveLoop
      { progressed := false, throttled := false, running := env.running,
        pendCount := env.pendCount, actions := [], panicked := false } env.idles
    if st.panicked then { actions := st.actions, ret := some .panic }
    else if st.progressed = false ∧ st.throttled = false ∧ st.running = false ∧
        env.idles.length = env.total ∧ st.pendCount > 0 then
      { actions := st.actions, ret := some (.error (.sentinel .errPeersUnavailable)) }
    else { actions := st.actions, ret := none }

/-- The case `<-update` of `fetchParts`: one scheduling round. -/
def fetchPartsRound (dropPeerSet : Bool) (cancelPeer : String) (finished : Bool)
    (env : RoundEnv) : RoundResult :=
  if env.peerCount = 0 then { actions := [], ret := some (.error (.sentinel .errNoPeers)) }
  else
    match expireLoop dropPeerSet cancelPeer env.expired with
    | (actions, some err) => { actions := actions, ret := some (.error err) }
    | (actions, none) =>
      let r := scheduleParts finished env
      { actions := actions ++ r.actions, ret := r.ret }

/-- One message received by the `select` of `fetchParts`, with the answers of
the collaborators while it is handled. -/
inductive PartsEvent where
  /-- Receive on `d.cancelCh`. -/
  | cancel
  /-- Receive on `deliveryCh` of a packet of peer `peerId`: the value of
  `time.Now()` on receipt, whether the peer is registered and what
  `deliver(packet)` returns. -/
  | delivery (peerId : String) (deliveryTime : Nat) (registered : Bool) (accepted : Nat)
      (err : Option GoError)
  /-- Receive on `wakeCh`. -/
  | wake (cont : Bool)
  /-- Receive on `ticker.C`. -/
  | tick
  /-- Receive on `update`, possible only after a send on it. -/
  | update (env : RoundEnv)
  deriving DecidableEq, Repr

/-- Function `Downloader.fetchParts`.  `finished` is its local variable,
`pendingUpdate` says whether the buffered channel `update` holds a value, and
`done` collects the calls made so far. -/
def fetchPartsLoop (dropPeerSet : Bool) (cancelPeer : String) :
    Bool → Bool → List PartsAction → List PartsEvent → List PartsAction × Outcome Unit
  | _, _, done, [] => (done, .waiting)
  | _, _, done, .cancel :: _ => (done, .error (.sentinel .errCanceled))
  | finished, _, done, .delivery peerId deliveryTime registered accepted err :: rest =>
    if registered then
      match err with
      | some e =>
        if errorsIs e .errInvalidChain then (done, .error e)
        else if errorsIs e .errStaleDelivery then
          fetchPartsLoop dropPeerSet cancelPeer finished true done rest
        else
          fetchPartsLoop dropPeerSet cancelPeer finished true
            (done ++ [.setIdleAt peerId accepted deliveryTime]) rest
      | none =>
        fetchPartsLoop dropPeerSet cancelPeer finished true
          (done ++ [.setIdleAt peerId accepted deliveryTime]) rest
    else fetchPartsLoop dropPeerSet cancelPeer finished true done rest
  | finished, _, done, .wake cont :: rest =>
    fetchPartsLoop dropPeerSet cancelPeer (if cont then finished else true) true done rest
  | finished, _, done, .tick :: rest =>
    fetchPartsLoop dropPeerSet cancelPeer finished true done rest
  | finished, pendingUpdate, done, .update env :: rest =>
    if pendingUpdate = false then
      fetchPartsLoop dropPeerSet cancelPeer finished pendingUpdate done rest
    else
      let r := fetchPartsRound dropPeerSet cancelPeer finished env
      match r.ret with
      | some out => (done ++ r.actions, out)
      | none => fetchPartsLoop dropPeerSet cancelPeer finished false (done ++ r.actions) rest

/-- Function `Downloader.fetchParts` from its entry. -/
def fetchParts (dropPeerSet : Bool) (cancelPeer : String) (evs : List PartsEvent) :
    List PartsAction × Outcome Unit :=
  fetchPartsLoop dropPeerSet cancelPeer false false [] evs

/-- The call the expiry loop makes for one entry it handles without leaving
`fetchParts`, when a `dropPeer` callback is `dropPeerSet`. -/
def expireAction (dropPeerSet : Bool) (p : ExpiredPeer) : Option PartsAction :=
  if p.registered then
    if p.fails > 2 then some (.setIdle p.pid 0)
    else if dropPeerSet then some (.dropPeer p.pid) else none
  else none

/-- An entry of `expire()` at which the expiry loop leaves `fetchParts`: a
registered master peer with at most 2 expiries. -/
def masterHit (cancelPeer : String) (p : ExpiredPeer) : Bool :=
  p.registered && decide (p.fails ≤ 2) && decide (p.pid = cancelPeer)

/-- A round environment in which the queue has nothing pending and nothing in
flight, with the given peers expired. -/
def quietRound (expired : List ExpiredPeer) : RoundEnv :=
  { peerCount := 3, expired := expired, pendingFirst := 0, inFlightFirst := true,
    running := true, pendCount := 0, idles := [], total := 0 }

/-! ## processFastSyncContent -/

/-- A `fetchResult` of the queue: its header, and `parts` standing for the
transactions, uncles and receipts that come with it. -/
structure FetchResult where
  header : Header
  parts : Nat
  deriving DecidableEq, Repr

/-- The loop `for _, result := range results` of `splitAroundPivot`, started
with the values of `(p, before, after)` reached so far. -/
def splitLoop (pivot : Nat) :
    List FetchResult → Option FetchResult × List FetchResult × List FetchResult →
      Option FetchResult × List FetchResult × List FetchResult
  | [], acc => acc
  | result :: rest, (p, before, after) =>
    if result.header.NumberU64 < pivot then splitLoop pivot rest (p, before ++ [result], after)
    else if result.header.NumberU64 = pivot then splitLoop pivot rest (some result, before, after)
    else splitLoop pivot rest (p, before, after ++ [result])

/-- Function `splitAroundPivot`: returns `(p, before, after)`. -/
def splitAroundPivot (pivot : Nat) (results : List FetchResult) :
    Option FetchResult × List FetchResult × List FetchResult :=
  match results.getLast? with
  | none => (none, [], [])
  | some last =>
    if last.header.NumberU64 < pivot then (none, results, [])
    else splitLoop pivot results (none, [], [])

/-- The calls `processFastSyncContent` makes into the chain store and the
state sync, each with the error it returned (`none` for nil). -/
inductive ChainCall where
  /-- Call `d.syncState(root)` after cancelling the running state sync. -/
  | syncState (root : Nat)
  | insertReceiptChain (blocks : List FetchResult) (err : Option GoError)
  | fastSyncCommitHead (hash : Nat) (err : Option GoError)
  | insertChain (blocks : List FetchResult) (err : Option GoError)
  deriving DecidableEq, Repr

/-- Which case the `select` of `commitFastSyncData` takes. -/
inductive CommitSelect where
  /-- Case `<-d.quitCh`. -/
  | quit
  /-- Case `<-stateSync.done`, with the result of `stateSync.Wait()`. -/
  | stateDone (err : Option GoError)
  /-- The default case. -/
  | default
  deriving DecidableEq, Repr

/-- What the collaborators answer during one iteration of the loop of
`processFastSyncContent`. -/
structure FastRound where
  /-- Result of `d.queue.Results(oldPivot == nil)`. -/
  results : List FetchResult
  /-- Whether `d.cancelCh` is closed when the empty batch is checked. -/
  cancelled : Bool
  /-- Result of `sync.Cancel()` in `return sync.Cancel()`. -/
  syncCancel : Option GoError
  /-- A header that `fetchHeaders` has stored in `d.pivotHeader` since the last
  iteration, if it has. -/
  pivotMove : Option Header
  commitSelect : CommitSelect
  /-- Result of `InsertReceiptChain` in `commitFastSyncData`. -/
  insertBefore : Option (Nat × GoError)
  /-- The `select` on the state sync: `none` for the case `time.After`,
  `some err` for the case `<-sync.done` with `sync.err = err`. -/
  syncDone : Option (Option GoError)
  /-- Result of `InsertReceiptChain` in `commitPivotBlock`. -/
  insertPivot : Option GoError
  /-- Result of `FastSyncCommitHead` in `commitPivotBlock`. -/
  commitHead : Option GoError
  /-- Whether `d.quitCh` is closed in `importBlockResults`. -/
  quit : Bool
  /-- Result of `InsertChain` in `importBlockResults`. -/
  insertAfter : Option (Nat × GoError)
  deriving DecidableEq, Repr

/-- The fields of the downloader and the local variables that
`processFastSyncContent` works on, with the calls made so far. -/
structure FastState where
  /-- Field `d.pivotHeader`. -/
  pivotHeader : Header
  /-- Field `d.committed` is non-zero. -/
  committed : Bool
  /-- Field `sync.root` of the running state sync. -/
  syncRoot : Nat
  oldPivot : Option FetchResult
  oldTail : List FetchResult
  calls : List ChainCall
  deriving DecidableEq, Repr

/-- The pivot re-selection of `processFastSyncContent` (the block
`if atomic.LoadInt32(&d.committed) == 0`): the pivot header after it, `none`
when an index is out of range. -/
def reselectPivot (committed : Bool) (pivot : Header) (results : List FetchResult) :
    Option Header :=
  if committed then some pivot
  else
    match results.getLast? with
    | none => none
    | some latest =>
      if latest.header.NumberU64 ≥
          u64sub (u64add pivot.NumberU64 (2 * fsMinFullBlocks)) reorgProtHeaderDelay then
        let index : Int :=
          (results.length : Int) - 1 - (fsMinFullBlocks : Int) + (reorgProtHeaderDelay : Int)
        if index < 0 then none
        else (results[index.toNat]?).map FetchResult.header
      else some pivot

/-- Method `Downloader.commitFastSyncData`. -/
def commitFastSyncData (r : FastRound) (st : FastState) (results : List FetchResult) :
    FastState × Option (Outcome Unit) :=
  if results.length = 0 then (st, none)
  else
    match r.commitSelect with
    | .quit => (st, some (.error (.sentinel .errCancelContentProcessing)))
    | .stateDone (some err) => (st, some (.error err))
    | _ =>
      let st :=
        { st with calls := st.calls ++ [.insertReceiptChain results (r.insertBefore.map Prod.snd)] }
      match r.insertBefore with
      | some (index, _) =>
        if index < results.length then
          (st, some (.error (.wrapf "fast sync data insertion failed" (.sentinel .errInvalidChain))))
        else (st, some .panic)
      | none => (st, none)

/-- Method `Downloader.commitPivotBlock`. -/
def commitPivotBlock (r : FastRound) (st : FastState) (result : FetchResult) :
    FastState × Option (Outcome Unit) :=
  let st := { st with calls := st.calls ++ [.insertReceiptChain [result] r.insertPivot] }
  match r.insertPivot with
  | some err => (st, some (.error err))
  | none =>
    let st :=
      { st with calls := st.calls ++ [.fastSyncCommitHead result.header.hash r.commitHead] }
    match r.commitHead with
    | some err => (st, some (.error err))
    | none => ({ st with committed := true }, none)

/-- Method `Downloader.importBlockResults`. -/
def importBlockResults (r : FastRound) (st : FastState) (results : List FetchResult) :
    FastState × Option (Outcome Unit) :=
  if results.length = 0 then (st, none)
  else if r.quit then (st, some (.error (.sentinel .errCancelContentProcessing)))
  else
    let st := { st with calls := st.calls ++ [.insertChain results (r.insertAfter.map Prod.snd)] }
    match r.insertAfter with
    | some _ =>
      (st, some (.error (.wrapf "block import failed" (.sentinel .errInvalidChain))))
    | none => (st, none)

/-- The body of the loop of `processFastSyncContent` from the split on: commit
of the results before the pivot, of the pivot, import of those after it. -/
def fastSyncCommit (r : FastRound) (st : FastState) (results : List FetchResult) :
    FastState × Option (Outcome Unit) :=
  let split := splitAroundPivot st.pivotHeader.NumberU64 results
  match commitFastSyncData r st split.2.1 with
  | (st, some out) => (st, some out)
  | (st, none) =>
    match split.1 with
    | none => importBlockResults r st split.2.2
    | some P =>
      let st :=
        if st.oldPivot ≠ some P then
          { st with syncRoot := P.header.root, oldPivot := some P,
                    calls := st.calls ++ [.syncState P.header.root] }
        else st
      match r.syncDone with
      | none => ({ st with oldTail := split.2.2 }, none)
      | some (some err) => (st, some (.error err))
      | some none =>
        match commitPivotBlock r st P with
        | (st, some out) => (st, some out)
        | (st, none) => importBlockResults r { st with oldPivot := none } split.2.2

/-- One iteration of the loop of `processFastSyncContent`.  The result holds
`none` when the loop goes on. -/
def fastSyncRound (st : FastState) (r : FastRound) : FastState × Option (Outcome Unit) :=
  if r.results.length = 0 ∧ st.oldPivot = none then
    (st, some (match r.syncCancel with | some err => .error err | none => .ok ()))
  else if r.results.length = 0 ∧ r.cancelled = true then
    (st, some (.error (.sentinel .errCanceled)))
  else
    let st := match r.pivotMove with
      | some header => { st with pivotHeader := header }
      | none => st
    let pivot := st.pivotHeader
    let st :=
      if st.oldPivot = none ∧ pivot.root ≠ st.syncRoot then
        { st with syncRoot := pivot.root, calls := st.calls ++ [.syncState pivot.root] }
      else st
    let results := match st.oldPivot with
      | none => r.results
      | some old => old :: st.oldTail ++ r.results
    match reselectPivot st.committed pivot results with
    | none => (st, some .panic)
    | some pivot => fastSyncCommit r { st with pivotHeader := pivot } results

/-- The loop of `processFastSyncContent` over the iterations for which the
collaborators have answered. -/
def fastSyncLoop : FastState → List FastRound → FastState × Outcome Unit
  | st, [] => (st, .waiting)
  | st, r :: rest =>
    match fastSyncRound st r with
    | (st, some out) => (st, out)
    | (st, none) => fastSyncLoop st rest

/-- The value `syncWithPeer` gives `d.committed` before it starts the
fetchers: 1, unless the mode is fast and the pivot is not block 0. -/
def initialCommitted (mode : SyncMode) (pivot : Header) : Bool :=
  if mode = FastSync ∧ pivot.NumberU64 ≠ 0 then false else true

/-- Method `Downloader.processFastSyncContent`, entered with the pivot header
and the value of `d.committed` that `syncWithPeer` has set. -/
def processFastSyncContent (pivot : Header) (committed : Bool) (rounds : List FastRound) :
    FastState × Outcome Unit :=
  fastSyncLoop
    { pivotHeader := pivot, committed := committed, syncRoot := pivot.root,
      oldPivot := none, oldTail := [], calls := [.syncState pivot.root] } rounds

/-- A result with a header of the given height. -/
def mkResult (number : Nat) : FetchResult :=
  { header := mkHeader number (number + 1000), parts := 0 }

/-- A batch of `count` results with heights `start`, `start + 1`, ... -/
def resultRun (start : Nat) : Nat → List FetchResult
  | 0 => []
  | count + 1 => mkResult start :: resultRun (start + 1) count

/-- An iteration in which every collaborator succeeds at once. -/
def smoothRound (results : List FetchResult) : FastRound :=
  { results := results, cancelled := false, syncCancel := none, pivotMove := none,
    commitSelect := .default, insertBefore := none, syncDone := some none,
    insertPivot := none, commitHead := none, quit := false, insertAfter := none }

/-- The results of all iterations, in order. -/
def roundResults : List FastRound → List FetchResult
  | [] => []
  | r :: rest => r.results ++ roundResults rest

/-- Every `InsertChain` call of the call list comes after a successful
`InsertReceiptChain([P])` directly followed by a successful
`FastSyncCommitHead(P.hash)`, for a `P` below all blocks of the call. -/
def importsGuarded (calls : List ChainCall) : Prop :=
  ∀ i blocks err, calls[i]? = some (ChainCall.insertChain blocks err) →
    ∃ j P, j + 1 < i ∧ calls[j]? = some (ChainCall.insertReceiptChain [P] none) ∧
      calls[j + 1]? = some (ChainCall.fastSyncCommitHead P.header.hash none) ∧
      ∀ b ∈ blocks, P.header.NumberU64 < b.header.NumberU64

/-- The call list holds the successful commit of a pivot block of height `pv`. -/
def pivotCommitted (calls : List ChainCall) (pv : Nat) : Prop :=
  ∃ j P, calls[j]? = some (ChainCall.insertReceiptChain [P] none) ∧
    calls[j + 1]? = some (ChainCall.fastSyncCommitHead P.header.hash none) ∧
    P.header.NumberU64 = pv

/-- The results that the next iteration of `processFastSyncContent` puts in
front of the batch of the queue. -/
def pendingResults (st : FastState) : List FetchResult :=
  match st.oldPivot with
  | none => []
  | some old => old :: st.oldTail

/-- Invariant of the loop of `processFastSyncContent`, `remaining` being the
results the queue has still to hand out: the imports made so far are guarded;
once the pivot is committed the call list holds the commit of a block at the
pivot height; before that, the results still to handle rise by one from a
height at or below the pivot height, which is the pivot height itself when a
pivot result is being retained. -/
def fastInv (st : FastState) (remaining : List FetchResult) : Prop :=
  importsGuarded st.calls ∧
  (st.committed = true → pivotCommitted st.calls st.pivotHeader.NumberU64) ∧
  (st.committed = false →
    ∃ a, contiguousFrom a ((pendingResults st ++ remaining).map FetchResult.header) = true ∧
      a ≤ st.pivotHeader.NumberU64 ∧
      st.pivotHeader.NumberU64 + 128 < 2 ^ 64 ∧
      a + (pendingResults st ++ remaining).length + 128 < 2 ^ 64 ∧
      (st.oldPivot ≠ none → a = st.pivotHeader.NumberU64))

/-! ## Text form of the sync modes (modes.go) -/

/-- Method `SyncMode.IsValid`. -/
def IsValid (mode : SyncMode) : Bool :=
  decide (mode ≥ FullSync ∧ mode ≤ LightSync)

/-- Method `SyncMode.String` (the name `String` is taken by the type). -/
def modeString (mode : SyncMode) : String :=
  if mode = FullSync then "full"
  else if mode = FastSync then "fast"
  else if mode = LightSync then "light"
  else "unknown"

/-- Method `SyncMode.MarshalText`: the text, or the message of the error. -/
def MarshalText (mode : SyncMode) : Except String String :=
  if mode = FullSync then .ok "full"
  else if mode = FastSync then .ok "fast"
  else if mode = LightSync then .ok "light"
  else .error ("unknown sync mode " ++ toString mode)

/-- Method `(*SyncMode).UnmarshalText`: the value of `*mode` after the call
and the message of the error returned, `none` for nil (the message carries
the text as it is, where the code quotes it with `%q`). -/
def UnmarshalText (mode : SyncMode) (text : String) : SyncMode × Option String :=
  if text = "full" then (FullSync, none)
  else if text = "fast" then (FastSync, none)
  else if text = "light" then (LightSync, none)
  else (mode, some ("unknown sync mode " ++ text ++ ", want full, fast or light"))

/-! ## syncWithPeer: origin, pivot and ancient limit -/

/-- The block of `syncWithPeer` that assigns `d.ancientLimit` in fast mode,
before the direct-ancient check: the checkpoint when it is set and above
`fullMaxForkAncestry+1`, else the height less `fullMaxForkAncestry+1` when
the height is above that, else 0. -/
def syncAncientLimit (checkpoint height : Nat) : Nat :=
  if checkpoint ≠ 0 ∧ checkpoint > fullMaxForkAncestry + 1 then checkpoint
  else if height > fullMaxForkAncestry + 1 then
    u64sub (u64sub height fullMaxForkAncestry) 1
  else 0

/-- The block of `syncWithPeer` that moves the origin in fast mode: 0 when
the height is at most `fsMinFullBlocks`, else one below the pivot when the
pivot is at or below the ancestor. -/
def syncFastOrigin (height origin pivotNumber : Nat) : Nat :=
  if height ≤ fsMinFullBlocks then 0
  else if pivotNumber ≤ origin then u64sub pivotNumber 1
  else origin

/-- What `syncWithPeer` has set up when it starts the fetchers. -/
structure SyncSetup where
  /-- Local `height`, the number of the remote head. -/
  height : Nat
  /-- Local `pivot`. -/
  pivot : Option Header
  /-- Local `origin` after the fast sync adjustment. -/
  origin : Nat
  /-- Field `d.committed`. -/
  committed : Nat
  /-- Field `d.ancientLimit` as assigned from checkpoint and height. -/
  ancientLimit : Nat
  /-- Field `d.ancientLimit` after the direct-ancient check. -/
  ancientFinal : Nat
  /-- Argument of `lightchain.SetHead`, when it is called. -/
  setHead : Option Nat
  /-- Argument of `queue.Prepare` and of the fetchers. -/
  prepare : Nat
  deriving DecidableEq, Repr

/-- Method `Downloader.syncWithPeer` up to the start of the fetchers. The
answers of the collaborators are arguments: `headEvents` the events seen by
`fetchHead`, `currentBlock` the header of `blockchain.CurrentBlock()`,
`ancestor` the result of `findAncestor`, `frozen` the result of
`stateDB.Ancients()`, `setHeadErr` the result of `lightchain.SetHead`, and
`ancientLimit0` the value of `d.ancientLimit` on entry. -/
def syncWithPeer (version : Nat) (mode : SyncMode) (checkpoint : Nat) (pid : String)
    (headEvents : List Event) (currentBlock : Header) (ancestor : Outcome Nat)
    (frozen : Nat) (setHeadErr : Option GoError) (ancientLimit0 : Nat) :
    Outcome SyncSetup :=
  if version < 63 then .error (.sentinel .errTooOld)
  else
    match fetchHead mode checkpoint pid headEvents with
    | .error e => .error e
    | .waiting => .waiting
    | .panic => .panic
    | .ok (latest, pivot0) =>
      let pivot := if mode = FastSync ∧ pivot0 = none then some currentBlock else pivot0
      let height := latest.NumberU64
      match ancestor with
      | .error e => .error e
      | .waiting => .waiting
      | .panic => .panic
      | .ok origin0 =>
        if mode = FastSync then
          match pivot with
          | none => .panic
          | some p =>
            let origin := syncFastOrigin height origin0 p.NumberU64
            let committed := if p.NumberU64 ≠ 0 then 0 else 1
            let ancientLimit := syncAncientLimit checkpoint height
            let ancientFinal := if origin ≥ frozen ∧ frozen ≠ 0 then 0 else ancientLimit
            if u64add origin 1 < frozen then
              match setHeadErr with
              | some e => .error e
              | none =>
                .ok ⟨height, pivot, origin, committed, ancientLimit, ancientFinal,
                  some (u64add origin 1), u64add origin 1⟩
            else
              .ok ⟨height, pivot, origin, committed, ancientLimit, ancientFinal,
                none, u64add origin 1⟩
        else
          .ok ⟨height, pivot, origin0, 1, ancientLimit0, ancientLimit0, none,
            u64add origin0 1⟩

/-- The ancient limit in the words of the specification: the larger of the
checkpoint and the height less `fullMaxForkAncestry+1`, the latter taken as 0
when the height is at most `fullMaxForkAncestry+1`. -/
def specAncientLimit (checkpoint height : Nat) : Nat :=
  max checkpoint (if height ≤ fullMaxForkAncestry + 1 then 0
    else height - fullMaxForkAncestry - 1)

/-! ## float64 arithmetic

A finite float64 is the rational number it stands for.  Every operation of
the code on floats yields the exact result rounded to the nearest float64,
ties to the even significand, each operation on its own.  The exponent is
not bounded: the values the QoS functions work on stay far from the
overflow and subnormal ranges. -/

/-- The integer nearest to `q`, the even one of the two at a tie. -/
def roundEven (q : ℚ) : ℤ :=
  if q - ⌊q⌋ < 1 / 2 then ⌊q⌋
  else if q - ⌊q⌋ > 1 / 2 then ⌊q⌋ + 1
  else if ⌊q⌋ % 2 = 0 then ⌊q⌋ else ⌊q⌋ + 1

/-- The float64 nearest to `q` (Go `float64(x)` and the rounding of every
float64 operation): `q` is scaled to a significand of 53 bits, rounded, and
scaled back. -/
def toFloat64 (q : ℚ) : ℚ :=
  if q = 0 then 0
  else (roundEven (q / 2 ^ (Int.log 2 |q| - 52)) : ℚ) * 2 ^ (Int.log 2 |q| - 52)

/-- Go conversion of a float64 to `int64` (`time.Duration(f)`): the fraction
is discarded.  For a value out of range the result is implementation
dependent; `indef` stands for it. -/
def floatToInt64 (indef : Int) (f : ℚ) : Int :=
  if -(2 ^ 63) ≤ (if 0 ≤ f then ⌊f⌋ else ⌈f⌉) ∧ (if 0 ≤ f then ⌊f⌋ else ⌈f⌉) < 2 ^ 63 then
    (if 0 ≤ f then ⌊f⌋ else ⌈f⌉)
  else indef

/-- Go conversion of a float64 to `uint64`: the fraction is discarded.  For a
value out of range the result is implementation dependent; `indef` stands for
it. -/
def floatToUint64 (indef : Nat) (f : ℚ) : Nat :=
  if 0 ≤ (if 0 ≤ f then ⌊f⌋ else ⌈f⌉) ∧ (if 0 ≤ f then ⌊f⌋ else ⌈f⌉) < 2 ^ 64 then
    (if 0 ≤ f then ⌊f⌋ else ⌈f⌉).toNat
  else indef

/-! ## Quality of service: round trip estimate and confidence -/

/-- Variable `rttMinEstimate`, in nanoseconds. -/
def rttMinEstimate : Int := 2 * 1000000000

/-- Variable `rttMaxEstimate`, in nanoseconds. -/
def rttMaxEstimate : Int := 20 * 1000000000

/-- Variable `rttMinConfidence`, the float64 nearest to 0.1. -/
def rttMinConfidence : ℚ := toFloat64 (1 / 10)

/-- Variable `ttlScaling`. -/
def ttlScaling : Int := 3

/-- Variable `ttlLimit`, one minute in nanoseconds. -/
def ttlLimit : Int := 60 * 1000000000

/-- Variable `qosConfidenceCap`. -/
def qosConfidenceCap : Int := 10

/-- Variable `qosTuningImpact`, the float64 0.25. -/
def qosTuningImpact : ℚ := toFloat64 (1 / 4)

/-- The fields `rttEstimate` and `rttConfidence` of the downloader, both
`uint64`: nanoseconds, and millionths. -/
structure QoS where
  rttEstimate : Nat
  rttConfidence : Nat
  deriving DecidableEq, Repr

/-- Function `New`: the QoS fields of the downloader it builds. -/
def New : QoS :=
  { rttEstimate := toUint64 rttMaxEstimate, rttConfidence := 1000000 }

/-- Method `Downloader.requestRTT`. -/
def requestRTT (d : QoS) : Int :=
  Int.tdiv (wrapInt64 (toInt64 d.rttEstimate * 9)) 10

/-- Method `Downloader.requestTTL`.  With a zero confidence the quotient is
infinite or not a number, and its conversion implementation dependent. -/
def requestTTL (indef : Int) (d : QoS) : Int :=
  let rtt := toInt64 d.rttEstimate
  let conf := toFloat64 (toFloat64 (d.rttConfidence : ℚ) / 1000000)
  let ttl := wrapInt64 (ttlScaling *
    (if conf = 0 then indef
     else floatToInt64 indef (toFloat64 (toFloat64 (rtt : ℚ) / conf))))
  if ttl > ttlLimit then ttlLimit else ttl

/-- Method `Downloader.qosTuner`: one pass of its loop, up to the wait of
`rtt` that ends it.  `median` is the result of `d.peers.medianRTT()`, a
method that is not under src (see `medianRTT`). -/
def qosTuner (indef : Int) (median : Int) (d : QoS) : QoS :=
  let rtt := floatToInt64 indef (toFloat64
    (toFloat64 (toFloat64 (1 - qosTuningImpact) * toFloat64 (d.rttEstimate : ℚ)) +
      toFloat64 (qosTuningImpact * toFloat64 (median : ℚ))))
  let conf := d.rttConfidence
  let conf := u64add conf (u64sub 1000000 conf / 2)
  { rttEstimate := toUint64 rtt, rttConfidence := conf }

/-- Modelled from the spec: method `peerSet.medianRTT` of peer.go, which is
not under src.  The spec has the tuner take the median of the peer round trip
times, "clamped to [2 s, 20 s]": `raw` is the median of the times measured,
the result is `raw` brought into the range from `rttMinEstimate` to
`rttMaxEstimate`. -/
def medianRTT (raw : Int) : Int :=
  if raw < rttMinEstimate then rttMinEstimate
  else if raw > rttMaxEstimate then rttMaxEstimate
  else raw

/-- Method `Downloader.qosReduceConfidence`.  `peers` is the result of
`d.peers.Len()`. -/
def qosReduceConfidence (indef : Nat) (peers : Nat) (d : QoS) : QoS :=
  if peers = 0 then d
  else if peers = 1 then { d with rttConfidence := 1000000 }
  else if peers ≥ toUint64 qosConfidenceCap then d
  else
    let conf : Nat := (d.rttConfidence * (peers - 1)) % 2 ^ 64 / peers
    let conf : Nat :=
      if toFloat64 (toFloat64 (conf : ℚ) / 1000000) < rttMinConfidence then
        floatToUint64 indef (toFloat64 (rttMinConfidence * 1000000))
      else conf
    { d with rttConfidence := conf }

/-- One change of the QoS fields: a pass of the tuner loop, or a call of
`qosReduceConfidence` when a peer registers. -/
inductive QosStep where
  | tick (median : Int)
  | reduce (peers : Nat)
  deriving DecidableEq, Repr

/-- The QoS fields after a sequence of tuner passes and
`qosReduceConfidence` calls. -/
def qosRun (indefInt : Int) (indefUint : Nat) : QoS → List QosStep → QoS
  | d, [] => d
  | d, .tick median :: rest => qosRun indefInt indefUint (qosTuner indefInt median d) rest
  | d, .reduce peers :: rest =>
    qosRun indefInt indefUint (qosReduceConfidence indefUint peers d) rest

/-! ## findAncestor: a peer that serves the binary search -/

/-- Whether the events are the answers of peer `pid` to the requests of the
binary search that stands at `start` and `end_`, for a chain whose headers are
locally known exactly up to height `a`: one header of the requested height
`(start + end_) / 2` for each request, until no request is left. -/
def servesSearch (pid : String) (a : Nat) : Nat → Nat → List Event → Bool
  | start, end_, [] => !decide (start + 1 < end_)
  | start, end_, ev :: rest =>
    decide (start + 1 < end_) &&
      match ev with
      | .headers peerId [h] =>
        decide (peerId = pid) && decide (h.NumberU64 = (start + end_) / 2) &&
          servesSearch pid a
            (if (start + end_) / 2 ≤ a then (start + end_) / 2 else start)
            (if (start + end_) / 2 ≤ a then end_ else (start + end_) / 2) rest
      | _ => false

/-- The answers of a peer that serves `serve n` for the height `n` to the
binary search that stands at `start` and `end_`; `fuel` bounds their number. -/
def searchAnswers (pid : String) (serve : Nat → Header) (a : Nat) :
    Nat → Nat → Nat → List Event
  | 0, _, _ => []
  | fuel + 1, start, end_ =>
    if start + 1 < end_ then
      .headers pid [serve ((start + end_) / 2)] ::
        searchAnswers pid serve a fuel
          (if (start + end_) / 2 ≤ a then (start + end_) / 2 else start)
          (if (start + end_) / 2 ≤ a then end_ else (start + end_) / 2)
    else []

/-- A chain store of height `height` that shares with the peer the blocks and
headers of the heights up to `a`, the one of height `n` with hash `n + 1000`. -/
def sharedChain (height a : Nat) : Chain :=
  { currentBlock := height, currentFastBlock := height,
    currentHeader := mkHeader height (height + 2000),
    ancestry := [],
    hasBlock := fun h n => decide (h = n + 1000 ∧ n ≤ a),
    hasFastBlock := fun h n => decide (h = n + 1000 ∧ n ≤ a),
    hasHeader := fun h n => decide (h = n + 1000 ∧ n ≤ a),
    getHeaderByHash := fun h =>
      if 1000 ≤ h ∧ h ≤ a + 1000 then some (mkHeader (h - 1000) h) else none }

/-! ## fetchHeaders: a packet of the contiguous fetch -/

/-- Variable `reorgProtThreshold`. -/
def reorgProtThreshold : Nat := 48

/-- What the downloader and the chain store hold while `fetchHeaders` handles
a packet. -/
structure PacketEnv where
  /-- Value of `d.pivotHeader.Number.Uint64()`, `none` for a nil pivot header. -/
  pivot : Option Nat
  /-- Field `d.committed` is non-zero. -/
  committed : Bool
  /-- Value of `d.lightchain.CurrentHeader().Number.Uint64()`. -/
  currentHeader : Nat
  /-- Value of `d.blockchain.CurrentFastBlock().NumberU64()`. -/
  currentFastBlock : Nat
  /-- Value of `d.blockchain.CurrentBlock().NumberU64()`. -/
  currentBlock : Nat
  /-- Whether the `select` entered for the packet takes the case `<-d.cancelCh`. -/
  cancelled : Bool
  deriving DecidableEq, Repr

/-- The calls and sends `fetchHeaders` makes for a packet. -/
inductive FetchCall where
  /-- Send `d.headerProcCh <- headers`; the empty list is the sentinel nil. -/
  | send (headers : List Header)
  /-- Call `getHeaders(from)`. -/
  | getHeaders (from_ : Nat)
  deriving DecidableEq, Repr

/-- The block of `fetchHeaders` that holds back the last headers of a batch of
the contiguous fetch (`if n := len(headers); n > 0`); `ancestor` is the value
of `from` on entry of `fetchHeaders`. -/
def delayHeaders (mode : SyncMode) (env : PacketEnv) (ancestor : Nat)
    (headers : List Header) : List Header :=
  match headers.getLast? with
  | none => headers
  | some last =>
    let head :=
      if mode = LightSync then env.currentHeader
      else if env.currentFastBlock < env.currentBlock then env.currentBlock
      else env.currentFastBlock
    let head := if head < ancestor then ancestor else head
    if u64add head reorgProtThreshold < last.NumberU64 then
      let delay :=
        if reorgProtHeaderDelay > headers.length then headers.length else reorgProtHeaderDelay
      headers.take (headers.length - delay)
    else headers

/-- The case `packet := <-d.headerCh` of `fetchHeaders` for a packet of the
peer while neither a skeleton nor a pivot request is outstanding: the calls
made, the value of `from` after it, and how `fetchHeaders` returns (`none`
when the loop goes on). -/
def fetchHeadersPacket (mode : SyncMode) (env : PacketEnv) (ancestor from_ : Nat)
    (headers : List Header) : List FetchCall × Nat × Option (Outcome Unit) :=
  if headers.length = 0 then
    if env.committed = false ∧ env.pivot.getD 0 ≤ from_ then
      if env.cancelled then ([], from_, some (.error (.sentinel .errCanceled)))
      else ([.getHeaders from_], from_, none)
    else if env.cancelled then ([], from_, some (.error (.sentinel .errCanceled)))
    else ([.send []], from_, some (.ok ()))
  else
    let headers := delayHeaders mode env ancestor headers
    if headers.length > 0 then
      if env.cancelled then ([], from_, some (.error (.sentinel .errCanceled)))
      else
        ([.send headers, .getHeaders (u64add from_ headers.length)],
          u64add from_ headers.length, none)
    else if env.cancelled then ([], from_, some (.error (.sentinel .errCanceled)))
    else ([.getHeaders from_], from_, none)

/-- The local head in the words of the specification: the current header in
light mode, else the higher of the current fast block and the current block. -/
def specLocalHead (mode : SyncMode) (env : PacketEnv) : Nat :=
  if mode = LightSync then env.currentHeader else max env.currentFastBlock env.currentBlock

/-! ## processHeaders: the rollback point -/

/-- The height of the last header of the chunk of a successful
`InsertHeaderChain` call (a chunk of `processHeaders` is never empty). -/
def insertedHead : ProcCall → Option Nat
  | .insertHeaderChain chunk _ none => some ((chunk.getLast?.map Header.NumberU64).getD 0)
  | _ => none

/-- The heights of the last headers of the chunks inserted successfully, in
the order of the calls. -/
def insertedHeads (calls : List ProcCall) : List Nat := calls.filterMap insertedHead

/-- The rollback point after the chunks inserted so far: `max 1 (head - 2048)`
for the last header `head` of the last chunk inserted successfully. -/
def rollbackSettled (st : ProcState) : Prop :=
  ∀ head, (insertedHeads st.calls).getLast? = some head → st.rollback = max 1 (head - 2048)

/-- Invariant of `processHeaders` in fast mode between two chunks: the
rollback point is 0 before the first chunk is inserted and settled after. -/
def rollbackExact (st : ProcState) : Prop :=
  (insertedHeads st.calls = [] → st.rollback = 0) ∧ rollbackSettled st

/-! # Theorems -/

theorem errorsIs_ne_sentinel {e : GoError} {t u : Sentinel} (h : errorsIs e t = true)
    (hne : t ≠ u) : errEq e u = false := by
  cases e with
  | sentinel s =>
    simp only [errorsIs, decide_eq_true_eq] at h
    subst h
    simp [errEq, hne]
  | wrapf msg inner => simp [errEq]

/-- C2: for every error of the inner synchronise that is or wraps BadPeer,
StallingPeer, UnsyncedPeer, EmptyHeaderSet, InvalidAncestor, InvalidChain,
Timeout or TooOld, Synchronise calls dropPeer exactly once, with the id it
was given, when the callback is configured (and never when it is not), and
returns that same error. -/
theorem Synchronise_drops_listed_kinds (id : String) (err : GoError) (k : Sentinel)
    (hk : k ∈ dropKinds) (his : errorsIs err k = true) :
    Synchronise true id (some err) = { ret := some err, dropped := [id] } ∧
    Synchronise false id (some err) = { ret := some err, dropped := [] } := by
  have hb : errEq err .errBusy = false := by
    apply errorsIs_ne_sentinel his
    intro h; subst h; simp [dropKinds] at hk
  have hc : errEq err .errCanceled = false := by
    apply errorsIs_ne_sentinel his
    intro h; subst h; simp [dropKinds] at hk
  simp only [dropKinds, List.mem_cons, List.mem_singleton, List.not_mem_nil, or_false] at hk
  rcases hk with h | h | h | h | h | h | h | h <;> subst h <;>
    simp [Synchronise, hb, hc, his]

theorem Synchronise_drops_listed_kinds_witness :
    Synchronise true "peer1"
        (some (.wrapf "returned headers 3 != requested 2" (.sentinel .errBadPeer))) =
      { ret := some (.wrapf "returned headers 3 != requested 2" (.sentinel .errBadPeer)),
        dropped := ["peer1"] } ∧
    Synchronise false "peer1"
        (some (.wrapf "returned headers 3 != requested 2" (.sentinel .errBadPeer))) =
      { ret := some (.wrapf "returned headers 3 != requested 2" (.sentinel .errBadPeer)),
        dropped := [] } :=
  Synchronise_drops_listed_kinds "peer1" _ .errBadPeer (by simp [dropKinds]) (by rfl)

/-- C3 (as stated, refuted): a sync that ends with PeersUnavailable makes
Synchronise call dropPeer for the sync peer. -/
theorem Synchronise_peersUnavailable_counterexample :
    (Synchronise true "peer1" (some (.sentinel .errPeersUnavailable))).dropped ≠ [] := by
  decide

/-- C3 (amended): when the inner synchronise ends with an error that is or
wraps PeersUnavailable, Synchronise calls dropPeer exactly once with the sync
peer id when the callback is configured, makes no call when it is not, and
returns the error unchanged. -/
theorem Synchronise_peersUnavailable_drops (id : String) (err : GoError)
    (his : errorsIs err .errPeersUnavailable = true) :
    Synchronise true id (some err) = { ret := some err, dropped := [id] } ∧
    Synchronise false id (some err) = { ret := some err, dropped := [] } := by
  have hb : errEq err .errBusy = false := errorsIs_ne_sentinel his (by decide)
  have hc : errEq err .errCanceled = false := errorsIs_ne_sentinel his (by decide)
  simp [Synchronise, hb, hc, his]

theorem Synchronise_peersUnavailable_drops_witness :
    Synchronise true "peer1" (some (.sentinel .errPeersUnavailable)) =
      { ret := some (.sentinel .errPeersUnavailable), dropped := ["peer1"] } ∧
    Synchronise false "peer1" (some (.sentinel .errPeersUnavailable)) =
      { ret := some (.sentinel .errPeersUnavailable), dropped := [] } :=
  Synchronise_peersUnavailable_drops "peer1" _ (by rfl)

/-! ## fetchHead -/

theorem fetchHead_skip (mode : SyncMode) (checkpoint : Nat) (pid : String) (pre evs : List Event)
    (hpre : ∀ e ∈ pre, ignorable pid e = true) :
    fetchHead mode checkpoint pid (pre ++ evs) = fetchHead mode checkpoint pid evs := by
  induction pre with
  | nil => rfl
  | cons e pre ih =>
    have he := hpre e (List.mem_cons_self _ _)
    have ih := ih (fun x hx => hpre x (List.mem_cons_of_mem _ hx))
    cases e with
    | cancel => simp [ignorable] at he
    | timeout => simp [ignorable] at he
    | stray => simpa [fetchHead] using ih
    | headers peerId hs =>
      simp only [ignorable, decide_eq_true_eq] at he
      simp only [List.cons_append, fetchHead, he, ne_eq, not_false_eq_true, if_true]
      exact ih

/-- C7 (as stated, refuted): in fast mode, where two headers are requested, a
response holding a single header of height 10 is accepted as the head. -/
theorem fetchHead_exact_count_counterexample :
    fetchHeadCount FastSync = 2 ∧
    fetchHead FastSync 0 "peer1"
        [.headers "peer1" [{ number := 10, hash := 7, parentHash := 6, root := 1 }]] =
      .ok ({ number := 10, hash := 7, parentHash := 6, root := 1 }, none) := by
  decide

theorem fetchHead_single (mode : SyncMode) (checkpoint : Nat) (pid : String) (head : Header)
    (rest : List Event) :
    fetchHead mode checkpoint pid (.headers pid [head] :: rest) =
      if (mode = FastSync ∨ mode = LightSync) ∧ head.NumberU64 < checkpoint then
        .error (.wrapf "remote head below checkpoint" (.sentinel .errUnsyncedPeer))
      else if mode = FastSync ∧ head.NumberU64 > fsMinFullBlocks then
        .error (.wrapf "no pivot included along head header" (.sentinel .errBadPeer))
      else .ok (head, none) := by
  by_cases hm : mode = FastSync <;> simp [fetchHead, fetchHeadCount, hm]

theorem fetchHead_long (mode : SyncMode) (checkpoint : Nat) (pid : String) (hs : List Header)
    (rest : List Event) (h : hs.length = 0 ∨ fetchHeadCount mode < hs.length) :
    fetchHead mode checkpoint pid (.headers pid hs :: rest) =
      .error (.wrapf "returned headers != requested" (.sentinel .errBadPeer)) := by
  cases hs with
  | nil => simp [fetchHead]
  | cons head more =>
    rcases h with h | h
    · simp at h
    · simp only [fetchHead, ne_eq, not_true_eq_false, if_false]
      rw [if_pos]
      simpa [fetchHeadCount] using h

/-- C7 (amended): fetchHead rejects as a bad peer every response that is empty
or longer than the requested count (1 in full and light mode, 2 in fast mode);
a response it accepts holds exactly the requested count, except that in fast
mode a single header of height at most 64 is accepted as head without pivot;
in fast mode a single header of height above 64 that is not below the
checkpoint is rejected as a bad peer. -/
theorem fetchHead_response_count (mode : SyncMode) (checkpoint : Nat) (pid : String)
    (pre rest : List Event) (hs : List Header)
    (hpre : ∀ e ∈ pre, ignorable pid e = true) :
    (fetchHeadCount FullSync = 1 ∧ fetchHeadCount LightSync = 1 ∧ fetchHeadCount FastSync = 2) ∧
    ((hs.length = 0 ∨ fetchHeadCount mode < hs.length) →
      ∃ msg, fetchHead mode checkpoint pid (pre ++ .headers pid hs :: rest) =
        .error (.wrapf msg (.sentinel .errBadPeer))) ∧
    (∀ r, fetchHead mode checkpoint pid (pre ++ .headers pid hs :: rest) = .ok r →
      hs.length = fetchHeadCount mode ∨
      (mode = FastSync ∧ ∃ head : Header, hs = [head] ∧ head.NumberU64 ≤ 64 ∧ r = (head, none))) ∧
    (∀ head : Header, mode = FastSync → hs = [head] → checkpoint ≤ head.NumberU64 →
      64 < head.NumberU64 →
      ∃ msg, fetchHead mode checkpoint pid (pre ++ .headers pid hs :: rest) =
        .error (.wrapf msg (.sentinel .errBadPeer))) := by
  rw [fetchHead_skip mode checkpoint pid pre _ hpre]
  refine ⟨by decide, ?_, ?_, ?_⟩
  · intro h
    exact ⟨_, fetchHead_long mode checkpoint pid hs rest h⟩
  · intro r hr
    by_cases hlong : hs.length = 0 ∨ fetchHeadCount mode < hs.length
    · rw [fetchHead_long mode checkpoint pid hs rest hlong] at hr
      cases hr
    · have h0 : hs.length ≠ 0 := fun h => hlong (Or.inl h)
      have h1 : hs.length ≤ fetchHeadCount mode := by
        by_contra h
        exact hlong (Or.inr (by omega))
      by_cases hm : mode = FastSync
      · by_cases h2 : hs.length = 2
        · left
          simp [fetchHeadCount, hm, h2]
        · right
          have hone : hs.length = 1 := by
            simp only [fetchHeadCount, hm, if_true] at h1
            omega
          obtain ⟨head, hhs⟩ := List.length_eq_one.mp hone
          subst hhs
          rw [fetchHead_single] at hr
          split_ifs at hr with ha hb
          · simp only [Outcome.ok.injEq] at hr
            refine ⟨hm, head, rfl, ?_, hr.symm⟩
            have := not_and.mp hb hm
            simpa [fsMinFullBlocks] using this
      · left
        simp only [fetchHeadCount, hm, if_false] at h1 ⊢
        omega
  · intro head hm hhs hcp h64
    subst hhs
    refine ⟨"no pivot included along head header", ?_⟩
    rw [fetchHead_single, if_neg (by omega), if_pos]
    exact ⟨hm, by simpa [fsMinFullBlocks] using h64⟩

theorem fetchHead_response_count_witness :
    ∃ msg, fetchHead FastSync 0 "peer1"
        ([.stray, .headers "peer2" []] ++ .headers "peer1" [mkHeader 100 7] :: []) =
      .error (.wrapf msg (.sentinel .errBadPeer)) :=
  (fetchHead_response_count FastSync 0 "peer1" [.stray, .headers "peer2" []] []
      [mkHeader 100 7] (by decide)).2.2.2 (mkHeader 100 7) rfl rfl (by decide) (by decide)

/-- C8 (as stated, refuted): in full mode a head of height 5 is accepted
although the checkpoint is 100; and in light mode a response of two headers
whose head is below the checkpoint is rejected as a bad peer, not as an
unsynced one. -/
theorem fetchHead_checkpoint_counterexample :
    fetchHead FullSync 100 "peer1"
        [.headers "peer1" [{ number := 5, hash := 7, parentHash := 6, root := 1 }]] =
      .ok ({ number := 5, hash := 7, parentHash := 6, root := 1 }, none) ∧
    fetchHead LightSync 100 "peer1"
        [.headers "peer1" [{ number := 5, hash := 7, parentHash := 6, root := 1 },
                           { number := 4, hash := 6, parentHash := 5, root := 1 }]] =
      .error (.wrapf "returned headers != requested" (.sentinel .errBadPeer)) := by
  decide

/-- C8 (amended): in fast and light mode fetchHead rejects with UnsyncedPeer
every response of at least one and at most the requested number of headers
whose head header has a height below the configured checkpoint; in full mode
the checkpoint is not consulted. -/
theorem fetchHead_checkpoint (mode : SyncMode) (checkpoint : Nat) (pid : String)
    (pre rest : List Event) (head : Header) (more : List Header)
    (hpre : ∀ e ∈ pre, ignorable pid e = true)
    (hlen : (head :: more).length ≤ fetchHeadCount mode)
    (hbelow : head.number < checkpoint) :
    ((mode = FastSync ∨ mode = LightSync) →
      ∃ msg, fetchHead mode checkpoint pid (pre ++ .headers pid (head :: more) :: rest) =
        .error (.wrapf msg (.sentinel .errUnsyncedPeer))) ∧
    (mode = FullSync →
      fetchHead mode checkpoint pid (pre ++ .headers pid (head :: more) :: rest) =
        .ok (head, none)) := by
  rw [fetchHead_skip mode checkpoint pid pre _ hpre]
  have hu : head.NumberU64 < checkpoint :=
    lt_of_le_of_lt (Nat.mod_le _ _) hbelow
  constructor
  · intro hm
    refine ⟨"remote head below checkpoint", ?_⟩
    simp only [fetchHead, ne_eq, not_true_eq_false, if_false]
    rw [if_neg (by simpa [fetchHeadCount] using hlen), if_pos ⟨hm, hu⟩]
  · intro hm
    subst hm
    have hmore : more = [] := by
      simp only [List.length_cons, fetchHeadCount] at hlen
      rw [if_neg (by decide)] at hlen
      exact List.length_eq_zero.mp (by omega)
    subst hmore
    simp [fetchHead, fetchHeadCount, FullSync, FastSync, LightSync]

theorem fetchHead_checkpoint_witness :
    ((LightSync = FastSync ∨ LightSync = LightSync) →
      ∃ msg, fetchHead LightSync 100 "peer1"
          ([.stray] ++ .headers "peer1"
            ({ number := 5, hash := 7, parentHash := 6, root := 1 } :: []) :: []) =
        .error (.wrapf msg (.sentinel .errUnsyncedPeer))) ∧
    (LightSync = FullSync →
      fetchHead LightSync 100 "peer1"
          ([.stray] ++ .headers "peer1"
            ({ number := 5, hash := 7, parentHash := 6, root := 1 } :: []) :: []) =
        .ok ({ number := 5, hash := 7, parentHash := 6, root := 1 }, none)) :=
  fetchHead_checkpoint LightSync 100 "peer1" [.stray] []
    { number := 5, hash := 7, parentHash := 6, root := 1 } []
    (by simp [ignorable]) (by decide) (by decide)

/-! ## findAncestor -/

theorem toInt64_of_lt {n : Nat} (h : n < 2 ^ 63) : toInt64 n = (n : Int) := by
  have h1 : n % 2 ^ 64 = n := Nat.mod_eq_of_lt (by omega)
  simp only [toInt64, h1]
  rw [if_pos h]

theorem spanProbe_skip (mode : SyncMode) (c : Chain) (pid : String) (from_ skip : Int) (max : Nat)
    (pre evs : List Event) (hpre : ∀ e ∈ pre, ignorable pid e = true) :
    spanProbe mode c pid from_ skip max (pre ++ evs) = spanProbe mode c pid from_ skip max evs := by
  induction pre with
  | nil => rfl
  | cons e pre ih =>
    have he := hpre e (List.mem_cons_self _ _)
    have ih := ih (fun x hx => hpre x (List.mem_cons_of_mem _ hx))
    cases e with
    | cancel => simp [ignorable] at he
    | timeout => simp [ignorable] at he
    | stray => simpa [spanProbe] using ih
    | headers peerId hs =>
      simp only [ignorable, decide_eq_true_eq] at he
      simp only [List.cons_append, spanProbe, he, ne_eq, not_false_eq_true, if_true]
      exact ih

theorem orderingOk_false_of_mismatch (from_ skip : Int) (hs : List Header) :
    ∀ (k i : Nat) (h : Header), hs[i]? = some h →
      h.NumberI64 ≠ from_ + ((k + i : Nat) : Int) * (skip + 1) →
      orderingOk from_ skip k hs = false := by
  induction hs with
  | nil => intro k i h hget; simp at hget
  | cons x xs ih =>
    intro k i h hget hne
    by_cases hx : x.NumberI64 ≠ from_ + (k : Int) * (skip + 1)
    · simp [orderingOk, hx]
    · simp only [orderingOk, hx, if_false]
      cases i with
      | zero =>
        simp only [List.getElem?_cons_zero, Option.some.injEq] at hget
        subst hget
        simp at hne hx
        exact absurd hx hne
      | succ j =>
        simp only [List.getElem?_cons_succ] at hget
        apply ih (k + 1) j h hget
        have : k + 1 + j = k + (j + 1) := by omega
        rw [this]
        exact hne

/-- C4 (as stated, refuted): with remote height 201 and local height 0 the
span request asks for heights 24, 40, ...; a response with heights 24 and 41
makes findAncestor fail with an error that wraps InvalidChain and is not a
BadPeer error. -/
theorem findAncestor_span_mismatch_counterexample :
    calculateRequestSpan 201 0 = (24, 12, 15, 200) ∧
    findAncestor FullSync (emptyChain 0) 0 "peer1" 201
        [.headers "peer1" [mkHeader 24 5, mkHeader 41 6]] =
      .error (.wrapf "head headers broke chain ordering" (.sentinel .errInvalidChain)) ∧
    errorsIs (.wrapf "head headers broke chain ordering" (.sentinel .errInvalidChain))
      .errBadPeer = false := by
  decide

/-- C4 (amended): for every span-probe response of findAncestor that holds,
at some index i, a header whose height differs from the requested position
from + i*(skip+1), findAncestor fails with an error of kind InvalidChain, on
which Synchronise drops the peer. -/
theorem findAncestor_span_mismatch (mode : SyncMode) (c : Chain) (genesis : Nat) (pid : String)
    (remoteHeight : Nat) (pre rest : List Event) (hs : List Header) (i : Nat) (h : Header)
    (hpre : ∀ e ∈ pre, ignorable pid e = true)
    (hget : hs[i]? = some h) (hfit : h.number < 2 ^ 63)
    (hmis : (h.number : Int) ≠
      (calculateRequestSpan remoteHeight (localHeightOf mode c)).1 +
        (i : Int) * ((calculateRequestSpan remoteHeight (localHeightOf mode c)).2.2.1 + 1)) :
    ∃ err, findAncestor mode c genesis pid remoteHeight (pre ++ .headers pid hs :: rest) =
        .error err ∧
      errorsIs err .errInvalidChain = true ∧ errorsIs err .errBadPeer = false ∧
      Synchronise true pid (some err) = { ret := some err, dropped := [pid] } := by
  refine ⟨.wrapf "head headers broke chain ordering" (.sentinel .errInvalidChain), ?_, rfl, rfl, rfl⟩
  have hne : hs.length ≠ 0 := by
    intro h0
    rw [List.length_eq_zero.mp h0] at hget
    simp at hget
  have hord := orderingOk_false_of_mismatch
    (calculateRequestSpan remoteHeight (localHeightOf mode c)).1
    (calculateRequestSpan remoteHeight (localHeightOf mode c)).2.2.1 hs 0 i h hget
    (by simpa [Header.NumberI64, toInt64_of_lt hfit] using hmis)
  simp only [findAncestor, spanProbe_skip mode c pid _ _ _ pre _ hpre, spanProbe, ne_eq,
    not_true_eq_false, if_false, hne, hord, if_true]

theorem findAncestor_span_mismatch_witness :
    ∃ err, findAncestor FullSync (emptyChain 0) 0 "peer1" 201
        ([.stray] ++ .headers "peer1" [mkHeader 24 5, mkHeader 41 6] :: []) = .error err ∧
      errorsIs err .errInvalidChain = true ∧ errorsIs err .errBadPeer = false ∧
      Synchronise true "peer1" (some err) = { ret := some err, dropped := ["peer1"] } :=
  findAncestor_span_mismatch FullSync (emptyChain 0) 0 "peer1" 201 [.stray] []
    [mkHeader 24 5, mkHeader 41 6] 1 (mkHeader 41 6) (by simp [ignorable]) (by rfl)
    (by decide) (by decide)

theorem wrapInt64_of_range {i : Int} (h1 : -(2 ^ 63) ≤ i) (h2 : i < 2 ^ 63) :
    wrapInt64 i = i := by
  unfold wrapInt64
  omega

theorem specFloor_ge (mode : SyncMode) (localHeight genesis : Nat) :
    -1 ≤ specFloor mode localHeight genesis := by
  unfold specFloor
  simp only
  split_ifs <;> omega

theorem specFloor_lt (mode : SyncMode) (localHeight genesis : Nat)
    (hl : localHeight < 2 ^ 63) (hg : genesis < 2 ^ 63) :
    specFloor mode localHeight genesis < 2 ^ 63 := by
  unfold specFloor
  simp only
  split_ifs <;> omega

theorem ancestorFloor_eq_specFloor (mode : SyncMode) (c : Chain) (genesis : Nat)
    (hl : localHeightOf mode c < 2 ^ 63) (hg : (ancestorFloor mode c genesis).2 < 2 ^ 63) :
    (ancestorFloor mode c genesis).1 =
      specFloor mode (localHeightOf mode c) (ancestorFloor mode c genesis).2 := by
  by_cases hm : mode = LightSync
  · simp only [ancestorFloor, hm, if_true] at hg ⊢
    simp only [specFloor, if_true]
    rw [toInt64_of_lt hg]
    rw [wrapInt64_of_range (by omega) (by omega)]
    by_cases hge : localHeightOf LightSync c ≥ lightMaxForkAncestry
    · subst hm
      rw [if_pos hge, if_pos hge, toInt64_of_lt (by omega)]
      split_ifs <;> omega
    · subst hm
      rw [if_neg hge, if_neg hge]
      split_ifs <;> omega
  · simp only [ancestorFloor, hm, if_false, specFloor]
    by_cases hge : localHeightOf mode c ≥ fullMaxForkAncestry
    · rw [if_pos hge, if_pos hge, toInt64_of_lt (by omega)]
      omega
    · rw [if_neg hge, if_neg hge]

theorem toInt64_gt_floor {n : Nat} {f : Int} (hn : n < 2 ^ 64) (_hf : -1 ≤ f)
    (h : ¬ toInt64 n ≤ f) : (n : Int) > f := by
  have h1 : n % 2 ^ 64 = n := Nat.mod_eq_of_lt hn
  simp only [toInt64, h1] at h
  split_ifs at h <;> omega

theorem toInt64_le_floor {n : Nat} {f : Int} (hf : f < 2 ^ 63) (h : (n : Int) ≤ f) :
    toInt64 n ≤ f := by
  rw [toInt64_of_lt (by omega)]
  exact h

theorem spanScan_lt (mode : SyncMode) (c : Chain) (from_ : Int) (max : Nat) (hs : List Header) :
    (spanScan mode c from_ max hs).1 < 2 ^ 64 := by
  induction hs with
  | nil => simp [spanScan]
  | cons x xs ih =>
    simp only [spanScan]
    split_ifs
    · exact ih
    · exact Nat.mod_lt _ (by norm_num)
    · exact ih

theorem spanProbe_ok_lt (mode : SyncMode) (c : Chain) (pid : String) (from_ skip : Int) (max : Nat)
    (evs : List Event) :
    ∀ number hash rest, spanProbe mode c pid from_ skip max evs = .ok ((number, hash), rest) →
      number < 2 ^ 64 := by
  induction evs with
  | nil => intro number hash rest h; simp [spanProbe] at h
  | cons ev evs ih =>
    intro number hash rest h
    cases ev with
    | cancel => simp [spanProbe] at h
    | timeout => simp [spanProbe] at h
    | stray => exact ih number hash rest (by simpa [spanProbe] using h)
    | headers peerId hs =>
      simp only [spanProbe] at h
      split_ifs at h with h1 h2 h3
      · exact ih number hash rest h
      · simp only [Outcome.ok.injEq, Prod.mk.injEq] at h
        have := spanScan_lt mode c from_ max hs.reverse
        rw [h.1] at this
        exact this

theorem binarySearch_lt (mode : SyncMode) (c : Chain) (pid : String) (evs : List Event) :
    ∀ (start end_ s : Nat), start < 2 ^ 64 →
      binarySearch mode c pid start end_ evs = .ok s → s < 2 ^ 64 := by
  induction evs with
  | nil =>
    intro start end_ s hs h
    simp only [binarySearch] at h
    split_ifs at h
    simp only [Outcome.ok.injEq] at h
    omega
  | cons ev rest ih =>
    intro start end_ s hs h
    simp only [binarySearch] at h
    split_ifs at h with hlt
    · cases ev with
      | cancel => simp at h
      | timeout => simp at h
      | stray => exact ih _ _ _ hs h
      | headers peerId headers =>
        simp only at h
        split_ifs at h with hp
        · exact ih _ _ _ hs h
        · split at h
          · split_ifs at h with hk
            · exact ih _ _ _ hs h
            · split at h
              · simp at h
              · split_ifs at h
                refine ih _ _ _ ?_ h
                have : u64add start end_ < 2 ^ 64 := Nat.mod_lt _ (by norm_num)
                omega
          · simp at h
    · simp only [Outcome.ok.injEq] at h
      omega

/-- C5: findAncestor returns a height n only if n is above the floor, the
floor being localHeight - maxForkAncestry when localHeight >= maxForkAncestry
and -1 otherwise, raised to genesis - 1 in light mode; and whenever the
ancestor resolved by the span probe, or by the binary search, is at or below
the floor, findAncestor fails with InvalidAncestor.  Heights are taken in the
range of int64, in which the code compares them. -/
theorem findAncestor_above_floor (mode : SyncMode) (c : Chain) (genesis : Nat) (pid : String)
    (remoteHeight : Nat) (evs : List Event)
    (hl : localHeightOf mode c < 2 ^ 63) (hg : (ancestorFloor mode c genesis).2 < 2 ^ 63) :
    (∀ n, findAncestor mode c genesis pid remoteHeight evs = .ok n →
      (n : Int) > specFloor mode (localHeightOf mode c) (ancestorFloor mode c genesis).2) ∧
    (∀ number hash rest,
      spanProbe mode c pid (calculateRequestSpan remoteHeight (localHeightOf mode c)).1
        (calculateRequestSpan remoteHeight (localHeightOf mode c)).2.2.1
        (calculateRequestSpan remoteHeight (localHeightOf mode c)).2.2.2 evs =
          .ok ((number, hash), rest) →
      hash ≠ 0 →
      (number : Int) ≤ specFloor mode (localHeightOf mode c) (ancestorFloor mode c genesis).2 →
      findAncestor mode c genesis pid remoteHeight evs = .error (.sentinel .errInvalidAncestor)) ∧
    (∀ number rest start,
      spanProbe mode c pid (calculateRequestSpan remoteHeight (localHeightOf mode c)).1
        (calculateRequestSpan remoteHeight (localHeightOf mode c)).2.2.1
        (calculateRequestSpan remoteHeight (localHeightOf mode c)).2.2.2 evs =
          .ok ((number, 0), rest) →
      binarySearch mode c pid
        (specFloor mode (localHeightOf mode c) (ancestorFloor mode c genesis).2).toNat
        remoteHeight rest = .ok start →
      (start : Int) ≤ specFloor mode (localHeightOf mode c) (ancestorFloor mode c genesis).2 →
      findAncestor mode c genesis pid remoteHeight evs = .error (.sentinel .errInvalidAncestor)) := by
  have hfl := ancestorFloor_eq_specFloor mode c genesis hl hg
  have hge := specFloor_ge mode (localHeightOf mode c) (ancestorFloor mode c genesis).2
  have hlt := specFloor_lt mode (localHeightOf mode c) (ancestorFloor mode c genesis).2 hl hg
  generalize specFloor mode (localHeightOf mode c) (ancestorFloor mode c genesis).2 = fl at *
  have hstart : (if fl > 0 then toUint64 fl else 0) = fl.toNat := by
    unfold toUint64
    split_ifs with h
    · have : fl % 2 ^ 64 = fl := Int.emod_eq_of_lt (by omega) (by omega)
      rw [this]
    · omega
  simp only [findAncestor, hfl, hstart]
  generalize hsp : spanProbe mode c pid (calculateRequestSpan remoteHeight (localHeightOf mode c)).1
      (calculateRequestSpan remoteHeight (localHeightOf mode c)).2.2.1
      (calculateRequestSpan remoteHeight (localHeightOf mode c)).2.2.2 evs = sp
  refine ⟨?_, ?_, ?_⟩
  · intro n hn
    cases sp with
    | error e => simp at hn
    | waiting => simp at hn
    | panic => simp at hn
    | ok r =>
      obtain ⟨⟨number, hash⟩, rest⟩ := r
      have hnum := spanProbe_ok_lt mode c pid _ _ _ evs number hash rest hsp
      simp only at hn
      split_ifs at hn with hh hle
      · simp only [Outcome.ok.injEq] at hn
        subst hn
        exact toInt64_gt_floor hnum hge hle
      · generalize hbs : binarySearch mode c pid fl.toNat remoteHeight rest = bs at hn
        cases bs with
        | error e => simp at hn
        | waiting => simp at hn
        | panic => simp at hn
        | ok s =>
          simp only at hn
          split_ifs at hn with hle
          simp only [Outcome.ok.injEq] at hn
          subst hn
          have hs := binarySearch_lt mode c pid rest fl.toNat remoteHeight s (by omega) hbs
          exact toInt64_gt_floor hs hge hle
  · intro number hash rest hok hh hle
    subst hok
    simp only [ne_eq, hh, not_false_eq_true, if_true]
    rw [if_pos (toInt64_le_floor hlt hle)]
  · intro number rest start hok hbs hle
    subst hok
    simp only [ne_eq, not_true_eq_false, if_false, hbs]
    rw [if_pos (toInt64_le_floor hlt hle)]

theorem findAncestor_above_floor_witness :
    (∀ n, findAncestor FullSync genesisOnlyChain 0 "peer1" 2
        [.headers "peer1" [mkHeader 0 5, mkHeader 2 6], .headers "peer1" [mkHeader 1 7]] = .ok n →
      (n : Int) > specFloor FullSync (localHeightOf FullSync genesisOnlyChain)
        (ancestorFloor FullSync genesisOnlyChain 0).2) ∧
    (∀ number hash rest,
      spanProbe FullSync genesisOnlyChain "peer1"
        (calculateRequestSpan 2 (localHeightOf FullSync genesisOnlyChain)).1
        (calculateRequestSpan 2 (localHeightOf FullSync genesisOnlyChain)).2.2.1
        (calculateRequestSpan 2 (localHeightOf FullSync genesisOnlyChain)).2.2.2
        [.headers "peer1" [mkHeader 0 5, mkHeader 2 6], .headers "peer1" [mkHeader 1 7]] =
          .ok ((number, hash), rest) →
      hash ≠ 0 →
      (number : Int) ≤ specFloor FullSync (localHeightOf FullSync genesisOnlyChain)
        (ancestorFloor FullSync genesisOnlyChain 0).2 →
      findAncestor FullSync genesisOnlyChain 0 "peer1" 2
        [.headers "peer1" [mkHeader 0 5, mkHeader 2 6], .headers "peer1" [mkHeader 1 7]] =
          .error (.sentinel .errInvalidAncestor)) ∧
    (∀ number rest start,
      spanProbe FullSync genesisOnlyChain "peer1"
        (calculateRequestSpan 2 (localHeightOf FullSync genesisOnlyChain)).1
        (calculateRequestSpan 2 (localHeightOf FullSync genesisOnlyChain)).2.2.1
        (calculateRequestSpan 2 (localHeightOf FullSync genesisOnlyChain)).2.2.2
        [.headers "peer1" [mkHeader 0 5, mkHeader 2 6], .headers "peer1" [mkHeader 1 7]] =
          .ok ((number, 0), rest) →
      binarySearch FullSync genesisOnlyChain "peer1"
        (specFloor FullSync (localHeightOf FullSync genesisOnlyChain)
          (ancestorFloor FullSync genesisOnlyChain 0).2).toNat
        2 rest = .ok start →
      (start : Int) ≤ specFloor FullSync (localHeightOf FullSync genesisOnlyChain)
        (ancestorFloor FullSync genesisOnlyChain 0).2 →
      findAncestor FullSync genesisOnlyChain 0 "peer1" 2
        [.headers "peer1" [mkHeader 0 5, mkHeader 2 6], .headers "peer1" [mkHeader 1 7]] =
          .error (.sentinel .errInvalidAncestor)) :=
  findAncestor_above_floor FullSync genesisOnlyChain 0 "peer1" 2
    [.headers "peer1" [mkHeader 0 5, mkHeader 2 6], .headers "peer1" [mkHeader 1 7]]
    (by decide) (by decide)

theorem toInt64_lt (n : Nat) : toInt64 n < 2 ^ 63 := by
  unfold toInt64
  split_ifs <;> omega

theorem wrapInt64_lt (i : Int) : wrapInt64 i < 2 ^ 63 := by
  unfold wrapInt64
  omega

theorem ancestorFloor_lt (mode : SyncMode) (c : Chain) (genesis : Nat) :
    (ancestorFloor mode c genesis).1 < 2 ^ 63 := by
  by_cases hm : mode = LightSync
  · simp only [ancestorFloor, hm, if_true]
    have a1 := toInt64_lt (localHeightOf LightSync c - lightMaxForkAncestry)
    have a2 := wrapInt64_lt (toInt64 genesis - 1)
    by_cases hg : genesis = 0
    · simp only [hg, if_true]
      generalize genesisWalk _ _ _ = gw
      have a3 := wrapInt64_lt (toInt64 gw - 1)
      split_ifs <;> omega
    · simp only [hg, if_false]
      split_ifs <;> omega
  · simp only [ancestorFloor, hm, if_false]
    have a1 := toInt64_lt (localHeightOf mode c - fullMaxForkAncestry)
    split_ifs <;> omega

theorem spanScan_known (mode : SyncMode) (c : Chain) (from_ : Int) (max : Nat) (hs : List Header) :
    (spanScan mode c from_ max hs).2 ≠ 0 →
      ∃ h ∈ hs, known mode c h.hash h.NumberU64 = true ∧
        h.NumberU64 = (spanScan mode c from_ max hs).1 := by
  induction hs with
  | nil => simp [spanScan]
  | cons x xs ih =>
    intro hne
    simp only [spanScan] at hne ⊢
    split_ifs at hne ⊢ with h1 h2
    · obtain ⟨h, hmem, hk⟩ := ih hne
      exact ⟨h, List.mem_cons_of_mem _ hmem, hk⟩
    · exact ⟨x, List.mem_cons_self _ _, h2, rfl⟩
    · obtain ⟨h, hmem, hk⟩ := ih hne
      exact ⟨h, List.mem_cons_of_mem _ hmem, hk⟩

theorem spanScan_unknown (mode : SyncMode) (c : Chain) (from_ : Int) (max : Nat) (hs : List Header)
    (hno : ∀ h ∈ hs, known mode c h.hash h.NumberU64 = false) :
    spanScan mode c from_ max hs = (0, 0) := by
  induction hs with
  | nil => rfl
  | cons x xs ih =>
    have hx := hno x (List.mem_cons_self _ _)
    have ih := ih (fun h hh => hno h (List.mem_cons_of_mem _ hh))
    simp [spanScan, hx, ih]

theorem spanProbe_served (mode : SyncMode) (c : Chain) (pid : String) (from_ skip : Int)
    (max : Nat) (evs : List Event) :
    ∀ r rest, spanProbe mode c pid from_ skip max evs = .ok (r, rest) →
      (∃ hs, Event.headers pid hs ∈ evs ∧ r = spanScan mode c from_ max hs.reverse) ∧
      (∀ e ∈ rest, e ∈ evs) := by
  induction evs with
  | nil => intro r rest h; simp [spanProbe] at h
  | cons ev evs ih =>
    intro r rest h
    cases ev with
    | cancel => simp [spanProbe] at h
    | timeout => simp [spanProbe] at h
    | stray =>
      obtain ⟨⟨hs, hmem, hr⟩, hsub⟩ := ih r rest (by simpa [spanProbe] using h)
      exact ⟨⟨hs, List.mem_cons_of_mem _ hmem, hr⟩, fun e he => List.mem_cons_of_mem _ (hsub e he)⟩
    | headers peerId hs =>
      simp only [spanProbe] at h
      split_ifs at h with h1 h2 h3
      · obtain ⟨⟨hs', hmem, hr⟩, hsub⟩ := ih r rest h
        exact ⟨⟨hs', List.mem_cons_of_mem _ hmem, hr⟩,
          fun e he => List.mem_cons_of_mem _ (hsub e he)⟩
      · simp only [Outcome.ok.injEq, Prod.mk.injEq] at h
        simp only [ne_eq, not_not] at h1
        subst h1
        refine ⟨⟨hs, List.mem_cons_self _ _, h.1.symm⟩, ?_⟩
        intro e he
        rw [← h.2] at he
        exact List.mem_cons_of_mem _ he

theorem binarySearch_confirmed (mode : SyncMode) (c : Chain) (pid : String) (evs : List Event) :
    ∀ (start end_ s : Nat), binarySearch mode c pid start end_ evs = .ok s →
      s = start ∨
      ∃ hs h stored, Event.headers pid hs ∈ evs ∧ h ∈ hs ∧
        known mode c h.hash h.NumberU64 = true ∧
        c.getHeaderByHash h.hash = some stored ∧ stored.NumberU64 = s := by
  induction evs with
  | nil =>
    intro start end_ s h
    simp only [binarySearch] at h
    split_ifs at h
    simp only [Outcome.ok.injEq] at h
    exact Or.inl h.symm
  | cons ev rest ih =>
    intro start end_ s h
    have lift : ∀ st en, binarySearch mode c pid st en rest = .ok s →
        s = st ∨ ∃ hs h stored, Event.headers pid hs ∈ ev :: rest ∧ h ∈ hs ∧
          known mode c h.hash h.NumberU64 = true ∧
          c.getHeaderByHash h.hash = some stored ∧ stored.NumberU64 = s := by
      intro st en hst
      rcases ih st en s hst with h1 | ⟨hs, h, stored, hmem, hrest⟩
      · exact Or.inl h1
      · exact Or.inr ⟨hs, h, stored, List.mem_cons_of_mem _ hmem, hrest⟩
    simp only [binarySearch] at h
    split_ifs at h with hlt
    · cases ev with
      | cancel => simp at h
      | timeout => simp at h
      | stray => exact lift _ _ h
      | headers peerId headers =>
        simp only at h
        split_ifs at h with hp
        · exact lift _ _ h
        · simp only [ne_eq, not_not] at hp
          subst hp
          split at h
          · rename_i header
            split_ifs at h with hk
            · exact lift _ _ h
            · split at h
              · simp at h
              · rename_i stored hstored
                split_ifs at h with hc
                simp only [ne_eq, not_not] at hc
                rcases lift _ _ h with h1 | h2
                · right
                  refine ⟨[header], header, stored, List.mem_cons_self _ _,
                    List.mem_singleton.mpr rfl, ?_, hstored, ?_⟩
                  · simpa using hk
                  · rw [h1, hc]
                · exact Or.inr h2
          · simp at h
    · simp only [Outcome.ok.injEq] at h
      exact Or.inl h.symm

theorem binarySearch_unknown (mode : SyncMode) (c : Chain) (pid : String) (answers : List Event) :
    ∀ (start end_ : Nat), start < 2 ^ 63 → end_ < 2 ^ 63 →
      end_ - start < 2 ^ answers.length →
      (∀ ev ∈ answers, ∃ h, ev = Event.headers pid [h] ∧
        known mode c h.hash h.NumberU64 = false) →
      binarySearch mode c pid start end_ answers = .ok start := by
  induction answers with
  | nil =>
    intro start end_ hs he hd _
    have h1 : u64add start 1 = start + 1 := by
      unfold u64add
      exact Nat.mod_eq_of_lt (by omega)
    simp only [binarySearch, h1]
    simp only [List.length_nil, pow_zero] at hd
    rw [if_neg (by omega)]
  | cons ev rest ih =>
    intro start end_ hs he hd hall
    have h1 : u64add start 1 = start + 1 := by
      unfold u64add
      exact Nat.mod_eq_of_lt (by omega)
    have h2 : u64add start end_ = start + end_ := by
      unfold u64add
      exact Nat.mod_eq_of_lt (by omega)
    obtain ⟨h, hev, hk⟩ := hall ev (List.mem_cons_self _ _)
    subst hev
    simp only [binarySearch, h1, h2, ne_eq, not_true_eq_false, if_false, hk, if_true]
    split_ifs with hlt
    · apply ih start ((start + end_) / 2) hs (by omega)
      · simp only [List.length_cons, pow_succ] at hd
        omega
      · exact fun e he => hall e (List.mem_cons_of_mem _ he)
    · rfl

/-- C6 (as stated, refuted): a peer on a conflicting genesis serves headers of
which none is known locally; with local height 0 and remote height 2 the span
probe and the binary search find nothing and findAncestor returns height 0,
which was never confirmed, instead of InvalidAncestor. -/
theorem findAncestor_unknown_counterexample :
    findAncestor FullSync genesisOnlyChain 0 "peer1" 2
        [.headers "peer1" [mkHeader 0 5, mkHeader 2 6], .headers "peer1" [mkHeader 1 7]] =
      .ok 0 ∧
    known FullSync genesisOnlyChain 5 0 = false ∧
    known FullSync genesisOnlyChain 6 2 = false ∧
    known FullSync genesisOnlyChain 7 1 = false := by
  decide

/-- C6 (amended): findAncestor returns a height only if a header served by the
peer was confirmed to be locally known at that height, or the height is 0 and
the floor is negative (height 0 is the start of the binary search and is never
probed); if no header served by the peer in either phase is locally known and
the peer answers every request, findAncestor returns height 0 when the floor
is negative and signals InvalidAncestor when the floor is 0 or more. -/
theorem findAncestor_confirmed_or_unprobed (mode : SyncMode) (c : Chain) (genesis : Nat)
    (pid : String) (remoteHeight : Nat) :
    (∀ evs n, findAncestor mode c genesis pid remoteHeight evs = .ok n →
      (∃ hs h, Event.headers pid hs ∈ evs ∧ h ∈ hs ∧
        known mode c h.hash h.NumberU64 = true ∧
        (h.NumberU64 = n ∨
          ∃ stored, c.getHeaderByHash h.hash = some stored ∧ stored.NumberU64 = n)) ∨
      (n = 0 ∧ (ancestorFloor mode c genesis).1 < 0)) ∧
    (∀ pre hs answers, (∀ e ∈ pre, ignorable pid e = true) → hs ≠ [] →
      orderingOk (calculateRequestSpan remoteHeight (localHeightOf mode c)).1
        (calculateRequestSpan remoteHeight (localHeightOf mode c)).2.2.1 0 hs = true →
      remoteHeight < 2 ^ 63 → 64 ≤ answers.length →
      (∀ h ∈ hs, known mode c h.hash h.NumberU64 = false) →
      (∀ ev ∈ answers, ∃ h, ev = Event.headers pid [h] ∧
        known mode c h.hash h.NumberU64 = false) →
      findAncestor mode c genesis pid remoteHeight (pre ++ .headers pid hs :: answers) =
        if (ancestorFloor mode c genesis).1 < 0 then .ok 0
        else .error (.sentinel .errInvalidAncestor)) := by
  have hfl := ancestorFloor_lt mode c genesis
  generalize hfe : (ancestorFloor mode c genesis).1 = fl at *
  have hstart : (if fl > 0 then toUint64 fl else 0) = fl.toNat := by
    unfold toUint64
    split_ifs with h
    · have : fl % 2 ^ 64 = fl := Int.emod_eq_of_lt (by omega) (by omega)
      rw [this]
    · omega
  have hfinal : toInt64 fl.toNat ≤ fl ↔ 0 ≤ fl := by
    rw [toInt64_of_lt (by omega)]
    omega
  constructor
  · intro evs n hn
    simp only [findAncestor, hfe, hstart] at hn
    generalize hsp : spanProbe mode c pid (calculateRequestSpan remoteHeight (localHeightOf mode c)).1
      (calculateRequestSpan remoteHeight (localHeightOf mode c)).2.2.1
      (calculateRequestSpan remoteHeight (localHeightOf mode c)).2.2.2 evs = sp at hn
    cases sp with
    | error e => simp at hn
    | waiting => simp at hn
    | panic => simp at hn
    | ok r =>
      obtain ⟨⟨number, hash⟩, rest⟩ := r
      obtain ⟨⟨hs, hmem, hr⟩, hsub⟩ := spanProbe_served mode c pid _ _ _ evs _ _ hsp
      simp only at hn
      split_ifs at hn with hh hle
      · simp only [Outcome.ok.injEq] at hn
        subst hn
        left
        have hne : (spanScan mode c (calculateRequestSpan remoteHeight (localHeightOf mode c)).1
            (calculateRequestSpan remoteHeight (localHeightOf mode c)).2.2.2 hs.reverse).2 ≠ 0 := by
          rw [← hr]
          exact hh
        obtain ⟨h, hin, hk, hnum⟩ := spanScan_known mode c _ _ _ hne
        refine ⟨hs, h, hmem, List.mem_reverse.mp hin, hk, Or.inl ?_⟩
        rw [hnum, ← hr]
      · generalize hbs : binarySearch mode c pid fl.toNat remoteHeight rest = bs at hn
        cases bs with
        | error e => simp at hn
        | waiting => simp at hn
        | panic => simp at hn
        | ok s =>
          simp only at hn
          split_ifs at hn with hle
          simp only [Outcome.ok.injEq] at hn
          subst hn
          rcases binarySearch_confirmed mode c pid rest _ _ _ hbs with h1 | ⟨hs', h, stored, hm', hin, hk, hst, hnum⟩
          · right
            rw [h1] at hle
            rw [hfinal] at hle
            refine ⟨?_, by omega⟩
            rw [h1]
            omega
          · left
            exact ⟨hs', h, hsub _ hm', hin, hk, Or.inr ⟨stored, hst, hnum⟩⟩
  · intro pre hs answers hpre hne hord hrem hlen hno hans
    have hscan := spanScan_unknown mode c (calculateRequestSpan remoteHeight (localHeightOf mode c)).1
      (calculateRequestSpan remoteHeight (localHeightOf mode c)).2.2.2 hs.reverse
      (fun h hh => hno h (List.mem_reverse.mp hh))
    have hlen0 : hs.length ≠ 0 := fun h0 => hne (List.length_eq_zero.mp h0)
    have hpow : 2 ^ 64 ≤ 2 ^ answers.length := Nat.pow_le_pow_right (by norm_num) hlen
    have hbs := binarySearch_unknown mode c pid answers fl.toNat remoteHeight (by omega) hrem
      (by omega) hans
    simp only [findAncestor, hfe, spanProbe_skip mode c pid _ _ _ pre _ hpre, spanProbe, ne_eq,
      not_true_eq_false, if_false, hlen0, hord, Bool.true_eq_false, hscan, hstart, hbs]
    by_cases h0 : 0 ≤ fl
    · rw [if_pos (hfinal.mpr h0), if_neg (by omega)]
    · have hz : fl.toNat = 0 := by omega
      rw [if_neg (fun h => h0 (hfinal.mp h)), if_pos (by omega), hz]

theorem findAncestor_confirmed_or_unprobed_witness :
    ((∃ hs h, Event.headers "peer1" hs ∈
          [Event.headers "peer1" [mkHeader 0 5, mkHeader 2 6],
            Event.headers "peer1" [mkHeader 1 7]] ∧ h ∈ hs ∧
        known FullSync genesisOnlyChain h.hash h.NumberU64 = true ∧
        (h.NumberU64 = 0 ∨
          ∃ stored, genesisOnlyChain.getHeaderByHash h.hash = some stored ∧
            stored.NumberU64 = 0)) ∨
      (0 = 0 ∧ (ancestorFloor FullSync genesisOnlyChain 0).1 < 0)) ∧
    findAncestor FullSync genesisOnlyChain 0 "peer1" 2
        ([.stray] ++ .headers "peer1" [mkHeader 0 5, mkHeader 2 6] ::
          List.replicate 64 (.headers "peer1" [mkHeader 1 7])) =
      if (ancestorFloor FullSync genesisOnlyChain 0).1 < 0 then .ok 0
      else .error (.sentinel .errInvalidAncestor) :=
  ⟨(findAncestor_confirmed_or_unprobed FullSync genesisOnlyChain 0 "peer1" 2).1
      [Event.headers "peer1" [mkHeader 0 5, mkHeader 2 6], Event.headers "peer1" [mkHeader 1 7]]
      0 (by decide),
    (findAncestor_confirmed_or_unprobed FullSync genesisOnlyChain 0 "peer1" 2).2
      [.stray] [mkHeader 0 5, mkHeader 2 6] (List.replicate 64 (.headers "peer1" [mkHeader 1 7]))
      (by simp [ignorable]) (by simp) (by decide) (by norm_num) (by simp) (by decide)
      (fun ev hev => ⟨mkHeader 1 7, (List.mem_replicate.mp hev).2, by decide⟩)⟩

/-! ## processHeaders -/

theorem contiguousFrom_get (hs : List Header) :
    ∀ (start i : Nat) (h : Header), contiguousFrom start hs = true → hs[i]? = some h →
      h.number = start + i := by
  induction hs with
  | nil => intro start i h _ hget; simp at hget
  | cons x xs ih =>
    intro start i h hc hget
    simp only [contiguousFrom, Bool.and_eq_true, decide_eq_true_eq] at hc
    cases i with
    | zero =>
      simp only [List.getElem?_cons_zero, Option.some.injEq] at hget
      subst hget
      omega
    | succ j =>
      simp only [List.getElem?_cons_succ] at hget
      have := ih (start + 1) j h hc.2 hget
      omega

theorem contiguousFrom_drop (hs : List Header) :
    ∀ (start k : Nat), contiguousFrom start hs = true →
      contiguousFrom (start + k) (hs.drop k) = true := by
  induction hs with
  | nil => intro start k _; simp [contiguousFrom]
  | cons x xs ih =>
    intro start k hc
    cases k with
    | zero => simpa using hc
    | succ j =>
      simp only [contiguousFrom, Bool.and_eq_true, decide_eq_true_eq] at hc
      have := ih (start + 1) j hc.2
      simp only [List.drop_succ_cons]
      have h2 : start + (j + 1) = start + 1 + j := by omega
      rw [h2]
      exact this

theorem contiguousFrom_append (a b : List Header) :
    ∀ start, contiguousFrom start (a ++ b) = true →
      contiguousFrom start a = true ∧ contiguousFrom (start + a.length) b = true := by
  induction a with
  | nil => intro start h; simpa [contiguousFrom] using h
  | cons x xs ih =>
    intro start h
    simp only [List.cons_append, contiguousFrom, Bool.and_eq_true, decide_eq_true_eq] at h
    obtain ⟨h1, h2⟩ := ih (start + 1) h.2
    simp only [contiguousFrom, Bool.and_eq_true, decide_eq_true_eq, List.length_cons]
    refine ⟨⟨h.1, h1⟩, ?_⟩
    have h3 : start + (xs.length + 1) = start + 1 + xs.length := by omega
    rw [h3]
    exact h2

theorem noFailLast_append_schedule (calls : List ProcCall) (chunk : List Header) (origin : Nat) :
    noFailLast (calls ++ [ProcCall.schedule chunk origin]) := by
  intro pre chunk' frequency n err h
  have := (List.append_inj' h rfl).2
  simp at this

theorem noFailLast_append_insert (calls : List ProcCall) (chunk : List Header) (frequency : Nat) :
    noFailLast (calls ++ [ProcCall.insertHeaderChain chunk frequency none]) := by
  intro pre chunk' frequency' n err h
  have := (List.append_inj' h rfl).2
  simp at this

theorem rollbackBound_of_noFailLast (origin0 : Nat) (st : ProcState) (h : noFailLast st.calls) :
    rollbackBound origin0 st := by
  intro pre chunk frequency n err hf hc
  exact absurd hc (h pre chunk frequency n err)

theorem insertChunk_fast (origin0 : Nat) (e : ChunkEnv) (st : ProcState) (headers : List Header)
    (next limit : Nat) (h1 : 1 ≤ origin0) (hinv : rollbackInv origin0 st next)
    (hnext : origin0 ≤ next)
    (hc : contiguousFrom next headers = true) (hfit : next + headers.length < 2 ^ 64)
    (hl1 : 1 ≤ limit) (hl2 : limit ≤ headers.length) :
    (∀ st' out, insertChunk FastSync e st (headers.take limit) = (st', some out) →
      rollbackBound origin0 st') ∧
    (∀ st', insertChunk FastSync e st (headers.take limit) = (st', none) →
      rollbackInv origin0 st' (next + limit)) := by
  obtain ⟨hl, hlget⟩ : ∃ hl, headers[limit - 1]? = some hl :=
    ⟨headers[limit - 1], List.getElem?_eq_getElem (by omega)⟩
  obtain ⟨h0, h0get⟩ : ∃ h0, headers[0]? = some h0 :=
    ⟨headers[0], List.getElem?_eq_getElem (by omega)⟩
  have hlnum := contiguousFrom_get headers next (limit - 1) hl hc hlget
  have h0num := contiguousFrom_get headers next 0 h0 hc h0get
  have hlast : (headers.take limit).getLast? = some hl := by
    rw [List.getLast?_eq_getElem?, List.length_take, Nat.min_eq_left hl2,
      List.getElem?_take_of_lt (by omega)]
    exact hlget
  have hfirst : (headers.take limit).head? = some h0 := by
    rw [List.head?_eq_getElem?, List.getElem?_take_of_lt (by omega)]
    exact h0get
  have hlu : hl.NumberU64 = next + limit - 1 := by
    unfold Header.NumberU64
    omega
  have h0u : h0.NumberU64 = next := by
    unfold Header.NumberU64
    omega
  have hA : next + limit = next + limit - 1 + 1 := by omega
  have hB : origin0 ≤ next + limit - 1 := by omega
  obtain ⟨hnf, hrb⟩ := hinv
  have hlen : (List.take limit headers).length = limit := by
    rw [List.length_take, Nat.min_eq_left hl2]
  constructor
  · intro st' out hres
    simp only [insertChunk, hlast, hfirst, Option.map_some', Option.getD_some, true_or, if_true,
      true_and, hlu, h0u, hlen] at hres
    generalize (if u64add (next + limit - 1) fsHeaderForceVerify > e.pivot.getD 0 then 1
      else fsHeaderCheckFrequency) = freq at hres
    cases hins : e.insert with
    | none =>
      simp only [hins] at hres
      split_ifs at hres <;> simp at hres
    | some r =>
      obtain ⟨n, err⟩ := r
      simp only [hins] at hres
      have hst : st'.calls = st.calls ++
            [ProcCall.insertHeaderChain (List.take limit headers) freq (some (n, err))] ∧
          st'.rollback = (if n > 0 ∧ st.rollback = 0 then next else st.rollback) := by
        by_cases hn : n < limit
        · rw [if_pos hn] at hres
          simp only [Prod.mk.injEq] at hres
          rw [← hres.1]
          split_ifs <;> exact ⟨rfl, rfl⟩
        · rw [if_neg hn] at hres
          simp only [Prod.mk.injEq] at hres
          rw [← hres.1]
          split_ifs <;> exact ⟨rfl, rfl⟩
      obtain ⟨hcs, hrs⟩ := hst
      intro pre chunk frequency n' err' hf hcalls hget hpos
      rw [hcs] at hcalls
      have hlast := (List.append_inj' hcalls rfl).2
      simp only [List.cons.injEq, ProcCall.insertHeaderChain.injEq, Option.some.injEq,
        Prod.mk.injEq, and_true] at hlast
      obtain ⟨hch, _, hn, _⟩ := hlast
      subst hch
      subst hn
      have hnlt : n < limit := by
        by_contra hge
        rw [List.getElem?_take, if_neg hge] at hget
        simp at hget
      rw [List.getElem?_take_of_lt hnlt] at hget
      have hfnum := contiguousFrom_get headers next n hf hc hget
      rw [hrs] at hpos ⊢
      rcases hrb with ⟨hr0, hno⟩ | ⟨head, hhead, hoh, hrh⟩
      · split_ifs at hpos ⊢ with hcond
        · omega
        · omega
      · split_ifs at hpos ⊢ with hcond
        · omega
        · omega
  · intro st' hres
    simp only [insertChunk, hlast, hfirst, Option.map_some', Option.getD_some, true_or, if_true,
      true_and, hlu, h0u, hlen] at hres
    generalize (if u64add (next + limit - 1) fsHeaderForceVerify > e.pivot.getD 0 then 1
      else fsHeaderCheckFrequency) = freq at hres
    cases hins : e.insert with
    | some r =>
      obtain ⟨n, err⟩ := r
      simp only [hins] at hres
      split_ifs at hres <;> simp at hres
    | none =>
      simp only [hins, fsHeaderSafetyNet, u64sub] at hres
      have hst : st'.calls = st.calls ++
            [ProcCall.insertHeaderChain (List.take limit headers) freq none] ∧
          st'.rollback = max 1 (next + limit - 1 - 2048) := by
        have hcases : (st'.calls = st.calls ++
              [ProcCall.insertHeaderChain (List.take limit headers) freq none]) ∧
            st'.rollback =
              (if (((next + limit - 1) % 2 ^ 64 + 2 ^ 64 - st.rollback % 2 ^ 64) % 2 ^ 64 > 2048)
                then ((next + limit - 1) % 2 ^ 64 + 2 ^ 64 - 2048 % 2 ^ 64) % 2 ^ 64 else 1) := by
          split_ifs at hres ⊢ with hcond
          · simp only [Prod.mk.injEq, and_true] at hres
            rw [← hres]
            exact ⟨rfl, rfl⟩
          · simp only [Prod.mk.injEq, and_true] at hres
            rw [← hres]
            exact ⟨rfl, rfl⟩
        refine ⟨hcases.1, ?_⟩
        rw [hcases.2]
        rcases hrb with ⟨hr0, hno⟩ | ⟨head, hhead, hoh, hrh⟩
        · split_ifs <;> omega
        · split_ifs <;> omega
      obtain ⟨hcs, hrs⟩ := hst
      refine ⟨?_, Or.inr ⟨next + limit - 1, hA, hB, hrs⟩⟩
      rw [hcs]
      exact noFailLast_append_insert _ _ _

theorem scheduleChunk_calls (mode : SyncMode) (e : ChunkEnv) (st : ProcState)
    (chunk : List Header) (hnf : noFailLast st.calls) :
    ∀ st' o, scheduleChunk mode e st chunk = (st', o) →
      noFailLast st'.calls ∧ st'.rollback = st.rollback := by
  intro st' o h
  unfold scheduleChunk at h
  by_cases hm : mode = FullSync ∨ mode = FastSync
  · rw [if_pos hm] at h
    cases hq : e.queueWait with
    | cancelled =>
      simp only [hq, Prod.mk.injEq] at h
      rw [← h.1]
      exact ⟨hnf, rfl⟩
    | stuck =>
      simp only [hq, Prod.mk.injEq] at h
      rw [← h.1]
      exact ⟨hnf, rfl⟩
    | room =>
      simp only [hq] at h
      by_cases hs : e.scheduled ≠ chunk.length
      · rw [if_pos hs] at h
        simp only [Prod.mk.injEq] at h
        rw [← h.1]
        exact ⟨noFailLast_append_schedule _ _ _, rfl⟩
      · rw [if_neg hs] at h
        simp only [Prod.mk.injEq] at h
        rw [← h.1]
        exact ⟨noFailLast_append_schedule _ _ _, rfl⟩
  · rw [if_neg hm] at h
    simp only [Prod.mk.injEq] at h
    rw [← h.1]
    exact ⟨hnf, rfl⟩

theorem processChunks_fast (origin0 : Nat) (env : Nat → ChunkEnv) (h1 : 1 ≤ origin0) :
    ∀ (fuel : Nat) (st : ProcState) (headers : List Header) (next : Nat),
      headers.length ≤ fuel → rollbackInv origin0 st next → origin0 ≤ next →
      contiguousFrom next headers = true → next + headers.length < 2 ^ 64 →
      (∀ st' out, processChunks FastSync env fuel st headers = (st', some out) →
        rollbackBound origin0 st') ∧
      (∀ st', processChunks FastSync env fuel st headers = (st', none) →
        rollbackInv origin0 st' (next + headers.length)) := by
  intro fuel
  induction fuel with
  | zero =>
    intro st headers next hlen hinv _ _ _
    have h0 : headers.length = 0 := by omega
    constructor
    · intro st' out h
      simp [processChunks] at h
    · intro st' h
      simp only [processChunks, Prod.mk.injEq, and_true] at h
      rw [← h, h0]
      exact hinv
  | succ fuel ih =>
    intro st headers next hlen hinv hnext hc hfit
    by_cases h0 : headers.length = 0
    · constructor
      · intro st' out h
        simp [processChunks, h0] at h
      · intro st' h
        simp only [processChunks, h0, if_true, Prod.mk.injEq, and_true] at h
        rw [← h, h0]
        exact hinv
    · simp only [processChunks, h0, if_false]
      by_cases hcan : (env st.chunkIndex).cancelled = true
      · simp only [hcan, if_true]
        constructor
        · intro st' out hst
          simp only [Prod.mk.injEq] at hst
          apply rollbackBound_of_noFailLast
          rw [← hst.1]
          exact hinv.1
        · intro st' hst
          simp at hst
      · simp only [hcan, Bool.false_eq_true, if_false]
        generalize hlim : (if maxHeadersProcess > headers.length then headers.length
          else maxHeadersProcess) = limit
        have hl1 : 1 ≤ limit := by
          rw [← hlim]
          unfold maxHeadersProcess
          split_ifs <;> omega
        have hl2 : limit ≤ headers.length := by
          rw [← hlim]
          unfold maxHeadersProcess
          split_ifs <;> omega
        have hinv1 : rollbackInv origin0
            { rollback := st.rollback, origin := st.origin, chunkIndex := st.chunkIndex + 1,
              calls := st.calls } next := hinv
        obtain ⟨hfail, hok⟩ := insertChunk_fast origin0 (env st.chunkIndex)
          { rollback := st.rollback, origin := st.origin, chunkIndex := st.chunkIndex + 1,
            calls := st.calls } headers next limit h1 hinv1 hnext hc hfit hl1 hl2
        cases hic : insertChunk FastSync (env st.chunkIndex)
          { rollback := st.rollback, origin := st.origin, chunkIndex := st.chunkIndex + 1,
            calls := st.calls } (List.take limit headers) with
        | mk st2 o2 =>
          cases o2 with
          | some out2 =>
            simp only
            constructor
            · intro st' out hst
              simp only [Prod.mk.injEq] at hst
              rw [← hst.1]
              exact hfail st2 out2 hic
            · intro st' hst
              simp at hst
          | none =>
            have hinv2 := hok st2 hic
            simp only
            cases hsc : scheduleChunk FastSync (env st.chunkIndex) st2 (List.take limit headers) with
            | mk st3 o3 =>
              obtain ⟨hnf3, hrb3⟩ := scheduleChunk_calls FastSync (env st.chunkIndex) st2
                (List.take limit headers) hinv2.1 st3 o3 hsc
              cases o3 with
              | some out3 =>
                simp only
                constructor
                · intro st' out hst
                  simp only [Prod.mk.injEq] at hst
                  rw [← hst.1]
                  exact rollbackBound_of_noFailLast origin0 st3 hnf3
                · intro st' hst
                  simp at hst
              | none =>
                simp only
                have hinv3 : rollbackInv origin0
                    { rollback := st3.rollback, origin := u64add st3.origin limit,
                      chunkIndex := st3.chunkIndex, calls := st3.calls } (next + limit) := by
                  refine ⟨hnf3, ?_⟩
                  simp only [hrb3]
                  exact hinv2.2
                have hrec := ih
                  { rollback := st3.rollback, origin := u64add st3.origin limit,
                    chunkIndex := st3.chunkIndex, calls := st3.calls }
                  (List.drop limit headers) (next + limit)
                  (by rw [List.length_drop]; omega) hinv3 (by omega)
                  (contiguousFrom_drop headers next limit hc)
                  (by rw [List.length_drop]; omega)
                have hsum : next + limit + (List.drop limit headers).length =
                    next + headers.length := by
                  rw [List.length_drop]
                  omega
                rw [hsum] at hrec
                exact hrec

theorem processLoop_fast (origin0 : Nat) (env : Nat → ChunkEnv) (td blockTd headerTd : Nat)
    (h1 : 1 ≤ origin0) :
    ∀ (evs : List ProcEvent) (st : ProcState) (got : Bool) (next : Nat),
      rollbackInv origin0 st next → origin0 ≤ next →
      contiguousFrom next (runHeaders evs) = true →
      next + (runHeaders evs).length < 2 ^ 64 →
      rollbackBound origin0 (processLoop FastSync env td blockTd headerTd st got evs).1 := by
  intro evs
  induction evs with
  | nil =>
    intro st got next hinv _ _ _
    exact rollbackBound_of_noFailLast origin0 st hinv.1
  | cons ev rest ih =>
    intro st got next hinv hnext hc hfit
    cases ev with
    | cancel => exact rollbackBound_of_noFailLast origin0 st hinv.1
    | run headers =>
      simp only [runHeaders, List.length_append] at hc hfit
      obtain ⟨hc1, hc2⟩ := contiguousFrom_append headers (runHeaders rest) next hc
      simp only [processLoop]
      by_cases h0 : headers.length = 0
      · simp only [h0, if_true]
        split_ifs
        · exact rollbackBound_of_noFailLast origin0 st hinv.1
        · exact rollbackBound_of_noFailLast origin0 st hinv.1
        · exact rollbackBound_of_noFailLast origin0 _ hinv.1
      · simp only [h0, if_false]
        obtain ⟨hstop, hgo⟩ := processChunks_fast origin0 env h1 headers.length st headers next
          (le_refl _) hinv hnext hc1 (by omega)
        cases hpc : processChunks FastSync env headers.length st headers with
        | mk st2 o2 =>
          cases o2 with
          | some out => exact hstop st2 out hpc
          | none =>
            simp only
            exact ih st2 true (next + headers.length) (hgo st2 hpc) (by omega) hc2 (by omega)

/-- C9 (as stated, refuted): in light mode with a pivot header set (check
frequency 100), a first run of heights 1..3 is inserted and the second run
4..6 fails at height 5; processHeaders sets the head back to 3, the parent of
the failing chunk, which is above max(5 - 2048, ancestor) = 0. -/
theorem processHeaders_rollback_counterexample :
    (processHeaders LightSync (failingEnv (some 10000) 1) 10 5 5 1
        [.run (headerRun 1 3), .run (headerRun 4 3)]).calls =
      [.insertHeaderChain (headerRun 1 3) 100 none,
       .insertHeaderChain (headerRun 4 3) 100 (some (1, .sentinel (.foreign 1)))] ∧
    (processHeaders LightSync (failingEnv (some 10000) 1) 10 5 5 1
        [.run (headerRun 1 3), .run (headerRun 4 3)]).outcome =
      .error (.wrapf "invalid header encountered" (.sentinel .errInvalidChain)) ∧
    (processHeaders LightSync (failingEnv (some 10000) 1) 10 5 5 1
        [.run (headerRun 1 3), .run (headerRun 4 3)]).setHead = some 3 ∧
    (headerRun 4 3)[1]? = some (mkHeader 5 1005) ∧
    contiguousFrom 1 (runHeaders [.run (headerRun 1 3), .run (headerRun 4 3)]) = true ∧
    ¬ ((3 : Int) ≤ max (((mkHeader 5 1005).number : Int) - 2048) ((1 : Int) - 1)) := by
  decide

/-- C9 (amended): in fast mode, for every rollback performed by processHeaders
after a header-insertion failure at header h_f, the height passed to SetHead
is at most max(h_f.number - 2048, ancestor), where ancestor = origin - 1 and
the header heights increase by one from origin on along the processed runs. -/
theorem processHeaders_rollback_bound (env : Nat → ChunkEnv) (td blockTd headerTd origin : Nat)
    (evs : List ProcEvent) (h1 : 1 ≤ origin)
    (hc : contiguousFrom origin (runHeaders evs) = true)
    (hfit : origin + (runHeaders evs).length < 2 ^ 64)
    (pre : List ProcCall) (chunk : List Header) (frequency n : Nat) (err : GoError)
    (hf : Header) (x : Nat)
    (hcalls : (processHeaders FastSync env td blockTd headerTd origin evs).calls =
      pre ++ [.insertHeaderChain chunk frequency (some (n, err))])
    (hget : chunk[n]? = some hf)
    (hset : (processHeaders FastSync env td blockTd headerTd origin evs).setHead = some x) :
    (x : Int) ≤ max ((hf.number : Int) - 2048) ((origin : Int) - 1) := by
  have hinit : rollbackInv origin
      { rollback := 0, origin := origin, chunkIndex := 0, calls := [] } origin := by
    refine ⟨?_, Or.inl ⟨rfl, rfl⟩⟩
    intro pre chunk frequency n err h
    have := congrArg List.length h
    simp at this
  have hb := processLoop_fast origin env td blockTd headerTd h1 evs
    { rollback := 0, origin := origin, chunkIndex := 0, calls := [] } false origin hinit
    (le_refl _) hc hfit
  unfold processHeaders at hcalls hset
  cases hpl : processLoop FastSync env td blockTd headerTd
    { rollback := 0, origin := origin, chunkIndex := 0, calls := [] } false evs with
  | mk st out =>
    rw [hpl] at hb hcalls hset
    simp only at hb
    cases out with
    | waiting => simp at hset
    | ok u =>
      simp only at hcalls hset
      split_ifs at hcalls hset with hpos
      · simp only [Option.some.injEq] at hset
        rw [← hset]
        exact hb pre chunk frequency n err hf hcalls hget hpos
    | error e =>
      simp only at hcalls hset
      split_ifs at hcalls hset with hpos
      · simp only [Option.some.injEq] at hset
        rw [← hset]
        exact hb pre chunk frequency n err hf hcalls hget hpos
    | panic =>
      simp only at hcalls hset
      split_ifs at hcalls hset with hpos
      · simp only [Option.some.injEq] at hset
        rw [← hset]
        exact hb pre chunk frequency n err hf hcalls hget hpos

theorem processHeaders_rollback_bound_witness :
    ((0 : Nat) : Int) ≤ max (((mkHeader 5 1005).number : Int) - 2048) (((1 : Nat) : Int) - 1) :=
  processHeaders_rollback_bound (failingEnv none 1) 10 5 5 1
    [.run (headerRun 1 3), .run (headerRun 4 3)] (by decide) (by decide) (by decide)
    [.insertHeaderChain (headerRun 1 3) 1 none, .schedule (headerRun 1 3) 1]
    (headerRun 4 3) 1 1 (.sentinel (.foreign 1)) (mkHeader 5 1005) 0
    (by decide) (by decide) (by decide)

/-! ## fetchParts -/

theorem expireLoop_unset (cancelPeer : String) (l : List ExpiredPeer) :
    expireLoop false cancelPeer l = (l.filterMap (expireAction false), none) := by
  induction l with
  | nil => rfl
  | cons p rest ih =>
    by_cases hr : p.registered = true
    · by_cases hf : p.fails > 2
      · simp [expireLoop, expireAction, hr, hf, ih]
      · simp [expireLoop, expireAction, hr, hf, ih]
    · simp [expireLoop, expireAction, hr, ih]

theorem expireLoop_no_master (cancelPeer : String) (l : List ExpiredPeer)
    (hno : ∀ p ∈ l, masterHit cancelPeer p = false) :
    expireLoop true cancelPeer l = (l.filterMap (expireAction true), none) := by
  induction l with
  | nil => rfl
  | cons p rest ih =>
    have hp := hno p (List.mem_cons_self _ _)
    have ih := ih (fun q hq => hno q (List.mem_cons_of_mem _ hq))
    by_cases hr : p.registered = true
    · by_cases hf : p.fails > 2
      · simp [expireLoop, expireAction, hr, hf, ih]
      · have hne : p.pid ≠ cancelPeer := by
          intro he
          simp [masterHit, hr, he] at hp
          omega
        simp [expireLoop, expireAction, hr, hf, hne, ih]
    · simp [expireLoop, expireAction, hr, ih]

theorem expireLoop_master (cancelPeer : String) (m : ExpiredPeer) (after : List ExpiredPeer)
    (hm : masterHit cancelPeer m = true) :
    ∀ before : List ExpiredPeer, (∀ p ∈ before, masterHit cancelPeer p = false) →
      expireLoop true cancelPeer (before ++ m :: after) =
        (before.filterMap (expireAction true) ++ [.dropPeer m.pid, .cancel],
          some (.sentinel .errTimeout)) := by
  intro before
  induction before with
  | nil =>
    intro _
    simp only [masterHit, Bool.and_eq_true, decide_eq_true_eq] at hm
    obtain ⟨⟨hr, hf⟩, hp⟩ := hm
    have hf2 : ¬ m.fails > 2 := by omega
    simp [expireLoop, hr, hf2, hp]
  | cons p rest ih =>
    intro hno
    have hp := hno p (List.mem_cons_self _ _)
    have ih := ih (fun q hq => hno q (List.mem_cons_of_mem _ hq))
    by_cases hr : p.registered = true
    · by_cases hf : p.fails > 2
      · simp [expireLoop, expireAction, hr, hf, ih]
      · have hne : p.pid ≠ cancelPeer := by
          intro he
          simp [masterHit, hr, he] at hp
          omega
        simp [expireLoop, expireAction, hr, hf, hne, ih]
    · simp [expireLoop, expireAction, hr, ih]

/-- C10 (as stated, refuted): without a dropPeer callback the master peer
with one expiry is neither dropped nor does the round return Timeout; and with
a callback, a registered peer with three expiries that comes after the master
peer in the iteration is not marked idle, because the round has returned. -/
theorem fetchPartsRound_expiry_counterexample :
    fetchPartsRound false "master" false
        (quietRound [{ pid := "master", fails := 1, registered := true }]) =
      { actions := [], ret := none } ∧
    fetchPartsRound true "master" false
        (quietRound [{ pid := "master", fails := 1, registered := true },
                     { pid := "other", fails := 3, registered := true }]) =
      { actions := [.dropPeer "master", .cancel],
        ret := some (.error (.sentinel .errTimeout)) } := by
  decide

/-- C10 (amended): in a fetchParts scheduling round with a dropPeer callback,
the registered peers reported by expire() are handled in iteration order: a
peer with f > 2 is only marked idle with 0 accepted items, a peer with f <= 2
is dropped through dropPeer; at the first such dropped peer that is the master
peer the sync is cancelled and fetchParts returns Timeout at once, the peers
after it being left alone, whereas dropping non-master peers does not end the
fetch (the round goes on with its scheduling part).  Without a callback a peer
with f <= 2 is left alone, master or not, and the round goes on. -/
theorem fetchPartsRound_expiry (cancelPeer : String) (finished : Bool) (env : RoundEnv)
    (hpeers : env.peerCount ≠ 0) :
    (∀ p : ExpiredPeer, p.registered = true →
      (p.fails > 2 → expireAction true p = some (.setIdle p.pid 0) ∧
        expireAction false p = some (.setIdle p.pid 0)) ∧
      (p.fails ≤ 2 → expireAction true p = some (.dropPeer p.pid) ∧
        expireAction false p = none)) ∧
    ((∀ p ∈ env.expired, masterHit cancelPeer p = false) →
      fetchPartsRound true cancelPeer finished env =
        { actions := env.expired.filterMap (expireAction true) ++
            (scheduleParts finished env).actions,
          ret := (scheduleParts finished env).ret }) ∧
    (∀ before m after, env.expired = before ++ m :: after →
      (∀ p ∈ before, masterHit cancelPeer p = false) → masterHit cancelPeer m = true →
      fetchPartsRound true cancelPeer finished env =
        { actions := before.filterMap (expireAction true) ++ [.dropPeer m.pid, .cancel],
          ret := some (.error (.sentinel .errTimeout)) }) ∧
    fetchPartsRound false cancelPeer finished env =
      { actions := env.expired.filterMap (expireAction false) ++
          (scheduleParts finished env).actions,
        ret := (scheduleParts finished env).ret } := by
  refine ⟨?_, ?_, ?_, ?_⟩
  · intro p hr
    constructor
    · intro hf
      simp [expireAction, hr, hf]
    · intro hf
      have hf2 : ¬ p.fails > 2 := by omega
      simp [expireAction, hr, hf2]
  · intro hno
    simp only [fetchPartsRound, hpeers, if_false, expireLoop_no_master cancelPeer _ hno]
  · intro before m after hexp hno hm
    simp only [fetchPartsRound, hpeers, if_false, hexp,
      expireLoop_master cancelPeer m after hm before hno]
  · simp only [fetchPartsRound, hpeers, if_false, expireLoop_unset]

theorem fetchPartsRound_expiry_witness :
    fetchPartsRound true "master" false
        (quietRound [{ pid := "slow", fails := 3, registered := true },
                     { pid := "stalled", fails := 1, registered := true },
                     { pid := "master", fails := 2, registered := true },
                     { pid := "other", fails := 3, registered := true }]) =
      { actions := [.setIdle "slow" 0, .dropPeer "stalled", .dropPeer "master", .cancel],
        ret := some (.error (.sentinel .errTimeout)) } :=
  (fetchPartsRound_expiry "master" false
      (quietRound [{ pid := "slow", fails := 3, registered := true },
                   { pid := "stalled", fails := 1, registered := true },
                   { pid := "master", fails := 2, registered := true },
                   { pid := "other", fails := 3, registered := true }])
      (by decide)).2.2.1
    [{ pid := "slow", fails := 3, registered := true },
     { pid := "stalled", fails := 1, registered := true }]
    { pid := "master", fails := 2, registered := true }
    [{ pid := "other", fails := 3, registered := true }]
    rfl (by decide) (by decide)

/-! ## processFastSyncContent -/

theorem pivotCommitted_append (calls ext : List ChainCall) (pv : Nat)
    (h : pivotCommitted calls pv) : pivotCommitted (calls ++ ext) pv := by
  obtain ⟨j, P, h1, h2, h3⟩ := h
  have hj1 : j + 1 < calls.length := by
    by_contra hge
    rw [List.getElem?_eq_none (by omega)] at h2
    simp at h2
  refine ⟨j, P, ?_, ?_, h3⟩
  · rw [List.getElem?_append_left (by omega)]
    exact h1
  · rw [List.getElem?_append_left hj1]
    exact h2

theorem importsGuarded_append (calls : List ChainCall) (x : ChainCall)
    (h : importsGuarded calls)
    (hx : ∀ blocks err, x = ChainCall.insertChain blocks err →
      ∃ pv, pivotCommitted calls pv ∧ ∀ b ∈ blocks, pv < b.header.NumberU64) :
    importsGuarded (calls ++ [x]) := by
  intro i blocks err hi
  by_cases hlt : i < calls.length
  · rw [List.getElem?_append_left hlt] at hi
    obtain ⟨j, P, hj, h1, h2, h3⟩ := h i blocks err hi
    refine ⟨j, P, hj, ?_, ?_, h3⟩
    · rw [List.getElem?_append_left (by omega)]
      exact h1
    · rw [List.getElem?_append_left (by omega)]
      exact h2
  · have hge : calls.length ≤ i := by omega
    rw [List.getElem?_append_right hge] at hi
    have hi0 : i - calls.length = 0 := by
      by_contra hne
      rw [List.getElem?_eq_none (by simp; omega)] at hi
      simp at hi
    rw [hi0] at hi
    simp only [List.getElem?_cons_zero, Option.some.injEq] at hi
    obtain ⟨pv, ⟨j, P, h1, h2, h3⟩, hb⟩ := hx blocks err hi
    have hj1 : j + 1 < calls.length := by
      by_contra hge'
      rw [List.getElem?_eq_none (by omega)] at h2
      simp at h2
    refine ⟨j, P, by omega, ?_, ?_, ?_⟩
    · rw [List.getElem?_append_left (by omega)]
      exact h1
    · rw [List.getElem?_append_left hj1]
      exact h2
    · intro b hb'
      rw [h3]
      exact hb b hb'

theorem splitLoop_fst_some (pv : Nat) (l : List FetchResult) :
    ∀ (p : Option FetchResult) (b a : List FetchResult) (P : FetchResult),
      (splitLoop pv l (p, b, a)).1 = some P →
      p = some P ∨ (P ∈ l ∧ P.header.NumberU64 = pv) := by
  induction l with
  | nil => intro p b a P h; exact Or.inl h
  | cons x xs ih =>
    intro p b a P h
    simp only [splitLoop] at h
    split_ifs at h with h1 h2
    · rcases ih _ _ _ P h with h3 | ⟨h3, h4⟩
      · exact Or.inl h3
      · exact Or.inr ⟨List.mem_cons_of_mem _ h3, h4⟩
    · rcases ih _ _ _ P h with h3 | ⟨h3, h4⟩
      · simp only [Option.some.injEq] at h3
        subst h3
        exact Or.inr ⟨List.mem_cons_self _ _, h2⟩
      · exact Or.inr ⟨List.mem_cons_of_mem _ h3, h4⟩
    · rcases ih _ _ _ P h with h3 | ⟨h3, h4⟩
      · exact Or.inl h3
      · exact Or.inr ⟨List.mem_cons_of_mem _ h3, h4⟩

theorem splitLoop_fst_keep (pv : Nat) (l : List FetchResult) :
    ∀ (p : Option FetchResult) (b a : List FetchResult),
      p ≠ none → (splitLoop pv l (p, b, a)).1 ≠ none := by
  induction l with
  | nil => intro p b a h; exact h
  | cons x xs ih =>
    intro p b a h
    simp only [splitLoop]
    split_ifs
    · exact ih _ _ _ h
    · exact ih _ _ _ (by simp)
    · exact ih _ _ _ h

theorem splitLoop_fst_none (pv : Nat) (l : List FetchResult) :
    ∀ (p : Option FetchResult) (b a : List FetchResult),
      (splitLoop pv l (p, b, a)).1 = none → ∀ x ∈ l, x.header.NumberU64 ≠ pv := by
  induction l with
  | nil => intro p b a _ x hx; simp at hx
  | cons y ys ih =>
    intro p b a h x hx
    simp only [splitLoop] at h
    split_ifs at h with h1 h2
    · rcases List.mem_cons.mp hx with hxy | hxys
      · subst hxy
        omega
      · exact ih _ _ _ h x hxys
    · exact absurd h (splitLoop_fst_keep pv ys (some y) b a (by simp))
    · rcases List.mem_cons.mp hx with hxy | hxys
      · subst hxy
        exact h2
      · exact ih _ _ _ h x hxys

theorem splitLoop_after (pv : Nat) (l : List FetchResult) :
    ∀ (p : Option FetchResult) (b a : List FetchResult),
      (splitLoop pv l (p, b, a)).2.2 =
        a ++ l.filter (fun x => decide (pv < x.header.NumberU64)) := by
  induction l with
  | nil => intro p b a; simp [splitLoop]
  | cons x xs ih =>
    intro p b a
    simp only [splitLoop]
    split_ifs with h1 h2
    · rw [ih, List.filter_cons_of_neg (by simp; omega)]
    · rw [ih, List.filter_cons_of_neg (by simp; omega)]
    · rw [ih, List.filter_cons_of_pos (by simp; omega), List.append_assoc]
      rfl

theorem splitLoop_before (pv : Nat) (l : List FetchResult) :
    ∀ (p : Option FetchResult) (b a : List FetchResult),
      (splitLoop pv l (p, b, a)).2.1 =
        b ++ l.filter (fun x => decide (x.header.NumberU64 < pv)) := by
  induction l with
  | nil => intro p b a; simp [splitLoop]
  | cons x xs ih =>
    intro p b a
    simp only [splitLoop]
    split_ifs with h1 h2
    · rw [ih, List.filter_cons_of_pos (by simp; omega), List.append_assoc]
      rfl
    · rw [ih, List.filter_cons_of_neg (by simp; omega)]
    · rw [ih, List.filter_cons_of_neg (by simp; omega)]

theorem splitAroundPivot_after_gt (pv : Nat) (results : List FetchResult) :
    ∀ b ∈ (splitAroundPivot pv results).2.2, pv < b.header.NumberU64 := by
  intro b hb
  unfold splitAroundPivot at hb
  cases hl : results.getLast? with
  | none => simp [hl] at hb
  | some last =>
    simp only [hl] at hb
    split_ifs at hb with h1
    · simp at hb
    · rw [splitLoop_after] at hb
      simp only [List.nil_append, List.mem_filter, decide_eq_true_eq] at hb
      exact hb.2

theorem splitAroundPivot_pivot (pv : Nat) (results : List FetchResult) (P : FetchResult)
    (h : (splitAroundPivot pv results).1 = some P) :
    P ∈ results ∧ P.header.NumberU64 = pv := by
  unfold splitAroundPivot at h
  cases hl : results.getLast? with
  | none => simp [hl] at h
  | some last =>
    simp only [hl] at h
    split_ifs at h with h1
    rcases splitLoop_fst_some pv results none [] [] P h with h2 | h2
    · simp at h2
    · exact h2

theorem contiguousResults_get (l : List FetchResult) (a i : Nat) (x : FetchResult)
    (hc : contiguousFrom a (l.map FetchResult.header) = true) (hget : l[i]? = some x) :
    x.header.number = a + i := by
  apply contiguousFrom_get (l.map FetchResult.header) a i x.header hc
  rw [List.getElem?_map, hget]
  rfl

theorem contiguousResults_u64 (l : List FetchResult) (a i : Nat) (x : FetchResult)
    (hc : contiguousFrom a (l.map FetchResult.header) = true) (hfit : a + l.length ≤ 2 ^ 64)
    (hget : l[i]? = some x) : x.header.NumberU64 = a + i := by
  have h1 := contiguousResults_get l a i x hc hget
  have h2 : i < l.length := by
    by_contra hge
    rw [List.getElem?_eq_none (by omega)] at hget
    simp at hget
  unfold Header.NumberU64
  rw [h1]
  exact Nat.mod_eq_of_lt (by omega)

theorem filter_gt_contiguous (l : List FetchResult) :
    ∀ a pv, contiguousFrom a (l.map FetchResult.header) = true → a + l.length ≤ 2 ^ 64 →
      l.filter (fun x => decide (pv < x.header.NumberU64)) = l.drop (pv + 1 - a) := by
  induction l with
  | nil => intro a pv _ _; simp
  | cons x xs ih =>
    intro a pv hc hfit
    have hx := contiguousResults_u64 (x :: xs) a 0 x hc hfit (by simp)
    simp only [List.map_cons, contiguousFrom, Bool.and_eq_true, decide_eq_true_eq] at hc
    simp only [List.length_cons] at hfit
    have ih := ih (a + 1) pv hc.2 (by omega)
    by_cases hlt : pv < a
    · rw [List.filter_cons_of_pos (by simp; omega), ih]
      have h1 : pv + 1 - (a + 1) = 0 := by omega
      have h2 : pv + 1 - a = 0 := by omega
      rw [h1, h2]
      rfl
    · rw [List.filter_cons_of_neg (by simp; omega), ih]
      have h1 : pv + 1 - a = (pv + 1 - (a + 1)) + 1 := by omega
      rw [h1, List.drop_succ_cons]

theorem commitFastSyncData_effect (r : FastRound) (st : FastState) (res : List FetchResult) :
    ∀ st' o, commitFastSyncData r st res = (st', o) →
      st'.pivotHeader = st.pivotHeader ∧ st'.committed = st.committed ∧
      st'.oldPivot = st.oldPivot ∧ st'.oldTail = st.oldTail ∧
      (st'.calls = st.calls ∨ ∃ e, st'.calls = st.calls ++ [.insertReceiptChain res e]) := by
  intro st' o h
  unfold commitFastSyncData at h
  split_ifs at h with h0
  · simp only [Prod.mk.injEq] at h
    rw [← h.1]
    exact ⟨rfl, rfl, rfl, rfl, Or.inl rfl⟩
  · split at h
    · simp only [Prod.mk.injEq] at h
      rw [← h.1]
      exact ⟨rfl, rfl, rfl, rfl, Or.inl rfl⟩
    · simp only [Prod.mk.injEq] at h
      rw [← h.1]
      exact ⟨rfl, rfl, rfl, rfl, Or.inl rfl⟩
    · split at h
      · split_ifs at h <;> simp only [Prod.mk.injEq] at h <;> rw [← h.1] <;>
          exact ⟨rfl, rfl, rfl, rfl, Or.inr ⟨_, rfl⟩⟩
      · simp only [Prod.mk.injEq] at h
        rw [← h.1]
        exact ⟨rfl, rfl, rfl, rfl, Or.inr ⟨_, rfl⟩⟩

theorem importBlockResults_effect (r : FastRound) (st : FastState) (res : List FetchResult) :
    ∀ st' o, importBlockResults r st res = (st', o) →
      st'.pivotHeader = st.pivotHeader ∧ st'.committed = st.committed ∧
      st'.oldPivot = st.oldPivot ∧ st'.oldTail = st.oldTail ∧
      (st'.calls = st.calls ∨ ∃ e, st'.calls = st.calls ++ [.insertChain res e]) := by
  intro st' o h
  unfold importBlockResults at h
  split_ifs at h with h0 h1
  · simp only [Prod.mk.injEq] at h
    rw [← h.1]
    exact ⟨rfl, rfl, rfl, rfl, Or.inl rfl⟩
  · simp only [Prod.mk.injEq] at h
    rw [← h.1]
    exact ⟨rfl, rfl, rfl, rfl, Or.inl rfl⟩
  · split at h <;> simp only [Prod.mk.injEq] at h <;> rw [← h.1] <;>
      exact ⟨rfl, rfl, rfl, rfl, Or.inr ⟨_, rfl⟩⟩

theorem importBlockResults_nil (r : FastRound) (st : FastState) :
    importBlockResults r st [] = (st, none) := by
  simp [importBlockResults]

theorem commitPivotBlock_effect (r : FastRound) (st : FastState) (P : FetchResult) :
    ∀ st' o, commitPivotBlock r st P = (st', o) →
      st'.pivotHeader = st.pivotHeader ∧ st'.oldPivot = st.oldPivot ∧
      st'.oldTail = st.oldTail ∧
      ((o ≠ none ∧ st'.committed = st.committed ∧
          ∃ e, st'.calls = st.calls ++ [.insertReceiptChain [P] e]) ∨
        (o ≠ none ∧ st'.committed = st.committed ∧
          ∃ e, st'.calls = st.calls ++ [.insertReceiptChain [P] none] ++
            [.fastSyncCommitHead P.header.hash e]) ∨
        (o = none ∧ st'.committed = true ∧
          st'.calls = st.calls ++ [.insertReceiptChain [P] none] ++
            [.fastSyncCommitHead P.header.hash none])) := by
  intro st' o h
  unfold commitPivotBlock at h
  cases hi : r.insertPivot with
  | some err =>
    simp only [hi, Prod.mk.injEq] at h
    rw [← h.1, ← h.2]
    exact ⟨rfl, rfl, rfl, Or.inl ⟨by simp, rfl, _, rfl⟩⟩
  | none =>
    cases hc : r.commitHead with
    | some err =>
      simp only [hi, hc, Prod.mk.injEq] at h
      rw [← h.1, ← h.2]
      exact ⟨rfl, rfl, rfl, Or.inr (Or.inl ⟨by simp, rfl, _, rfl⟩)⟩
    | none =>
      simp only [hi, hc, Prod.mk.injEq] at h
      rw [← h.1, ← h.2]
      exact ⟨rfl, rfl, rfl, Or.inr (Or.inr ⟨rfl, rfl, rfl⟩)⟩

theorem importsGuarded_append_other (calls : List ChainCall) (x : ChainCall)
    (h : importsGuarded calls) (hx : ∀ blocks err, x ≠ ChainCall.insertChain blocks err) :
    importsGuarded (calls ++ [x]) :=
  importsGuarded_append calls x h (fun blocks err he => absurd he (hx blocks err))

theorem pivotCommitted_of_commit (calls : List ChainCall) (P : FetchResult) :
    pivotCommitted (calls ++ [.insertReceiptChain [P] none] ++
      [.fastSyncCommitHead P.header.hash none]) P.header.NumberU64 := by
  refine ⟨calls.length, P, ?_, ?_, rfl⟩
  · rw [List.append_assoc, List.getElem?_append_right (le_refl _)]
    simp
  · rw [List.getElem?_append_right (by simp)]
    simp

theorem splitAroundPivot_contiguous (results : List FetchResult) (a pv : Nat)
    (hne : results ≠ [])
    (hc : contiguousFrom a (results.map FetchResult.header) = true)
    (hfit : a + results.length ≤ 2 ^ 64) (ha : a ≤ pv) :
    (a + results.length ≤ pv → splitAroundPivot pv results = (none, results, [])) ∧
    (pv < a + results.length →
      ∃ P, (splitAroundPivot pv results).1 = some P ∧ P.header.NumberU64 = pv ∧
        results[pv - a]? = some P ∧
        (splitAroundPivot pv results).2.2 = results.drop (pv + 1 - a)) := by
  have hlen : 0 < results.length := List.length_pos.mpr hne
  have hlastget : results[results.length - 1]? = some results[results.length - 1] :=
    List.getElem?_eq_getElem (by omega)
  have hlastnum := contiguousResults_u64 results a _ _ hc hfit hlastget
  have hlast : results.getLast? = some results[results.length - 1] := by
    rw [List.getLast?_eq_getElem?]
    exact hlastget
  constructor
  · intro hle
    simp only [splitAroundPivot, hlast]
    rw [if_pos (by omega)]
  · intro hlt
    have hsplit : splitAroundPivot pv results = splitLoop pv results (none, [], []) := by
      simp only [splitAroundPivot, hlast]
      rw [if_neg (by omega)]
    have hpget : results[pv - a]? = some results[pv - a] :=
      List.getElem?_eq_getElem (by omega)
    have hpnum := contiguousResults_u64 results a _ _ hc hfit hpget
    cases hP : (splitAroundPivot pv results).1 with
    | none =>
      rw [hsplit] at hP
      have := splitLoop_fst_none pv results none [] [] hP results[pv - a]
        (List.getElem_mem _)
      omega
    | some P =>
      obtain ⟨hmem, hnum⟩ := splitAroundPivot_pivot pv results P hP
      obtain ⟨i, hi⟩ := List.mem_iff_getElem?.mp hmem
      have hinum := contiguousResults_u64 results a i P hc hfit hi
      have hi' : i = pv - a := by omega
      subst hi'
      refine ⟨P, rfl, hnum, hi, ?_⟩
      rw [hsplit, splitLoop_after, List.nil_append]
      exact filter_gt_contiguous results a pv hc hfit

theorem fastSyncCommit_committed (r : FastRound) (st : FastState) (results : List FetchResult)
    (hg : importsGuarded st.calls) (hc : st.committed = true)
    (hp : pivotCommitted st.calls st.pivotHeader.NumberU64) :
    ∀ st' o, fastSyncCommit r st results = (st', o) →
      importsGuarded st'.calls ∧ st'.committed = true ∧
      st'.pivotHeader = st.pivotHeader ∧
      pivotCommitted st'.calls st.pivotHeader.NumberU64 := by
  intro st' o h
  unfold fastSyncCommit at h
  simp only at h
  have hafter := splitAroundPivot_after_gt st.pivotHeader.NumberU64 results
  generalize splitAroundPivot st.pivotHeader.NumberU64 results = split at h hafter
  cases hcd : commitFastSyncData r st split.2.1 with
  | mk st2 o2 =>
    obtain ⟨e1, e2, e3, e4, e5⟩ := commitFastSyncData_effect r st split.2.1 st2 o2 hcd
    have hg2 : importsGuarded st2.calls := by
      rcases e5 with e5 | ⟨e, e5⟩
      · rw [e5]; exact hg
      · rw [e5]; exact importsGuarded_append_other _ _ hg (by simp)
    have hp2 : pivotCommitted st2.calls st.pivotHeader.NumberU64 := by
      rcases e5 with e5 | ⟨e, e5⟩
      · rw [e5]; exact hp
      · rw [e5]; exact pivotCommitted_append _ _ _ hp
    have himport : ∀ (s : FastState) s' o', importsGuarded s.calls →
        pivotCommitted s.calls st.pivotHeader.NumberU64 → s.committed = true →
        s.pivotHeader = st.pivotHeader →
        importBlockResults r s split.2.2 = (s', o') →
        importsGuarded s'.calls ∧ s'.committed = true ∧ s'.pivotHeader = st.pivotHeader ∧
          pivotCommitted s'.calls st.pivotHeader.NumberU64 := by
      intro s s' o' hgs hps hcs hpvs hs
      obtain ⟨f1, f2, _, _, f5⟩ := importBlockResults_effect r s split.2.2 s' o' hs
      rcases f5 with f5 | ⟨e, f5⟩
      · rw [f5, f1, f2]
        exact ⟨hgs, hcs, hpvs, hps⟩
      · rw [f5, f1, f2]
        refine ⟨?_, hcs, hpvs, pivotCommitted_append _ _ _ hps⟩
        apply importsGuarded_append _ _ hgs
        intro blocks err hbe
        simp only [ChainCall.insertChain.injEq] at hbe
        rw [← hbe.1]
        exact ⟨_, hps, hafter⟩
    rw [hcd] at h
    cases o2 with
    | some out =>
      simp only [Prod.mk.injEq] at h
      rw [← h.1, e1, e2]
      exact ⟨hg2, hc, rfl, hp2⟩
    | none =>
      simp only at h
      cases hP : split.1 with
      | none =>
        rw [hP] at h
        simp only at h
        exact himport st2 st' o hg2 hp2 (by rw [e2]; exact hc) e1 h
      | some P =>
        rw [hP] at h
        simp only at h
        generalize hst3 : (if st2.oldPivot ≠ some P then
            { st2 with syncRoot := P.header.root, oldPivot := some P,
                       calls := st2.calls ++ [.syncState P.header.root] }
          else st2) = st3 at h
        have h3 : importsGuarded st3.calls ∧ st3.committed = true ∧
            st3.pivotHeader = st.pivotHeader ∧
            pivotCommitted st3.calls st.pivotHeader.NumberU64 := by
          rw [← hst3]
          split_ifs
          · exact ⟨importsGuarded_append_other _ _ hg2 (by simp), by rw [← hc, ← e2],
              e1, pivotCommitted_append _ _ _ hp2⟩
          · exact ⟨hg2, by rw [← hc, ← e2], e1, hp2⟩
        obtain ⟨hg3, hc3, hpv3, hp3⟩ := h3
        cases hsd : r.syncDone with
        | none =>
          simp only [hsd, Prod.mk.injEq] at h
          rw [← h.1]
          exact ⟨hg3, hc3, hpv3, hp3⟩
        | some res =>
          cases res with
          | some err =>
            simp only [hsd, Prod.mk.injEq] at h
            rw [← h.1]
            exact ⟨hg3, hc3, hpv3, hp3⟩
          | none =>
            simp only [hsd] at h
            cases hcp : commitPivotBlock r st3 P with
            | mk st4 o4 =>
              obtain ⟨g1, _, _, g4⟩ := commitPivotBlock_effect r st3 P st4 o4 hcp
              have h4 : importsGuarded st4.calls ∧ st4.committed = true ∧
                  pivotCommitted st4.calls st.pivotHeader.NumberU64 := by
                rcases g4 with ⟨_, gc, e, ge⟩ | ⟨_, gc, e, ge⟩ | ⟨_, gc, ge⟩
                · rw [ge, gc]
                  exact ⟨importsGuarded_append_other _ _ hg3 (by simp), hc3,
                    pivotCommitted_append _ _ _ hp3⟩
                · rw [ge, gc]
                  exact ⟨importsGuarded_append_other _ _
                    (importsGuarded_append_other _ _ hg3 (by simp)) (by simp), hc3,
                    pivotCommitted_append _ _ _ (pivotCommitted_append _ _ _ hp3)⟩
                · rw [ge, gc]
                  exact ⟨importsGuarded_append_other _ _
                    (importsGuarded_append_other _ _ hg3 (by simp)) (by simp), rfl,
                    pivotCommitted_append _ _ _ (pivotCommitted_append _ _ _ hp3)⟩
              obtain ⟨hg4, hc4, hp4⟩ := h4
              rw [hcp] at h
              cases o4 with
              | some out =>
                simp only [Prod.mk.injEq] at h
                rw [← h.1]
                exact ⟨hg4, hc4, by rw [g1, hpv3], hp4⟩
              | none =>
                simp only at h
                exact himport { st4 with oldPivot := none } st' o hg4 hp4 hc4
                  (by show st4.pivotHeader = st.pivotHeader; rw [g1, hpv3]) h

theorem fastSyncCommit_uncommitted (r : FastRound) (st : FastState)
    (results rest : List FetchResult) (a : Nat)
    (hg : importsGuarded st.calls) (hc : st.committed = false) (hne : results ≠ [])
    (hcont : contiguousFrom a ((results ++ rest).map FetchResult.header) = true)
    (ha : a ≤ st.pivotHeader.NumberU64)
    (hpv : st.pivotHeader.NumberU64 + 128 < 2 ^ 64)
    (hfit : a + (results ++ rest).length + 128 < 2 ^ 64)
    (hold : st.oldPivot ≠ none → st.pivotHeader.NumberU64 < a + results.length) :
    ∀ st' o, fastSyncCommit r st results = (st', o) →
      importsGuarded st'.calls ∧ (o = none → fastInv st' rest) := by
  intro st' o h
  rw [List.map_append] at hcont
  obtain ⟨hcR, hcRest⟩ := contiguousFrom_append _ _ a hcont
  rw [List.length_map] at hcRest
  rw [List.length_append] at hfit
  obtain ⟨hsplitA, hsplitB⟩ := splitAroundPivot_contiguous results a
    st.pivotHeader.NumberU64 hne hcR (by omega) ha
  have hafter := splitAroundPivot_after_gt st.pivotHeader.NumberU64 results
  unfold fastSyncCommit at h
  simp only at h
  by_cases hcase : st.pivotHeader.NumberU64 < a + results.length
  · obtain ⟨P, hP1, hPnum, hPget, hdrop⟩ := hsplitB hcase
    generalize splitAroundPivot st.pivotHeader.NumberU64 results = split at h hafter hP1 hdrop
    cases hcd : commitFastSyncData r st split.2.1 with
    | mk st2 o2 =>
      obtain ⟨e1, e2, e3, e4, e5⟩ := commitFastSyncData_effect r st split.2.1 st2 o2 hcd
      have hg2 : importsGuarded st2.calls := by
        rcases e5 with e5 | ⟨e, e5⟩
        · rw [e5]; exact hg
        · rw [e5]; exact importsGuarded_append_other _ _ hg (by simp)
      rw [hcd] at h
      cases o2 with
      | some out =>
        simp only [Prod.mk.injEq] at h
        rw [← h.1, ← h.2]
        exact ⟨hg2, by simp⟩
      | none =>
        simp only [hP1] at h
        generalize hst3 : (if st2.oldPivot ≠ some P then
            { st2 with syncRoot := P.header.root, oldPivot := some P,
                       calls := st2.calls ++ [.syncState P.header.root] }
          else st2) = st3 at h
        have h3 : importsGuarded st3.calls ∧ st3.committed = false ∧
            st3.pivotHeader = st.pivotHeader ∧ st3.oldPivot = some P := by
          rw [← hst3]
          split_ifs with hop
          · exact ⟨importsGuarded_append_other _ _ hg2 (by simp), by rw [← hc, ← e2],
              e1, rfl⟩
          · exact ⟨hg2, by rw [← hc, ← e2], e1, not_not.mp hop⟩
        obtain ⟨hg3, hc3, hpv3, hop3⟩ := h3
        cases hsd : r.syncDone with
        | none =>
          simp only [hsd, Prod.mk.injEq] at h
          rw [← h.1]
          refine ⟨hg3, fun _ => ⟨hg3, ?_, ?_⟩⟩
          · intro hct
            rw [hc3] at hct
            simp at hct
          · intro _
            have hk : st.pivotHeader.NumberU64 - a < results.length := by omega
            have hPeq : results[st.pivotHeader.NumberU64 - a] = P := by
              have := List.getElem?_eq_getElem hk
              rw [hPget] at this
              exact (Option.some.inj this).symm
            have hstream : pendingResults
                { st3 with oldTail := split.2.2 } ++ rest =
                (results ++ rest).drop (st.pivotHeader.NumberU64 - a) := by
              simp only [pendingResults, hop3]
              rw [List.drop_append_of_le_length (by omega), List.drop_eq_getElem_cons hk,
                hPeq, hdrop]
              have : st.pivotHeader.NumberU64 + 1 - a = st.pivotHeader.NumberU64 - a + 1 := by
                omega
              rw [this]
            refine ⟨st.pivotHeader.NumberU64, ?_, ?_, ?_, ?_, ?_⟩
            · rw [hstream, List.map_drop]
              have hd := contiguousFrom_drop ((results ++ rest).map FetchResult.header) a
                (st.pivotHeader.NumberU64 - a) (by rw [List.map_append]; exact hcont)
              have : a + (st.pivotHeader.NumberU64 - a) = st.pivotHeader.NumberU64 := by omega
              rw [this] at hd
              exact hd
            · show st.pivotHeader.NumberU64 ≤ st3.pivotHeader.NumberU64
              rw [hpv3]
            · show st3.pivotHeader.NumberU64 + 128 < 2 ^ 64
              rw [hpv3]
              exact hpv
            · rw [hstream, List.length_drop, List.length_append]
              omega
            · intro _
              show st.pivotHeader.NumberU64 = st3.pivotHeader.NumberU64
              rw [hpv3]
        | some res =>
          cases res with
          | some err =>
            simp only [hsd, Prod.mk.injEq] at h
            rw [← h.1, ← h.2]
            exact ⟨hg3, by simp⟩
          | none =>
            simp only [hsd] at h
            cases hcp : commitPivotBlock r st3 P with
            | mk st4 o4 =>
              obtain ⟨g1, _, _, g4⟩ := commitPivotBlock_effect r st3 P st4 o4 hcp
              rw [hcp] at h
              rcases g4 with ⟨go, gc, e, ge⟩ | ⟨go, gc, e, ge⟩ | ⟨go, gc, ge⟩
              · have hg4 : importsGuarded st4.calls := by
                  rw [ge]
                  exact importsGuarded_append_other _ _ hg3 (by simp)
                cases o4 with
                | none => exact absurd rfl go
                | some out =>
                  simp only [Prod.mk.injEq] at h
                  rw [← h.1, ← h.2]
                  exact ⟨hg4, by simp⟩
              · have hg4 : importsGuarded st4.calls := by
                  rw [ge]
                  exact importsGuarded_append_other _ _
                    (importsGuarded_append_other _ _ hg3 (by simp)) (by simp)
                cases o4 with
                | none => exact absurd rfl go
                | some out =>
                  simp only [Prod.mk.injEq] at h
                  rw [← h.1, ← h.2]
                  exact ⟨hg4, by simp⟩
              · subst go
                simp only at h
                have hg4 : importsGuarded st4.calls := by
                  rw [ge]
                  exact importsGuarded_append_other _ _
                    (importsGuarded_append_other _ _ hg3 (by simp)) (by simp)
                have hp4 : pivotCommitted st4.calls st.pivotHeader.NumberU64 := by
                  rw [ge, ← hPnum]
                  exact pivotCommitted_of_commit _ _
                obtain ⟨f1, f2, _, _, f5⟩ := importBlockResults_effect r
                  { st4 with oldPivot := none } split.2.2 st' o h
                have hpv' : st'.pivotHeader = st.pivotHeader := by
                  rw [f1]
                  show st4.pivotHeader = st.pivotHeader
                  rw [g1, hpv3]
                have hc' : st'.committed = true := by
                  rw [f2]
                  exact gc
                have hgp : importsGuarded st'.calls ∧
                    pivotCommitted st'.calls st.pivotHeader.NumberU64 := by
                  rcases f5 with f5 | ⟨e, f5⟩
                  · rw [f5]
                    exact ⟨hg4, hp4⟩
                  · rw [f5]
                    refine ⟨?_, pivotCommitted_append _ _ _ hp4⟩
                    apply importsGuarded_append _ _ hg4
                    intro blocks err hbe
                    simp only [ChainCall.insertChain.injEq] at hbe
                    rw [← hbe.1]
                    exact ⟨_, hp4, hafter⟩
                refine ⟨hgp.1, fun _ => ⟨hgp.1, ?_, ?_⟩⟩
                · intro _
                  rw [hpv']
                  exact hgp.2
                · intro hcf
                  rw [hc'] at hcf
                  simp at hcf
  · have hsp := hsplitA (by omega)
    have hnone : st.oldPivot = none := by
      by_contra hon
      exact hcase (hold hon)
    rw [hsp] at h
    simp only at h
    cases hcd : commitFastSyncData r st results with
    | mk st2 o2 =>
      obtain ⟨e1, e2, e3, e4, e5⟩ := commitFastSyncData_effect r st results st2 o2 hcd
      have hg2 : importsGuarded st2.calls := by
        rcases e5 with e5 | ⟨e, e5⟩
        · rw [e5]; exact hg
        · rw [e5]; exact importsGuarded_append_other _ _ hg (by simp)
      rw [hcd] at h
      cases o2 with
      | some out =>
        simp only [Prod.mk.injEq] at h
        rw [← h.1, ← h.2]
        exact ⟨hg2, by simp⟩
      | none =>
        simp only [importBlockResults_nil, Prod.mk.injEq] at h
        rw [← h.1]
        refine ⟨hg2, fun _ => ⟨hg2, ?_, ?_⟩⟩
        · intro hct
          rw [e2, hc] at hct
          simp at hct
        · intro _
          have hpend : pendingResults st2 = [] := by
            simp only [pendingResults, e3, hnone]
          refine ⟨a + results.length, ?_, ?_, ?_, ?_, ?_⟩
          · rw [hpend, List.nil_append]
            exact hcRest
          · rw [e1]
            omega
          · rw [e1]
            exact hpv
          · rw [hpend, List.nil_append]
            omega
          · intro hon
            rw [e3] at hon
            exact absurd hnone hon

theorem reselectPivot_uncommitted (pivot : Header) (results : List FetchResult) (a : Nat)
    (hne : results ≠ [])
    (hc : contiguousFrom a (results.map FetchResult.header) = true)
    (ha : a ≤ pivot.NumberU64) (hpv : pivot.NumberU64 + 128 < 2 ^ 64)
    (hfit : a + results.length + 128 < 2 ^ 64) :
    ∀ pivot', reselectPivot false pivot results = some pivot' →
      a ≤ pivot'.NumberU64 ∧ pivot'.NumberU64 + 128 < 2 ^ 64 ∧
      (pivot' = pivot ∨ pivot'.NumberU64 < a + results.length) := by
  intro pivot' h
  have hlen : 0 < results.length := List.length_pos.mpr hne
  have hlastget : results[results.length - 1]? = some results[results.length - 1] :=
    List.getElem?_eq_getElem (by omega)
  have hlastnum := contiguousResults_u64 results a _ _ hc (by omega) hlastget
  have hlast : results.getLast? = some results[results.length - 1] := by
    rw [List.getLast?_eq_getElem?]
    exact hlastget
  have hthr : u64sub (u64add pivot.NumberU64 (2 * fsMinFullBlocks)) reorgProtHeaderDelay =
      pivot.NumberU64 + 126 := by
    unfold u64sub u64add fsMinFullBlocks reorgProtHeaderDelay
    omega
  simp only [reselectPivot, Bool.false_eq_true, if_false, hlast, hthr, hlastnum] at h
  split_ifs at h with h1 h2
  · have hidx : ((results.length : Int) - 1 - (fsMinFullBlocks : Int) +
        (reorgProtHeaderDelay : Int)).toNat = results.length - 63 := by
      unfold fsMinFullBlocks reorgProtHeaderDelay
      omega
    rw [hidx] at h
    cases hget : results[results.length - 63]? with
    | none =>
      rw [hget] at h
      simp at h
    | some x =>
      have hnum := contiguousResults_u64 results a _ _ hc (by omega) hget
      rw [hget] at h
      simp only [Option.map_some', Option.some.injEq] at h
      rw [← h, hnum]
      refine ⟨by omega, by omega, Or.inr (by omega)⟩
  · simp only [Option.some.injEq] at h
    rw [← h]
    exact ⟨ha, hpv, Or.inl rfl⟩

theorem fastSyncRound_inv (st : FastState) (r : FastRound) (rest : List FetchResult)
    (hinv : fastInv st (r.results ++ rest)) (hmove : r.pivotMove = none) :
    ∀ st' o, fastSyncRound st r = (st', o) →
      importsGuarded st'.calls ∧ (o = none → fastInv st' rest) := by
  intro st' o h
  obtain ⟨hg, hcomm, hunc⟩ := hinv
  unfold fastSyncRound at h
  by_cases h1 : r.results.length = 0 ∧ st.oldPivot = none
  · rw [if_pos h1] at h
    simp only [Prod.mk.injEq] at h
    rw [← h.1, ← h.2]
    exact ⟨hg, by simp⟩
  · rw [if_neg h1] at h
    by_cases h2 : r.results.length = 0 ∧ r.cancelled = true
    · rw [if_pos h2] at h
      simp only [Prod.mk.injEq] at h
      rw [← h.1, ← h.2]
      exact ⟨hg, by simp⟩
    · rw [if_neg h2] at h
      simp only [hmove] at h
      generalize hst1 : (if st.oldPivot = none ∧ st.pivotHeader.root ≠ st.syncRoot then
          { st with syncRoot := st.pivotHeader.root,
                    calls := st.calls ++ [.syncState st.pivotHeader.root] }
        else st) = st1 at h
      have h1f : importsGuarded st1.calls ∧ st1.committed = st.committed ∧
          st1.pivotHeader = st.pivotHeader ∧ st1.oldPivot = st.oldPivot ∧
          st1.oldTail = st.oldTail ∧
          (∀ pv, pivotCommitted st.calls pv → pivotCommitted st1.calls pv) := by
        rw [← hst1]
        split_ifs
        · exact ⟨importsGuarded_append_other _ _ hg (by simp), rfl, rfl, rfl, rfl,
            fun pv hp => pivotCommitted_append _ _ _ hp⟩
        · exact ⟨hg, rfl, rfl, rfl, rfl, fun pv hp => hp⟩
      obtain ⟨hg1, hc1, hpv1, hop1, hot1, hpc1⟩ := h1f
      have hres : (match st1.oldPivot with
          | none => r.results
          | some old => old :: st1.oldTail ++ r.results) = pendingResults st ++ r.results := by
        rw [hop1, hot1]
        unfold pendingResults
        cases st.oldPivot <;> rfl
      rw [hres] at h
      have hne : pendingResults st ++ r.results ≠ [] := by
        intro hnil
        have hl := congrArg List.length hnil
        simp only [List.length_append, List.length_nil] at hl
        apply h1
        refine ⟨by omega, ?_⟩
        cases hop : st.oldPivot with
        | none => rfl
        | some old =>
          simp [pendingResults, hop] at hl
      cases hcm : st.committed with
      | true =>
        have hrs : reselectPivot st1.committed st.pivotHeader
            (pendingResults st ++ r.results) = some st.pivotHeader := by
          simp [reselectPivot, hc1, hcm]
        rw [hrs] at h
        simp only at h
        have hst1' : ({ st1 with pivotHeader := st.pivotHeader } : FastState) = st1 := by
          rw [← hpv1]
        rw [hst1'] at h
        obtain ⟨p1, p2, p3, p4⟩ := fastSyncCommit_committed r st1 _ hg1 (by rw [hc1, hcm])
          (by rw [hpv1]; exact hpc1 _ (hcomm hcm)) st' o h
        refine ⟨p1, fun _ => ⟨p1, fun _ => ?_, fun hf => ?_⟩⟩
        · rw [p3]
          exact p4
        · rw [p2] at hf
          simp at hf
      | false =>
        obtain ⟨a, ha1, ha2, ha3, ha4, ha5⟩ := hunc hcm
        rw [← List.append_assoc] at ha1 ha4
        have hcR : contiguousFrom a
            ((pendingResults st ++ r.results).map FetchResult.header) = true := by
          rw [List.map_append] at ha1
          exact (contiguousFrom_append _ _ a ha1).1
        cases hrs : reselectPivot st1.committed st.pivotHeader
            (pendingResults st ++ r.results) with
        | none =>
          rw [hrs] at h
          simp only [Prod.mk.injEq] at h
          rw [← h.1, ← h.2]
          exact ⟨hg1, by simp⟩
        | some pivot' =>
          rw [hrs] at h
          simp only at h
          rw [hc1, hcm] at hrs
          rw [List.length_append] at ha4
          obtain ⟨q1, q2, q3⟩ := reselectPivot_uncommitted st.pivotHeader _ a hne hcR ha2 ha3
            (by omega) pivot' hrs
          apply fastSyncCommit_uncommitted r { st1 with pivotHeader := pivot' }
            (pendingResults st ++ r.results) rest a hg1 (by show st1.committed = false; rw [hc1, hcm])
            hne ha1 q1 q2 (by rw [List.length_append]; omega) ?_ st' o h
          intro hon
          rcases q3 with q3 | q3
          · have hon' : st.oldPivot ≠ none := by
              rw [← hop1]
              exact hon
            have := ha5 hon'
            have hl : 0 < (pendingResults st ++ r.results).length := List.length_pos.mpr hne
            show pivot'.NumberU64 < a + (pendingResults st ++ r.results).length
            rw [q3]
            omega
          · exact q3

theorem fastSyncLoop_inv (rounds : List FastRound) :
    ∀ st, fastInv st (roundResults rounds) → (∀ r ∈ rounds, r.pivotMove = none) →
      importsGuarded (fastSyncLoop st rounds).1.calls := by
  induction rounds with
  | nil => intro st hinv _; exact hinv.1
  | cons r rest ih =>
    intro st hinv hmove
    simp only [fastSyncLoop]
    cases hr : fastSyncRound st r with
    | mk st' o =>
      obtain ⟨hg, hnext⟩ := fastSyncRound_inv st r (roundResults rest) hinv
        (hmove r (List.mem_cons_self _ _)) st' o hr
      cases o with
      | some out => exact hg
      | none => exact ih st' (hnext rfl) (fun q hq => hmove q (List.mem_cons_of_mem _ hq))

/-- C1 (as stated, refuted): a fast sync whose pivot is block 0 starts with
d.committed = 1; the batch of heights 1..3 is then passed to InsertChain although
commitPivotBlock never ran: the call list holds neither InsertReceiptChain nor
FastSyncCommitHead. -/
theorem processFastSyncContent_commit_counterexample :
    initialCommitted FastSync (mkHeader 0 100) = true ∧
    (processFastSyncContent (mkHeader 0 100) true [smoothRound (resultRun 1 3)]).1.calls =
      [.syncState 0, .insertChain (resultRun 1 3) none] := by
  decide

/-- C1 (amended): in a fast sync that starts with an uncommitted pivot
(d.committed = 0) and handles result batches whose heights rise by one from a
height at or below the pivot height, the pivot header being changed by
processFastSyncContent alone, every InsertChain call comes after commitPivotBlock
has run InsertReceiptChain([P]) and FastSyncCommitHead(P hash) to successful
completion for a pivot block P, and every block passed to InsertChain is above
P.  Heights are those the code reads with Number.Uint64(). -/
theorem processFastSyncContent_commit_before_import (pivot : Header) (rounds : List FastRound)
    (start : Nat)
    (hmove : ∀ r ∈ rounds, r.pivotMove = none)
    (hcont : contiguousFrom start ((roundResults rounds).map FetchResult.header) = true)
    (hstart : start ≤ pivot.number)
    (hfit : pivot.number + (roundResults rounds).length + 128 < 2 ^ 64) :
    ∀ i blocks err,
      (processFastSyncContent pivot false rounds).1.calls[i]? =
        some (.insertChain blocks err) →
      ∃ j P, j + 1 < i ∧
        (processFastSyncContent pivot false rounds).1.calls[j]? =
          some (.insertReceiptChain [P] none) ∧
        (processFastSyncContent pivot false rounds).1.calls[j + 1]? =
          some (.fastSyncCommitHead P.header.hash none) ∧
        ∀ b ∈ blocks, P.header.NumberU64 < b.header.NumberU64 := by
  have hpu : pivot.NumberU64 = pivot.number := by
    unfold Header.NumberU64
    exact Nat.mod_eq_of_lt (by omega)
  apply fastSyncLoop_inv rounds _ _ hmove
  refine ⟨?_, ?_, ?_⟩
  · intro i blocks err hi
    cases i with
    | zero => simp at hi
    | succ k => simp at hi
  · intro hc
    simp at hc
  · intro _
    refine ⟨start, ?_, ?_, ?_, ?_, ?_⟩
    · simpa [pendingResults] using hcont
    · show start ≤ pivot.NumberU64
      omega
    · show pivot.NumberU64 + 128 < 2 ^ 64
      omega
    · simp only [pendingResults, List.nil_append]
      omega
    · intro hon
      simp at hon

theorem processFastSyncContent_commit_before_import_witness :
    ∃ j P, j + 1 < 5 ∧
      (processFastSyncContent (mkHeader 3 1003) false
          [smoothRound (resultRun 1 2), smoothRound (resultRun 3 3)]).1.calls[j]? =
        some (.insertReceiptChain [P] none) ∧
      (processFastSyncContent (mkHeader 3 1003) false
          [smoothRound (resultRun 1 2), smoothRound (resultRun 3 3)]).1.calls[j + 1]? =
        some (.fastSyncCommitHead P.header.hash none) ∧
      ∀ b ∈ resultRun 4 2, P.header.NumberU64 < b.header.NumberU64 :=
  processFastSyncContent_commit_before_import (mkHeader 3 1003)
    [smoothRound (resultRun 1 2), smoothRound (resultRun 3 3)] 1
    (by decide) (by decide) (by decide) (by decide) 5 (resultRun 4 2) none (by decide)

/-! ## Text form of the sync modes -/

/-- C20: for every valid mode (FullSync, FastSync, LightSync) MarshalText
succeeds with the text "full", "fast" or "light" respectively, which is the
text String returns, and UnmarshalText applied to that text stores the mode
again and returns no error; for every mode value for which IsValid is false
MarshalText returns an error. -/
theorem MarshalText_roundtrip (m : SyncMode) :
    (IsValid m = true →
      (m = FullSync ∨ m = FastSync ∨ m = LightSync) ∧
      MarshalText m = .ok (modeString m) ∧
      (m = FullSync → modeString m = "full") ∧
      (m = FastSync → modeString m = "fast") ∧
      (m = LightSync → modeString m = "light") ∧
      ∀ m0, UnmarshalText m0 (modeString m) = (m, none)) ∧
    (IsValid m = false → ∃ msg, MarshalText m = .error msg) := by
  constructor
  · intro h
    simp only [IsValid, FullSync, LightSync, decide_eq_true_eq] at h
    have hm : m = 0 ∨ m = 1 ∨ m = 2 := by
      have h2 : m ≤ 2 := h.2
      interval_cases m
      · exact Or.inl rfl
      · exact Or.inr (Or.inl rfl)
      · exact Or.inr (Or.inr rfl)
    rcases hm with h | h | h <;> subst h <;>
      exact ⟨by decide, rfl, by decide, by decide, by decide, fun _ => rfl⟩
  · intro h
    simp only [IsValid, FullSync, LightSync, decide_eq_false_iff_not, not_and,
      not_le] at h
    have h3 : 2 < m := h (Nat.zero_le _)
    refine ⟨"unknown sync mode " ++ toString m, ?_⟩
    have h0 : ¬ m = 0 := Nat.ne_of_gt (Nat.lt_trans (by decide) h3)
    have h1 : ¬ m = 1 := Nat.ne_of_gt (Nat.lt_trans (by decide) h3)
    have h2 : ¬ m = 2 := Nat.ne_of_gt h3
    simp only [MarshalText, FullSync, FastSync, LightSync, h0, h1, h2, if_false]

theorem MarshalText_roundtrip_witness :
    ((FastSync = FullSync ∨ FastSync = FastSync ∨ FastSync = LightSync) ∧
      MarshalText FastSync = .ok (modeString FastSync) ∧
      (FastSync = FullSync → modeString FastSync = "full") ∧
      (FastSync = FastSync → modeString FastSync = "fast") ∧
      (FastSync = LightSync → modeString FastSync = "light") ∧
      ∀ m0, UnmarshalText m0 (modeString FastSync) = (FastSync, none)) ∧
    ∃ msg, MarshalText 7 = .error msg :=
  ⟨(MarshalText_roundtrip FastSync).1 (by decide),
    (MarshalText_roundtrip 7).2 (by decide)⟩

/-! ## syncWithPeer: origin, pivot and ancient limit -/

/-- A head and pivot that `fetchHead` returns in fast mode: without a pivot
the head is at most 64, a pivot is 64 below the head. -/
theorem fetchHead_fast_pivot (checkpoint : Nat) (pid : String) (latest : Header)
    (pv : Option Header) :
    ∀ evs : List Event, fetchHead FastSync checkpoint pid evs = .ok (latest, pv) →
      (pv = none → latest.NumberU64 ≤ 64) ∧
      (∀ p, pv = some p → p.NumberU64 = u64sub latest.NumberU64 64) := by
  intro evs
  induction evs with
  | nil => intro h; simp [fetchHead] at h
  | cons e rest ih =>
    intro h
    cases e with
    | cancel => simp [fetchHead] at h
    | timeout => simp [fetchHead] at h
    | stray => exact ih (by simpa [fetchHead] using h)
    | headers peerId hs =>
      by_cases hp : peerId = pid
      · subst hp
        cases hs with
        | nil => simp [fetchHead] at h
        | cons head more =>
          cases more with
          | nil =>
            rw [fetchHead_single] at h
            split_ifs at h with ha hb
            simp only [Outcome.ok.injEq, Prod.mk.injEq] at h
            obtain ⟨h1, h2⟩ := h
            subst h1
            subst h2
            refine ⟨fun _ => ?_, fun p hp => by cases hp⟩
            have := not_and.mp hb rfl
            simpa [fsMinFullBlocks] using this
          | cons pivot tl =>
            simp only [fetchHead, ne_eq, not_true_eq_false, if_false] at h
            split_ifs at h with ha hb hc
            simp only [Outcome.ok.injEq, Prod.mk.injEq] at h
            obtain ⟨h1, h2⟩ := h
            subst h1
            subst h2
            refine ⟨fun hn => (by cases hn), fun p hp => ?_⟩
            simp only [Option.some.injEq] at hp
            subst hp
            simpa [fsMinFullBlocks] using hc
      · have : fetchHead FastSync checkpoint pid (.headers peerId hs :: rest) =
            fetchHead FastSync checkpoint pid rest := by
          simp [fetchHead, hp]
        exact ih (this ▸ h)

/-- The record of a fast mode `syncWithPeer` that reaches the fetchers. -/
theorem syncWithPeer_fast_ok (version checkpoint : Nat) (pid : String)
    (headEvents : List Event) (currentBlock : Header) (ancestor : Outcome Nat)
    (frozen : Nat) (setHeadErr : Option GoError) (ancientLimit0 : Nat) (s : SyncSetup)
    (h : syncWithPeer version FastSync checkpoint pid headEvents currentBlock ancestor
      frozen setHeadErr ancientLimit0 = .ok s) :
    ∃ latest pv a p,
      fetchHead FastSync checkpoint pid headEvents = .ok (latest, pv) ∧
      ancestor = .ok a ∧
      (pv = some p ∨ (pv = none ∧ p = currentBlock)) ∧
      s.height = latest.NumberU64 ∧
      s.pivot = some p ∧
      s.origin = syncFastOrigin latest.NumberU64 a p.NumberU64 ∧
      s.ancientLimit = syncAncientLimit checkpoint latest.NumberU64 ∧
      s.prepare = u64add s.origin 1 := by
  unfold syncWithPeer at h
  by_cases hv : version < 63
  · rw [if_pos hv] at h; cases h
  rw [if_neg hv] at h
  cases hf : fetchHead FastSync checkpoint pid headEvents with
  | error e => rw [hf] at h; cases h
  | waiting => rw [hf] at h; cases h
  | panic => rw [hf] at h; cases h
  | ok r =>
    obtain ⟨latest, pv⟩ := r
    rw [hf] at h
    cases ha : ancestor with
    | error e => rw [ha] at h; cases h
    | waiting => rw [ha] at h; cases h
    | panic => rw [ha] at h; cases h
    | ok a =>
      rw [ha] at h
      have key : ∀ p : Header,
          (if u64add (syncFastOrigin latest.NumberU64 a p.NumberU64) 1 < frozen then
            match setHeadErr with
            | some e => Outcome.error e
            | none =>
              Outcome.ok ⟨latest.NumberU64, some p,
                syncFastOrigin latest.NumberU64 a p.NumberU64,
                if p.NumberU64 ≠ 0 then 0 else 1,
                syncAncientLimit checkpoint latest.NumberU64,
                if syncFastOrigin latest.NumberU64 a p.NumberU64 ≥ frozen ∧ frozen ≠ 0 then 0
                else syncAncientLimit checkpoint latest.NumberU64,
                some (u64add (syncFastOrigin latest.NumberU64 a p.NumberU64) 1),
                u64add (syncFastOrigin latest.NumberU64 a p.NumberU64) 1⟩
          else
            Outcome.ok ⟨latest.NumberU64, some p,
              syncFastOrigin latest.NumberU64 a p.NumberU64,
              if p.NumberU64 ≠ 0 then 0 else 1,
              syncAncientLimit checkpoint latest.NumberU64,
              if syncFastOrigin latest.NumberU64 a p.NumberU64 ≥ frozen ∧ frozen ≠ 0 then 0
              else syncAncientLimit checkpoint latest.NumberU64,
              none,
              u64add (syncFastOrigin latest.NumberU64 a p.NumberU64) 1⟩) = Outcome.ok s →
          s.height = latest.NumberU64 ∧
          s.pivot = some p ∧
          s.origin = syncFastOrigin latest.NumberU64 a p.NumberU64 ∧
          s.ancientLimit = syncAncientLimit checkpoint latest.NumberU64 ∧
          s.prepare = u64add s.origin 1 := by
        intro p hk
        by_cases h1 : u64add (syncFastOrigin latest.NumberU64 a p.NumberU64) 1 < frozen
        · rw [if_pos h1] at hk
          cases hs : setHeadErr with
          | some e => rw [hs] at hk; cases hk
          | none =>
            rw [hs] at hk
            simp only [Outcome.ok.injEq] at hk
            subst hk
            exact ⟨rfl, rfl, rfl, rfl, rfl⟩
        · rw [if_neg h1] at hk
          simp only [Outcome.ok.injEq] at hk
          subst hk
          exact ⟨rfl, rfl, rfl, rfl, rfl⟩
      cases hpv : pv with
      | none =>
        rw [hpv] at h
        exact ⟨latest, none, a, currentBlock, rfl, rfl, Or.inr ⟨rfl, rfl⟩,
          key currentBlock (by simpa using h)⟩
      | some p =>
        rw [hpv] at h
        exact ⟨latest, some p, a, p, rfl, rfl, Or.inl rfl, key p (by simpa using h)⟩

/-- C17 (counterexample): with checkpoint 90002 and a remote head of height
200000 the code sets the ancient limit to the checkpoint 90002, where the
maximum of the specification is 109999; with checkpoint 5 and height 10 the
code yields 0, the maximum is 5. -/
theorem syncWithPeer_ancientLimit_counterexample :
    syncWithPeer 64 FastSync 90002 "p"
        [.headers "p" [mkHeader 200000 1, mkHeader 199936 2]] (mkHeader 0 0) (.ok 0) 0 none 0
      = .ok ⟨200000, some (mkHeader 199936 2), 0, 0, 90002, 90002, none, 1⟩ ∧
    specAncientLimit 90002 200000 = 109999 ∧
    syncAncientLimit 5 10 = 0 ∧ specAncientLimit 5 10 = 5 := by
  decide

/-- C17: in fast mode the ancient limit that `syncWithPeer` assigns before
the direct-ancient check is the checkpoint when the checkpoint is above
`fullMaxForkAncestry+1`, else `height - fullMaxForkAncestry - 1` when the
height is above `fullMaxForkAncestry+1`, else 0; it is the maximum of the
specification exactly when the checkpoint is above `fullMaxForkAncestry+1`
and the height at most `checkpoint + fullMaxForkAncestry + 1`, or the
checkpoint is at most `fullMaxForkAncestry+1` and is 0 or at most
`height - fullMaxForkAncestry - 1`. -/
theorem syncWithPeer_ancientLimit (version checkpoint : Nat) (pid : String)
    (headEvents : List Event) (currentBlock : Header) (ancestor : Outcome Nat)
    (frozen : Nat) (setHeadErr : Option GoError) (ancientLimit0 : Nat) (s : SyncSetup)
    (h : syncWithPeer version FastSync checkpoint pid headEvents currentBlock ancestor
      frozen setHeadErr ancientLimit0 = .ok s) :
    s.ancientLimit = syncAncientLimit checkpoint s.height ∧
    s.ancientLimit =
      (if fullMaxForkAncestry + 1 < checkpoint then checkpoint
       else if fullMaxForkAncestry + 1 < s.height then s.height - fullMaxForkAncestry - 1
       else 0) ∧
    (s.ancientLimit = specAncientLimit checkpoint s.height ↔
      (fullMaxForkAncestry + 1 < checkpoint →
        s.height ≤ checkpoint + fullMaxForkAncestry + 1) ∧
      (checkpoint ≤ fullMaxForkAncestry + 1 →
        checkpoint = 0 ∨ checkpoint + fullMaxForkAncestry + 1 ≤ s.height)) := by
  obtain ⟨latest, pv, a, p, -, -, -, hh, -, -, hal, -⟩ :=
    syncWithPeer_fast_ok version checkpoint pid headEvents currentBlock ancestor frozen
      setHeadErr ancientLimit0 s h
  have hlt : s.height < 2 ^ 64 := by
    rw [hh]
    exact Nat.mod_lt _ (by decide)
  rw [← hh] at hal
  rw [hal]
  generalize s.height = height at hlt
  simp only [syncAncientLimit, specAncientLimit, fullMaxForkAncestry, u64sub]
  refine ⟨trivial, ?_, ?_⟩
  · split_ifs <;> omega
  · split_ifs <;> omega

theorem syncWithPeer_ancientLimit_witness :
    syncWithPeer 64 FastSync 0 "p"
        [.headers "p" [mkHeader 200000 1, mkHeader 199936 2]] (mkHeader 0 0) (.ok 7) 0 none 0
      = .ok ⟨200000, some (mkHeader 199936 2), 7, 0, 109999, 109999, none, 8⟩ ∧
    (109999 = syncAncientLimit 0 200000 ∧
    109999 =
      (if fullMaxForkAncestry + 1 < 0 then 0
       else if fullMaxForkAncestry + 1 < 200000 then 200000 - fullMaxForkAncestry - 1
       else 0) ∧
    (109999 = specAncientLimit 0 200000 ↔
      (fullMaxForkAncestry + 1 < 0 → 200000 ≤ 0 + fullMaxForkAncestry + 1) ∧
      (0 ≤ fullMaxForkAncestry + 1 →
        0 = 0 ∨ 0 + fullMaxForkAncestry + 1 ≤ 200000))) :=
  ⟨by decide,
    syncWithPeer_ancientLimit 64 0 "p"
      [.headers "p" [mkHeader 200000 1, mkHeader 199936 2]] (mkHeader 0 0) (.ok 7) 0 none 0
      ⟨200000, some (mkHeader 199936 2), 7, 0, 109999, 109999, none, 8⟩ (by decide)⟩

/-- C18: in fast mode, whenever the checkpoint is above
`fullMaxForkAncestry+1`, the ancient limit that `syncWithPeer` assigns before
the direct-ancient check is the checkpoint, whatever the height of the remote
head, also when `height - fullMaxForkAncestry - 1` is above the checkpoint. -/
theorem syncWithPeer_ancientLimit_checkpoint (version checkpoint : Nat) (pid : String)
    (headEvents : List Event) (currentBlock : Header) (ancestor : Outcome Nat)
    (frozen : Nat) (setHeadErr : Option GoError) (ancientLimit0 : Nat) (s : SyncSetup)
    (h : syncWithPeer version FastSync checkpoint pid headEvents currentBlock ancestor
      frozen setHeadErr ancientLimit0 = .ok s)
    (hc : checkpoint > fullMaxForkAncestry + 1) :
    s.ancientLimit = checkpoint ∧
    ∀ height, syncAncientLimit checkpoint height = checkpoint := by
  obtain ⟨latest, pv, a, p, -, -, -, -, -, -, hal, -⟩ :=
    syncWithPeer_fast_ok version checkpoint pid headEvents currentBlock ancestor frozen
      setHeadErr ancientLimit0 s h
  have key : ∀ height, syncAncientLimit checkpoint height = checkpoint := by
    intro height
    unfold syncAncientLimit
    rw [if_pos ⟨by omega, hc⟩]
  exact ⟨hal.trans (key _), key⟩

theorem syncWithPeer_ancientLimit_checkpoint_witness :
    syncWithPeer 64 FastSync 90005 "p"
        [.headers "p" [mkHeader 300000 1, mkHeader 299936 2]] (mkHeader 0 0) (.ok 7) 0 none 0
      = .ok ⟨300000, some (mkHeader 299936 2), 7, 0, 90005, 90005, none, 8⟩ ∧
    90005 > fullMaxForkAncestry + 1 ∧
    90005 < 300000 - fullMaxForkAncestry - 1 ∧
    ((90005 : Nat) = 90005 ∧ ∀ height, syncAncientLimit 90005 height = 90005) :=
  ⟨by decide, by decide, by decide,
    syncWithPeer_ancientLimit_checkpoint 64 90005 "p"
      [.headers "p" [mkHeader 300000 1, mkHeader 299936 2]] (mkHeader 0 0) (.ok 7) 0 none 0
      ⟨300000, some (mkHeader 299936 2), 7, 0, 90005, 90005, none, 8⟩ (by decide) (by decide)⟩

/-- C19: when a fast mode `syncWithPeer` reaches the fetchers, the queue is
prepared and the fetchers start at `origin + 1`, where the origin is 0 when
the height of the remote head is at most 64, and else is the smaller of the
ancestor found and the pivot number less one; for heights above 64 the pivot
is the header `fetchHead` returned, 64 below the head, and lies in the range
from `origin + 1` to the height. -/
theorem syncWithPeer_fast_origin (version checkpoint : Nat) (pid : String)
    (headEvents : List Event) (currentBlock : Header) (ancestor : Outcome Nat)
    (frozen : Nat) (setHeadErr : Option GoError) (ancientLimit0 : Nat) (s : SyncSetup)
    (h : syncWithPeer version FastSync checkpoint pid headEvents currentBlock ancestor
      frozen setHeadErr ancientLimit0 = .ok s) :
    s.prepare = s.origin + 1 ∧
    (s.height ≤ 64 → s.origin = 0) ∧
    (64 < s.height → ∃ latest p a,
      fetchHead FastSync checkpoint pid headEvents = .ok (latest, some p) ∧
      ancestor = .ok a ∧
      s.height = latest.NumberU64 ∧
      s.pivot = some p ∧
      p.NumberU64 + 64 = s.height ∧
      s.origin = min a (p.NumberU64 - 1) ∧
      s.origin + 1 ≤ p.NumberU64 ∧ p.NumberU64 ≤ s.height) := by
  obtain ⟨latest, pv, a, p, hf, ha, hp, hh, hpiv, ho, -, hprep⟩ :=
    syncWithPeer_fast_ok version checkpoint pid headEvents currentBlock ancestor frozen
      setHeadErr ancientLimit0 s h
  have hfp := fetchHead_fast_pivot checkpoint pid latest pv headEvents hf
  have hlt : latest.NumberU64 < 2 ^ 64 := Nat.mod_lt _ (by decide)
  have hplt : p.NumberU64 < 2 ^ 64 := Nat.mod_lt _ (by decide)
  rw [← hh] at ho hlt hfp
  simp only [syncFastOrigin, fsMinFullBlocks] at ho
  by_cases h64 : s.height ≤ 64
  · rw [if_pos h64] at ho
    refine ⟨?_, fun _ => ho, fun hgt => absurd h64 (by omega)⟩
    rw [hprep, ho]
    decide
  · rw [if_neg h64] at ho
    have hsome : pv = some p := by
      rcases hp with hp | ⟨hp, -⟩
      · exact hp
      · exact absurd (hfp.1 hp) h64
    have hnum : p.NumberU64 = u64sub s.height 64 := hfp.2 p hsome
    simp only [u64sub] at hnum ho
    have hpe : p.NumberU64 + 64 = s.height := by omega
    have hor : s.origin = min a (p.NumberU64 - 1) ∧ s.origin + 1 ≤ p.NumberU64 := by
      split_ifs at ho with hle
      · rw [ho]
        constructor
        · rw [Nat.min_def]
          split_ifs <;> omega
        · omega
      · rw [ho]
        constructor
        · rw [Nat.min_def]
          split_ifs <;> omega
        · omega
    refine ⟨?_, fun hle => absurd hle h64, fun _ => ?_⟩
    · rw [hprep]
      simp only [u64add]
      omega
    · subst hsome
      exact ⟨latest, p, a, hf, ha, hh, hpiv, hpe, hor.1, hor.2, by omega⟩

theorem syncWithPeer_fast_origin_witness :
    syncWithPeer 64 FastSync 0 "p"
        [.headers "p" [mkHeader 1000 1, mkHeader 936 2]] (mkHeader 0 0) (.ok 950) 0 none 0
      = .ok ⟨1000, some (mkHeader 936 2), 935, 0, 0, 0, none, 936⟩ ∧
    ((936 : Nat) = 935 + 1 ∧
    ((1000 : Nat) ≤ 64 → (935 : Nat) = 0) ∧
    ((64 : Nat) < 1000 → ∃ latest p a,
      fetchHead FastSync 0 "p" [.headers "p" [mkHeader 1000 1, mkHeader 936 2]] =
        .ok (latest, some p) ∧
      (Outcome.ok 950 : Outcome Nat) = .ok a ∧
      1000 = latest.NumberU64 ∧
      some (mkHeader 936 2) = some p ∧
      p.NumberU64 + 64 = 1000 ∧
      935 = min a (p.NumberU64 - 1) ∧
      935 + 1 ≤ p.NumberU64 ∧ p.NumberU64 ≤ 1000)) :=
  ⟨by decide,
    syncWithPeer_fast_origin 64 0 "p"
      [.headers "p" [mkHeader 1000 1, mkHeader 936 2]] (mkHeader 0 0) (.ok 950) 0 none 0
      ⟨1000, some (mkHeader 936 2), 935, 0, 0, 0, none, 936⟩ (by decide)⟩

/-! ## processHeaders: the sentinel run -/

/-- The insertion of a chunk never ends `processHeaders` with success. -/
theorem insertChunk_not_ok (mode : SyncMode) (e : ChunkEnv) (st st' : ProcState)
    (chunk : List Header) : insertChunk mode e st chunk ≠ (st', some (.ok ())) := by
  intro h
  unfold insertChunk at h
  by_cases hm : mode = FastSync ∨ mode = LightSync
  · rw [if_pos hm] at h
    cases hi : e.insert with
    | none =>
      rw [hi] at h
      dsimp only at h
      split_ifs at h <;> simp at h
    | some r =>
      obtain ⟨n, err⟩ := r
      rw [hi] at h
      dsimp only at h
      split_ifs at h <;> simp at h
  · rw [if_neg hm] at h
    simp at h

/-- The scheduling of a chunk never ends `processHeaders` with success. -/
theorem scheduleChunk_not_ok (mode : SyncMode) (e : ChunkEnv) (st st' : ProcState)
    (chunk : List Header) : scheduleChunk mode e st chunk ≠ (st', some (.ok ())) := by
  intro h
  unfold scheduleChunk at h
  by_cases hm : mode = FullSync ∨ mode = FastSync
  · rw [if_pos hm] at h
    cases hq : e.queueWait with
    | room =>
      rw [hq] at h
      dsimp only at h
      split_ifs at h <;> simp at h
    | cancelled => rw [hq] at h; simp at h
    | stuck => rw [hq] at h; simp at h
  · rw [if_neg hm] at h
    simp at h

/-- The chunk loop never ends `processHeaders` with success. -/
theorem processChunks_not_ok (mode : SyncMode) (env : Nat → ChunkEnv) :
    ∀ (fuel : Nat) (st st' : ProcState) (headers : List Header),
      processChunks mode env fuel st headers ≠ (st', some (.ok ())) := by
  intro fuel
  induction fuel with
  | zero => intro st st' headers h; simp [processChunks] at h
  | succ fuel ih =>
    intro st st' headers h
    unfold processChunks at h
    by_cases h0 : headers.length = 0
    · rw [if_pos h0] at h; simp at h
    rw [if_neg h0] at h
    dsimp only at h
    by_cases hc : (env st.chunkIndex).cancelled = true
    · rw [if_pos hc] at h; simp at h
    rw [if_neg hc] at h
    cases hi : insertChunk mode (env st.chunkIndex)
        { st with chunkIndex := st.chunkIndex + 1 }
        (headers.take (if maxHeadersProcess > headers.length then headers.length
          else maxHeadersProcess)) with
    | mk s1 o1 =>
      rw [hi] at h
      cases o1 with
      | some out =>
        dsimp only at h
        have : out = .ok () := by
          simp only [Prod.mk.injEq, Option.some.injEq] at h
          exact h.2
        subst this
        have : s1 = st' := by
          simp only [Prod.mk.injEq] at h
          exact h.1
        subst this
        exact insertChunk_not_ok _ _ _ _ _ hi
      | none =>
        dsimp only at h
        cases hs : scheduleChunk mode (env st.chunkIndex) s1
            (headers.take (if maxHeadersProcess > headers.length then headers.length
              else maxHeadersProcess)) with
        | mk s2 o2 =>
          rw [hs] at h
          cases o2 with
          | some out =>
            dsimp only at h
            have : out = .ok () := by
              simp only [Prod.mk.injEq, Option.some.injEq] at h
              exact h.2
            subst this
            have : s2 = st' := by
              simp only [Prod.mk.injEq] at h
              exact h.1
            subst this
            exact scheduleChunk_not_ok _ _ _ _ _ hs
          | none =>
            dsimp only at h
            exact ih _ _ _ h

/-- When the outer loop of `processHeaders` ends with success, the rollback
is 0. -/
theorem processLoop_ok_rollback (mode : SyncMode) (env : Nat → ChunkEnv)
    (td blockTd headerTd : Nat) :
    ∀ (evs : List ProcEvent) (st st' : ProcState) (got : Bool),
      processLoop mode env td blockTd headerTd st got evs = (st', .ok ()) →
      st'.rollback = 0 := by
  intro evs
  induction evs with
  | nil => intro st st' got h; simp [processLoop] at h
  | cons e rest ih =>
    intro st st' got h
    cases e with
    | cancel => simp [processLoop] at h
    | run headers =>
      unfold processLoop at h
      by_cases h0 : headers.length = 0
      · rw [if_pos h0] at h
        split_ifs at h
        · simp at h
        · simp at h
        · simp only [Prod.mk.injEq, and_true] at h
          rw [← h]
      · rw [if_neg h0] at h
        cases hp : processChunks mode env headers.length st headers with
        | mk s1 o1 =>
          rw [hp] at h
          cases o1 with
          | some out =>
            dsimp only at h
            simp only [Prod.mk.injEq] at h
            obtain ⟨h1, h2⟩ := h
            subst h1
            subst h2
            exact absurd hp (processChunks_not_ok _ _ _ _ _ _)
          | none =>
            dsimp only at h
            exact ih _ _ _ h

/-- C11: for a mode that is full, fast or light, when `processHeaders`
receives the empty sentinel run it returns `errStallingPeer` exactly when the
mode is full or fast, no header run was received before, and the advertised
total difficulty is above that of the current block, or the mode is fast or
light and the advertised total difficulty is above that of the current
header; in every other case it returns nil with the rollback set to 0.  A
header run that is handled without an early return sets the flag of received
headers, and a call of `processHeaders` that returns nil makes no `SetHead`
call in its deferred function. -/
theorem processHeaders_sentinel (mode : SyncMode) (env : Nat → ChunkEnv)
    (td blockTd headerTd origin : Nat) (st : ProcState) (got : Bool)
    (rest evs : List ProcEvent)
    (hm : mode = FullSync ∨ mode = FastSync ∨ mode = LightSync) :
    (processLoop mode env td blockTd headerTd st got (.run [] :: rest) =
      if ((mode = FullSync ∨ mode = FastSync) ∧ got = false ∧ td > blockTd) ∨
          ((mode = FastSync ∨ mode = LightSync) ∧ td > headerTd) then
        (st, .error (.sentinel .errStallingPeer))
      else ({ st with rollback := 0 }, .ok ())) ∧
    (processHeaders mode env td blockTd headerTd origin (.run [] :: rest) =
      if ((mode = FullSync ∨ mode = FastSync) ∧ td > blockTd) ∨
          ((mode = FastSync ∨ mode = LightSync) ∧ td > headerTd) then
        ⟨.error (.sentinel .errStallingPeer), [], none⟩
      else ⟨.ok (), [], none⟩) ∧
    (∀ hs st1, hs ≠ [] → processChunks mode env hs.length st hs = (st1, none) →
      processLoop mode env td blockTd headerTd st got (.run hs :: rest) =
        processLoop mode env td blockTd headerTd st1 true rest) ∧
    ((processHeaders mode env td blockTd headerTd origin evs).outcome = .ok () →
      (processHeaders mode env td blockTd headerTd origin evs).setHead = none) := by
  have hloop : ∀ (st : ProcState) (got : Bool),
      processLoop mode env td blockTd headerTd st got (.run [] :: rest) =
      if ((mode = FullSync ∨ mode = FastSync) ∧ got = false ∧ td > blockTd) ∨
          ((mode = FastSync ∨ mode = LightSync) ∧ td > headerTd) then
        (st, .error (.sentinel .errStallingPeer))
      else ({ st with rollback := 0 }, .ok ()) := by
    intro st got
    unfold processLoop
    rw [if_pos (List.length_nil)]
    rcases hm with hm | hm | hm <;> subst hm <;>
      simp only [FullSync, FastSync, LightSync] <;>
      by_cases h1 : got = false <;> by_cases h2 : td > blockTd <;>
      by_cases h3 : td > headerTd <;> simp [h1, h2, h3]
  refine ⟨hloop st got, ?_, ?_, ?_⟩
  · unfold processHeaders
    rw [hloop]
    by_cases hc : ((mode = FullSync ∨ mode = FastSync) ∧ td > blockTd) ∨
        ((mode = FastSync ∨ mode = LightSync) ∧ td > headerTd)
    · rw [if_pos hc, if_pos (by simpa using hc)]
      rfl
    · rw [if_neg hc, if_neg (by simpa using hc)]
      rfl
  · intro hs st1 hne hp
    have h0 : ¬ hs.length = 0 := fun h => hne (List.length_eq_zero.mp h)
    cases hs with
    | nil => exact absurd rfl hne
    | cons x xs =>
      rw [processLoop, if_neg h0, hp]
  · intro hok
    unfold processHeaders at hok ⊢
    cases hl : processLoop mode env td blockTd headerTd
        { rollback := 0, origin := origin, chunkIndex := 0, calls := [] } false evs with
    | mk s1 out =>
      rw [hl] at hok
      cases out with
      | waiting => rfl
      | panic => simp at hok; split_ifs at hok
      | error e => simp at hok; split_ifs at hok
      | ok u =>
        have hr := processLoop_ok_rollback mode env td blockTd headerTd evs _ s1 false hl
        simp [hr]

theorem processHeaders_sentinel_witness :
    (processLoop FastSync (fun _ => ⟨false, none, none, .room, 0⟩) 10 5 20
        ⟨4, 1, 0, []⟩ false [.run []] =
      if ((FastSync = FullSync ∨ FastSync = FastSync) ∧ false = false ∧ 10 > 5) ∨
          ((FastSync = FastSync ∨ FastSync = LightSync) ∧ 10 > 20) then
        (⟨4, 1, 0, []⟩, .error (.sentinel .errStallingPeer))
      else ({ (⟨4, 1, 0, []⟩ : ProcState) with rollback := 0 }, .ok ())) ∧
    (processHeaders FastSync (fun _ => ⟨false, none, none, .room, 0⟩) 10 5 20 1 [.run []] =
      if ((FastSync = FullSync ∨ FastSync = FastSync) ∧ 10 > 5) ∨
          ((FastSync = FastSync ∨ FastSync = LightSync) ∧ 10 > 20) then
        ⟨.error (.sentinel .errStallingPeer), [], none⟩
      else ⟨.ok (), [], none⟩) ∧
    (∀ hs st1, hs ≠ [] →
      processChunks FastSync (fun _ => ⟨false, none, none, .room, 0⟩) hs.length
        ⟨4, 1, 0, []⟩ hs = (st1, none) →
      processLoop FastSync (fun _ => ⟨false, none, none, .room, 0⟩) 10 5 20
          ⟨4, 1, 0, []⟩ false (.run hs :: []) =
        processLoop FastSync (fun _ => ⟨false, none, none, .room, 0⟩) 10 5 20 st1 true []) ∧
    ((processHeaders FastSync (fun _ => ⟨false, none, none, .room, 0⟩) 10 5 20 1
        [.run [], .cancel]).outcome = .ok () →
      (processHeaders FastSync (fun _ => ⟨false, none, none, .room, 0⟩) 10 5 20 1
        [.run [], .cancel]).setHead = none) :=
  processHeaders_sentinel FastSync (fun _ => ⟨false, none, none, .room, 0⟩) 10 5 20 1
    ⟨4, 1, 0, []⟩ false [] [.run [], .cancel] (Or.inr (Or.inl rfl))

/-! ## fetchParts: deliveries -/

/-- An error chain ends in one sentinel: `errors.Is` holds for at most one. -/
theorem errorsIs_unique (e : GoError) (s t : Sentinel)
    (hs : errorsIs e s = true) (ht : errorsIs e t = true) : s = t := by
  induction e with
  | sentinel x =>
    simp only [errorsIs, decide_eq_true_eq] at hs ht
    rw [← hs, ← ht]
  | wrapf msg inner ih => exact ih hs ht

/-- C12: when `fetchParts` receives a packet of a registered peer and
`deliver` reports a stale delivery, no `setIdle` call is made and the loop
goes on; when `deliver` reports an invalid chain, `fetchParts` returns that
error without a `setIdle` call; for every other result of `deliver`, nil or
another error, `setIdle` is called once, with the accepted count and the time
read on receipt, and the loop goes on.  For a peer that is not registered
`deliver` is not called and no `setIdle` call is made. -/
theorem fetchPartsLoop_delivery (dropPeerSet : Bool) (cancelPeer : String)
    (finished pendingUpdate : Bool) (done : List PartsAction) (peerId : String)
    (deliveryTime accepted : Nat) (rest : List PartsEvent) :
    (∀ e, errorsIs e .errStaleDelivery = true →
      fetchPartsLoop dropPeerSet cancelPeer finished pendingUpdate done
          (.delivery peerId deliveryTime true accepted (some e) :: rest) =
        fetchPartsLoop dropPeerSet cancelPeer finished true done rest) ∧
    (∀ e, errorsIs e .errInvalidChain = true →
      fetchPartsLoop dropPeerSet cancelPeer finished pendingUpdate done
          (.delivery peerId deliveryTime true accepted (some e) :: rest) =
        (done, .error e)) ∧
    (∀ err : Option GoError,
      (∀ e, err = some e →
        errorsIs e .errStaleDelivery = false ∧ errorsIs e .errInvalidChain = false) →
      fetchPartsLoop dropPeerSet cancelPeer finished pendingUpdate done
          (.delivery peerId deliveryTime true accepted err :: rest) =
        fetchPartsLoop dropPeerSet cancelPeer finished true
          (done ++ [.setIdleAt peerId accepted deliveryTime]) rest) ∧
    (∀ err : Option GoError,
      fetchPartsLoop dropPeerSet cancelPeer finished pendingUpdate done
          (.delivery peerId deliveryTime false accepted err :: rest) =
        fetchPartsLoop dropPeerSet cancelPeer finished true done rest) := by
  refine ⟨?_, ?_, ?_, ?_⟩
  · intro e hs
    have hi : errorsIs e .errInvalidChain = false := by
      cases h : errorsIs e .errInvalidChain with
      | false => rfl
      | true => exact absurd (errorsIs_unique e _ _ hs h) (by decide)
    simp [fetchPartsLoop, hs, hi]
  · intro e hi
    simp [fetchPartsLoop, hi]
  · intro err h
    cases err with
    | none => simp [fetchPartsLoop]
    | some e =>
      obtain ⟨hs, hi⟩ := h e rfl
      simp [fetchPartsLoop, hs, hi]
  · intro err
    simp [fetchPartsLoop]

theorem fetchPartsLoop_delivery_witness :
    fetchPartsLoop true "master" false false [.setIdle "a" 0]
        (.delivery "p" 17 true 3 (some (.wrapf "late" (.sentinel .errStaleDelivery))) ::
          [.cancel]) =
      fetchPartsLoop true "master" false true [.setIdle "a" 0] [.cancel] ∧
    fetchPartsLoop true "master" false false [.setIdle "a" 0]
        (.delivery "p" 17 true 3 (some (.wrapf "bad" (.sentinel .errInvalidChain))) ::
          [.cancel]) =
      ([.setIdle "a" 0], .error (.wrapf "bad" (.sentinel .errInvalidChain))) ∧
    fetchPartsLoop true "master" false false [.setIdle "a" 0]
        (.delivery "p" 17 true 3 (some (.sentinel .errInvalidBody)) :: [.cancel]) =
      fetchPartsLoop true "master" false true
        ([.setIdle "a" 0] ++ [.setIdleAt "p" 3 17]) [.cancel] :=
  ⟨(fetchPartsLoop_delivery true "master" false false [.setIdle "a" 0] "p" 17 3
      [.cancel]).1 _ (by decide),
    (fetchPartsLoop_delivery true "master" false false [.setIdle "a" 0] "p" 17 3
      [.cancel]).2.1 _ (by decide),
    (fetchPartsLoop_delivery true "master" false false [.setIdle "a" 0] "p" 17 3
      [.cancel]).2.2.1 (some (.sentinel .errInvalidBody))
      (fun e he => by
        have h : e = .sentinel .errInvalidBody := (Option.some.inj he).symm
        subst h
        exact ⟨by decide, by decide⟩)⟩

/-! ## float64 arithmetic -/

theorem roundEven_intCast (n : ℤ) : roundEven (n : ℚ) = n := by
  simp [roundEven]

theorem roundEven_mono {a b : ℚ} (h : a ≤ b) : roundEven a ≤ roundEven b := by
  have hf : ⌊a⌋ ≤ ⌊b⌋ := Int.floor_mono h
  have ha0 : (⌊a⌋ : ℚ) ≤ a := Int.floor_le a
  have ha1 : a < ⌊a⌋ + 1 := Int.lt_floor_add_one a
  have hb0 : (⌊b⌋ : ℚ) ≤ b := Int.floor_le b
  have hb1 : b < ⌊b⌋ + 1 := Int.lt_floor_add_one b
  rcases lt_or_eq_of_le hf with hlt | heq
  · unfold roundEven
    split_ifs <;> omega
  · unfold roundEven
    have hc : (⌊a⌋ : ℚ) = ⌊b⌋ := by rw [heq]
    split_ifs <;> first | omega | (exfalso; linarith)

theorem toFloat64_pos_eq {q : ℚ} (hq : 0 < q) :
    toFloat64 q = (roundEven (q / 2 ^ (Int.log 2 q - 52)) : ℚ) * 2 ^ (Int.log 2 q - 52) := by
  rw [toFloat64, if_neg (ne_of_gt hq), abs_of_pos hq]

theorem two_zpow_pos (e : ℤ) : (0 : ℚ) < 2 ^ e := zpow_pos (by norm_num) e

theorem log_le_self {q : ℚ} (hq : 0 < q) : (2 : ℚ) ^ Int.log 2 q ≤ q := by
  have := Int.zpow_log_le_self (b := 2) (by norm_num) hq
  simpa using this

theorem self_lt_log_succ (q : ℚ) : q < (2 : ℚ) ^ (Int.log 2 q + 1) := by
  have := Int.lt_zpow_succ_log_self (b := 2) (by norm_num) q
  simpa using this

/-- A positive value rounds into the closed binade it lies in. -/
theorem toFloat64_binade {q : ℚ} (hq : 0 < q) :
    (2 : ℚ) ^ Int.log 2 q ≤ toFloat64 q ∧ toFloat64 q ≤ (2 : ℚ) ^ (Int.log 2 q + 1) := by
  rw [toFloat64_pos_eq hq]
  have hs := two_zpow_pos (Int.log 2 q - 52)
  constructor
  · have h1 : ((2 ^ 52 : ℤ) : ℚ) ≤ q / 2 ^ (Int.log 2 q - 52) := by
      rw [le_div_iff₀ hs]
      have : ((2 ^ 52 : ℤ) : ℚ) * 2 ^ (Int.log 2 q - 52) = 2 ^ Int.log 2 q := by
        rw [zpow_sub₀ (by norm_num)]
        push_cast
        field_simp
        norm_num
        ring
      rw [this]
      exact log_le_self hq
    have h2 := roundEven_mono h1
    rw [roundEven_intCast] at h2
    have h3 : ((2 ^ 52 : ℤ) : ℚ) ≤ (roundEven (q / 2 ^ (Int.log 2 q - 52)) : ℚ) := by
      exact_mod_cast h2
    calc (2 : ℚ) ^ Int.log 2 q = ((2 ^ 52 : ℤ) : ℚ) * 2 ^ (Int.log 2 q - 52) := by
          rw [zpow_sub₀ (by norm_num)]
          push_cast
          field_simp
          norm_num
          ring
      _ ≤ _ := mul_le_mul_of_nonneg_right h3 hs.le
  · have h1 : q / 2 ^ (Int.log 2 q - 52) ≤ ((2 ^ 53 : ℤ) : ℚ) := by
      rw [div_le_iff₀ hs]
      have : ((2 ^ 53 : ℤ) : ℚ) * 2 ^ (Int.log 2 q - 52) = 2 ^ (Int.log 2 q + 1) := by
        rw [zpow_sub₀ (by norm_num), zpow_add₀ (by norm_num)]
        push_cast
        field_simp
        ring
      rw [this]
      exact (self_lt_log_succ q).le
    have h2 := roundEven_mono h1
    rw [roundEven_intCast] at h2
    have h3 : (roundEven (q / 2 ^ (Int.log 2 q - 52)) : ℚ) ≤ ((2 ^ 53 : ℤ) : ℚ) := by
      exact_mod_cast h2
    calc _ ≤ ((2 ^ 53 : ℤ) : ℚ) * 2 ^ (Int.log 2 q - 52) :=
          mul_le_mul_of_nonneg_right h3 hs.le
      _ = (2 : ℚ) ^ (Int.log 2 q + 1) := by
          rw [zpow_sub₀ (by norm_num), zpow_add₀ (by norm_num)]
          push_cast
          field_simp
          ring

theorem toFloat64_mono {a b : ℚ} (ha : 0 < a) (h : a ≤ b) : toFloat64 a ≤ toFloat64 b := by
  have hb : 0 < b := lt_of_lt_of_le ha h
  have hl : Int.log 2 a ≤ Int.log 2 b := Int.log_mono_right ha h
  rcases lt_or_eq_of_le hl with hlt | heq
  · calc toFloat64 a ≤ (2 : ℚ) ^ (Int.log 2 a + 1) := (toFloat64_binade ha).2
      _ ≤ (2 : ℚ) ^ Int.log 2 b := zpow_le_zpow_right₀ (by norm_num) (by omega)
      _ ≤ toFloat64 b := (toFloat64_binade hb).1
  · rw [toFloat64_pos_eq ha, toFloat64_pos_eq hb, heq]
    have hs := two_zpow_pos (Int.log 2 b - 52)
    apply mul_le_mul_of_nonneg_right _ hs.le
    have : roundEven (a / 2 ^ (Int.log 2 b - 52)) ≤ roundEven (b / 2 ^ (Int.log 2 b - 52)) :=
      roundEven_mono (div_le_div_of_nonneg_right h hs.le)
    exact_mod_cast this

theorem toFloat64_exact (k : ℕ) (j : ℤ) (hk : k < 2 ^ 53) :
    toFloat64 ((k : ℚ) * 2 ^ j) = (k : ℚ) * 2 ^ j := by
  rcases Nat.eq_zero_or_pos k with h0 | hpos
  · subst h0
    simp [toFloat64]
  have hkq : (0 : ℚ) < k := by exact_mod_cast hpos
  have hq : (0 : ℚ) < (k : ℚ) * 2 ^ j := mul_pos hkq (two_zpow_pos j)
  rw [toFloat64_pos_eq hq]
  set e := Int.log 2 ((k : ℚ) * 2 ^ j) with he
  have h1 : (2 : ℚ) ^ e ≤ (k : ℚ) * 2 ^ j := log_le_self hq
  have h2 : (k : ℚ) * 2 ^ j < 2 ^ (53 + j) := by
    rw [zpow_add₀ (by norm_num)]
    apply mul_lt_mul_of_pos_right _ (two_zpow_pos j)
    exact_mod_cast hk
  have h3 : e < 53 + j := by
    have := lt_of_le_of_lt h1 h2
    exact (zpow_lt_zpow_iff_right₀ (by norm_num)).mp this
  obtain ⟨n, hn⟩ : ∃ n : ℕ, j - (e - 52) = n := ⟨(j - (e - 52)).toNat, by omega⟩
  have hj : j = (e - 52) + n := by omega
  have hdiv : (k : ℚ) * 2 ^ j / 2 ^ (e - 52) = (((k * 2 ^ n : ℕ) : ℤ) : ℚ) := by
    rw [hj, zpow_add₀ (by norm_num)]
    push_cast
    field_simp
    ring
  rw [hdiv, roundEven_intCast, hj, zpow_add₀ (by norm_num)]
  push_cast
  rw [zpow_natCast]
  ring

/-! ## Quality of service -/

theorem toFloat64_natCast (k : ℕ) (hk : k < 2 ^ 53) : toFloat64 (k : ℚ) = k := by
  have := toFloat64_exact k 0 hk
  simpa using this

theorem toFloat64_le_of_le {a r : ℚ} (ha : 0 < a) (h : a ≤ r) (hr : toFloat64 r = r) :
    toFloat64 a ≤ r := by
  have := toFloat64_mono ha h
  rwa [hr] at this

theorem toFloat64_ge_of_ge {a r : ℚ} (hr0 : 0 < r) (h : r ≤ a) (hr : toFloat64 r = r) :
    r ≤ toFloat64 a := by
  have := toFloat64_mono hr0 h
  rwa [hr] at this

theorem floatToInt64_of_range (indef : Int) {f : ℚ} (h0 : 0 ≤ f) (h1 : f < 2 ^ 63) :
    floatToInt64 indef f = ⌊f⌋ := by
  have hf0 : 0 ≤ ⌊f⌋ := Int.floor_nonneg.mpr h0
  have hf1 : ⌊f⌋ < 2 ^ 63 := by
    have : (⌊f⌋ : ℚ) < ((2 ^ 63 : ℤ) : ℚ) := by
      push_cast
      exact lt_of_le_of_lt (Int.floor_le f) h1
    exact_mod_cast this
  unfold floatToInt64
  rw [if_pos h0, if_pos ⟨by omega, hf1⟩]

/-- The quotient `float64(rtt)/conf` of `requestTTL` lies between the estimate
and 2^20 times the estimate when the estimate is below 2^35 and the confidence
is from 1 to 1,000,000. -/
theorem requestTTL_quotient (r c : ℕ) (hr0 : 0 < r) (hr : r < 2 ^ 35)
    (hc1 : 1 ≤ c) (hc2 : c ≤ 1000000) :
    toFloat64 (toFloat64 (c : ℚ) / 1000000) ≠ 0 ∧
    (r : ℚ) ≤ toFloat64 (toFloat64 (r : ℚ) / toFloat64 (toFloat64 (c : ℚ) / 1000000)) ∧
    toFloat64 (toFloat64 (r : ℚ) / toFloat64 (toFloat64 (c : ℚ) / 1000000)) ≤
      (r : ℚ) * 2 ^ 20 := by
  have hcq1 : (1 : ℚ) ≤ c := by exact_mod_cast hc1
  have hcq2 : (c : ℚ) ≤ 1000000 := by exact_mod_cast hc2
  have hrq : (0 : ℚ) < r := by exact_mod_cast hr0
  rw [toFloat64_natCast c (by omega), toFloat64_natCast r (by omega)]
  have hone : toFloat64 1 = 1 := by
    have := toFloat64_exact 1 0 (by norm_num)
    simpa using this
  have hsmall : toFloat64 (1 / 2 ^ 20) = 1 / 2 ^ 20 := by
    have := toFloat64_exact 1 (-20) (by norm_num)
    norm_num at this ⊢
    exact this
  have hbig : toFloat64 ((r : ℚ) * 2 ^ 20) = (r : ℚ) * 2 ^ 20 := by
    have := toFloat64_exact r 20 (by omega)
    norm_num at this ⊢
    exact this
  have hq0 : (0 : ℚ) < (c : ℚ) / 1000000 := by positivity
  have hcf1 : toFloat64 ((c : ℚ) / 1000000) ≤ 1 :=
    toFloat64_le_of_le hq0 (by rw [div_le_one (by norm_num)]; exact hcq2) hone
  have hcf0 : (1 : ℚ) / 2 ^ 20 ≤ toFloat64 ((c : ℚ) / 1000000) :=
    toFloat64_ge_of_ge (by positivity)
      (by rw [div_le_div_iff₀ (by positivity) (by norm_num)]; norm_num; linarith) hsmall
  have hcfpos : (0 : ℚ) < toFloat64 ((c : ℚ) / 1000000) := lt_of_lt_of_le (by positivity) hcf0
  refine ⟨ne_of_gt hcfpos, ?_, ?_⟩
  · apply toFloat64_ge_of_ge hrq _ (toFloat64_natCast r (by omega))
    rw [le_div_iff₀ hcfpos]
    nlinarith
  · apply toFloat64_le_of_le (by positivity) _ hbig
    rw [div_le_iff₀ hcfpos]
    have : (r : ℚ) * 2 ^ 20 * (1 / 2 ^ 20) ≤ (r : ℚ) * 2 ^ 20 * toFloat64 ((c : ℚ) / 1000000) :=
      mul_le_mul_of_nonneg_left hcf0 (by positivity)
    calc (r : ℚ) = (r : ℚ) * 2 ^ 20 * (1 / 2 ^ 20) := by field_simp
      _ ≤ _ := this

/-- C13: for every state whose round trip estimate lies in [2 s, 20 s] and
whose confidence is from 1 to 1,000,000 millionths, `requestTTL` is at least
`ttlScaling * rttMinEstimate` (6 s) and at most `ttlLimit` (60 s), and
`requestRTT` is at most `requestTTL`. -/
theorem requestTTL_bounds (indef : Int) (d : QoS)
    (hr1 : rttMinEstimate ≤ d.rttEstimate) (hr2 : (d.rttEstimate : Int) ≤ rttMaxEstimate)
    (hc1 : 1 ≤ d.rttConfidence) (hc2 : d.rttConfidence ≤ 1000000) :
    ttlScaling * rttMinEstimate ≤ requestTTL indef d ∧
    requestTTL indef d ≤ ttlLimit ∧
    requestRTT d ≤ requestTTL indef d := by
  obtain ⟨r, c⟩ := d
  simp only [rttMinEstimate, rttMaxEstimate] at hr1 hr2
  simp only at hr1 hr2 hc1 hc2
  have hr1n : 2000000000 ≤ r := by omega
  have hr2n : r ≤ 20000000000 := by omega
  obtain ⟨hcf, hlo, hhi⟩ := requestTTL_quotient r c (by omega) (by omega) hc1 hc2
  have hti : toInt64 r = (r : Int) := by
    unfold toInt64
    rw [Nat.mod_eq_of_lt (by omega), if_pos (by omega)]
  have hx0 : (0 : ℚ) ≤
      toFloat64 (toFloat64 (r : ℚ) / toFloat64 (toFloat64 (c : ℚ) / 1000000)) :=
    le_trans (by positivity) hlo
  have hrq : (r : ℚ) ≤ 20000000000 := by exact_mod_cast hr2n
  have hx1 : toFloat64 (toFloat64 (r : ℚ) / toFloat64 (toFloat64 (c : ℚ) / 1000000)) <
      2 ^ 63 := by
    refine lt_of_le_of_lt hhi ?_
    calc (r : ℚ) * 2 ^ 20 ≤ 20000000000 * 2 ^ 20 := by nlinarith
      _ < 2 ^ 63 := by norm_num
  have hfl := floatToInt64_of_range indef hx0 hx1
  have hfl0 : (r : Int) ≤
      ⌊toFloat64 (toFloat64 (r : ℚ) / toFloat64 (toFloat64 (c : ℚ) / 1000000))⌋ := by
    rw [Int.le_floor]
    exact_mod_cast hlo
  have hfl1 : ⌊toFloat64 (toFloat64 (r : ℚ) / toFloat64 (toFloat64 (c : ℚ) / 1000000))⌋ ≤
      (r : Int) * 2 ^ 20 := by
    have : (⌊toFloat64 (toFloat64 (r : ℚ) / toFloat64 (toFloat64 (c : ℚ) / 1000000))⌋ : ℚ) ≤
        (((r : Int) * 2 ^ 20 : Int) : ℚ) := by
      push_cast
      exact le_trans (Int.floor_le _) hhi
    exact_mod_cast this
  simp only [requestTTL, requestRTT, hti, ttlScaling, ttlLimit, rttMinEstimate]
  have hcast : (((r : Int) : ℚ)) = (r : ℚ) := by push_cast; rfl
  rw [hcast, if_neg hcf, hfl]
  generalize ⌊toFloat64 (toFloat64 (r : ℚ) / toFloat64 (toFloat64 (c : ℚ) / 1000000))⌋ = x
    at hfl0 hfl1
  rw [wrapInt64_of_range (by omega) (by omega), wrapInt64_of_range (by omega) (by omega)]
  have hdiv : Int.tdiv ((r : Int) * 9) 10 ≤ (r : Int) := by
    rw [Int.tdiv_eq_ediv (by omega)] <;> omega
  split_ifs <;> omega

theorem requestTTL_bounds_witness :
    (rttMinEstimate ≤ (5000000000 : Nat) ∧ ((5000000000 : Nat) : Int) ≤ rttMaxEstimate) ∧
    ttlScaling * rttMinEstimate ≤ requestTTL 0 ⟨5000000000, 300000⟩ ∧
    requestTTL 0 ⟨5000000000, 300000⟩ ≤ ttlLimit ∧
    requestRTT ⟨5000000000, 300000⟩ ≤ requestTTL 0 ⟨5000000000, 300000⟩ :=
  ⟨⟨by decide, by decide⟩,
    requestTTL_bounds 0 ⟨5000000000, 300000⟩ (by decide) (by decide) (by decide) (by decide)⟩

theorem log_two_eq {q : ℚ} (e : ℤ) (h1 : (2 : ℚ) ^ e ≤ q) (h2 : q < (2 : ℚ) ^ (e + 1)) :
    Int.log 2 q = e := by
  have hq : 0 < q := lt_of_lt_of_le (two_zpow_pos e) h1
  have ha : e ≤ Int.log 2 q :=
    (Int.zpow_le_iff_le_log (b := 2) (by norm_num) hq).mp (by simpa using h1)
  have hb : Int.log 2 q < e + 1 :=
    (Int.lt_zpow_iff_log_lt (b := 2) (by norm_num) hq).mp (by simpa using h2)
  omega

theorem roundEven_eq_of_lt {q : ℚ} (f : ℤ) (h0 : (f : ℚ) ≤ q) (h1 : q < f + 1 / 2) :
    roundEven q = f := by
  have hf : ⌊q⌋ = f := Int.floor_eq_iff.mpr ⟨h0, by linarith⟩
  unfold roundEven
  rw [hf, if_pos (by linarith)]

theorem roundEven_eq_of_gt {q : ℚ} (f : ℤ) (h0 : (f : ℚ) + 1 / 2 < q) (h1 : q < f + 1) :
    roundEven q = f + 1 := by
  have hf : ⌊q⌋ = f := Int.floor_eq_iff.mpr ⟨by linarith, h1⟩
  unfold roundEven
  rw [hf, if_neg (by linarith), if_pos (by linarith)]

theorem rttMinConfidence_eq : rttMinConfidence = 3602879701896397 / 36028797018963968 := by
  unfold rttMinConfidence
  rw [toFloat64_pos_eq (by norm_num),
    log_two_eq (-4) (by norm_num) (by norm_num),
    roundEven_eq_of_gt 7205759403792793 (by norm_num) (by norm_num)]
  norm_num

theorem rttMinConfidence_millionths (indef : Nat) :
    floatToUint64 indef (toFloat64 (rttMinConfidence * 1000000)) = 100000 := by
  have h : toFloat64 (rttMinConfidence * 1000000) = 100000 := by
    rw [rttMinConfidence_eq, toFloat64_pos_eq (by norm_num),
      log_two_eq 16 (by norm_num) (by norm_num),
      roundEven_eq_of_lt 6871947673600000 (by norm_num) (by norm_num)]
    norm_num
  rw [h]
  unfold floatToUint64
  norm_num
  rfl

/-- The comparison `float64(conf)/1000000 < rttMinConfidence` of
`qosReduceConfidence` holds exactly for a confidence below 100,000. -/
theorem belowMinConfidence_iff (n : ℕ) :
    toFloat64 (toFloat64 (n : ℚ) / 1000000) < rttMinConfidence ↔ n < 100000 := by
  have hmin : toFloat64 (100000 : ℚ) = 100000 := by
    have := toFloat64_natCast 100000 (by norm_num)
    simpa using this
  constructor
  · intro h
    by_contra hge
    have hn : (100000 : ℚ) ≤ n := by exact_mod_cast (not_lt.mp hge)
    have h1 : (100000 : ℚ) ≤ toFloat64 (n : ℚ) := toFloat64_ge_of_ge (by norm_num) hn hmin
    have h2 : (1 / 10 : ℚ) ≤ toFloat64 (n : ℚ) / 1000000 := by
      rw [le_div_iff₀ (by norm_num)]
      linarith
    have h3 := toFloat64_mono (by norm_num) h2
    exact absurd h (not_lt.mpr h3)
  · intro h
    rw [rttMinConfidence_eq]
    rcases Nat.eq_zero_or_pos n with h0 | hpos
    · subst h0
      simp [toFloat64]
    rw [toFloat64_natCast n (by omega)]
    have hr : toFloat64 (3355442 / 2 ^ 25) = 3355442 / 2 ^ 25 := by
      have := toFloat64_exact 3355442 (-25) (by norm_num)
      norm_num at this ⊢
      exact this
    have hnq : (n : ℚ) ≤ 99999 := by exact_mod_cast (by omega : n ≤ 99999)
    have hpq : (0 : ℚ) < n := by exact_mod_cast hpos
    have h1 : toFloat64 ((n : ℚ) / 1000000) ≤ 3355442 / 2 ^ 25 := by
      apply toFloat64_le_of_le (by positivity) _ hr
      rw [div_le_div_iff₀ (by norm_num) (by norm_num)]
      norm_num
      linarith
    refine lt_of_le_of_lt h1 ?_
    norm_num

/-- The confidence `qosReduceConfidence` stores for 2 to 9 peers. -/
theorem qosReduceConfidence_mid (indef peers : Nat) (d : QoS)
    (hc : d.rttConfidence < 2 ^ 61) (h1 : 1 < peers) (h10 : peers < 10) :
    (qosReduceConfidence indef peers d).rttConfidence =
      max 100000 (d.rttConfidence * (peers - 1) / peers) := by
  have hcap : toUint64 qosConfidenceCap = 10 := by decide
  have hmul : d.rttConfidence * (peers - 1) < 2 ^ 64 := by
    have h8 : peers - 1 ≤ 8 := by omega
    calc d.rttConfidence * (peers - 1) ≤ d.rttConfidence * 8 := Nat.mul_le_mul_left _ h8
      _ < 2 ^ 64 := by omega
  unfold qosReduceConfidence
  rw [if_neg (by omega), if_neg (by omega), if_neg (by rw [hcap]; omega)]
  simp only [belowMinConfidence_iff, rttMinConfidence_millionths, Nat.mod_eq_of_lt hmul]
  generalize d.rttConfidence * (peers - 1) / peers = x
  split_ifs with hx
  · rw [max_eq_left (by omega)]
  · rw [max_eq_right (by omega)]

/-- C14: for a confidence `c` below 2^61 millionths (a confidence is at most
1,000,000) and `N` registered peers, `qosReduceConfidence` sets the confidence
to 1,000,000 when `N = 1`, to the larger of 100,000 and `c * (N - 1) / N`
rounded down when `1 < N < 10`, and leaves the state as it is when `N = 0` or
`N >= 10`; it never changes the round trip estimate. -/
theorem qosReduceConfidence_rule (indef peers : Nat) (d : QoS)
    (hc : d.rttConfidence < 2 ^ 61) :
    (qosReduceConfidence indef peers d).rttEstimate = d.rttEstimate ∧
    (peers = 1 → (qosReduceConfidence indef peers d).rttConfidence = 1000000) ∧
    (1 < peers → peers < 10 →
      (qosReduceConfidence indef peers d).rttConfidence =
        max 100000 (d.rttConfidence * (peers - 1) / peers)) ∧
    (peers = 0 ∨ 10 ≤ peers → qosReduceConfidence indef peers d = d) := by
  have hcap : toUint64 qosConfidenceCap = 10 := by decide
  refine ⟨?_, ?_, ?_, ?_⟩
  · unfold qosReduceConfidence
    split_ifs <;> rfl
  · intro h1
    subst h1
    simp [qosReduceConfidence]
  · intro h1 h10
    exact qosReduceConfidence_mid indef peers d hc h1 h10
  · intro h
    unfold qosReduceConfidence
    rcases h with h | h
    · rw [if_pos h]
    · rw [if_neg (by omega), if_neg (by omega), if_pos (by rw [hcap]; omega)]

theorem qosReduceConfidence_rule_witness :
    (500000 : Nat) < 2 ^ 61 ∧
    (qosReduceConfidence 0 3 ⟨20000000000, 500000⟩).rttEstimate = 20000000000 ∧
    (qosReduceConfidence 0 3 ⟨20000000000, 500000⟩).rttConfidence =
      max 100000 (500000 * (3 - 1) / 3) ∧
    (qosReduceConfidence 0 3 ⟨20000000000, 120000⟩).rttConfidence =
      max 100000 (120000 * (3 - 1) / 3) :=
  ⟨by decide,
    (qosReduceConfidence_rule 0 3 ⟨20000000000, 500000⟩ (by decide)).1,
    (qosReduceConfidence_rule 0 3 ⟨20000000000, 500000⟩ (by decide)).2.2.1
      (by decide) (by decide),
    (qosReduceConfidence_rule 0 3 ⟨20000000000, 120000⟩ (by decide)).2.2.1
      (by decide) (by decide)⟩

theorem qosTuningImpact_eq : qosTuningImpact = 1 / 4 := by
  unfold qosTuningImpact
  have := toFloat64_exact 1 (-2) (by norm_num)
  norm_num at this ⊢
  exact this

/-- One pass of the tuner for an estimate and a median below 2^51: every
float64 operation is exact, and the estimate stored is a quarter of
`3 * old + median`, rounded down. -/
theorem qosTuner_exact (indef : Int) (m : ℕ) (d : QoS)
    (ho : d.rttEstimate < 2 ^ 51) (hm : m < 2 ^ 51) :
    qosTuner indef (m : Int) d =
      { rttEstimate := (3 * d.rttEstimate + m) / 4,
        rttConfidence := u64add d.rttConfidence (u64sub 1000000 d.rttConfidence / 2) } := by
  obtain ⟨old, c⟩ := d
  simp only at ho
  have h34 : toFloat64 (1 - 1 / 4) = 3 / 4 := by
    have := toFloat64_exact 3 (-2) (by norm_num)
    norm_num at this ⊢
    exact this
  have hold : toFloat64 (old : ℚ) = old := toFloat64_natCast old (by omega)
  have hmed : toFloat64 (((m : Int) : ℚ)) = m := by
    have := toFloat64_natCast m (by omega)
    simpa using this
  have hp1 : toFloat64 (3 / 4 * (old : ℚ)) = 3 / 4 * (old : ℚ) := by
    have := toFloat64_exact (3 * old) (-2) (by omega)
    have e : ((3 * old : ℕ) : ℚ) * 2 ^ (-2 : ℤ) = 3 / 4 * (old : ℚ) := by
      push_cast
      norm_num
      ring
    rwa [e] at this
  have hp2 : toFloat64 (1 / 4 * (m : ℚ)) = 1 / 4 * (m : ℚ) := by
    have := toFloat64_exact m (-2) (by omega)
    have e : (m : ℚ) * 2 ^ (-2 : ℤ) = 1 / 4 * (m : ℚ) := by
      norm_num
      ring
    rwa [e] at this
  have hs : toFloat64 (3 / 4 * (old : ℚ) + 1 / 4 * (m : ℚ)) =
      ((3 * old + m : ℕ) : ℚ) / ((4 : ℕ) : ℚ) := by
    have := toFloat64_exact (3 * old + m) (-2) (by omega)
    have e : ((3 * old + m : ℕ) : ℚ) * 2 ^ (-2 : ℤ) = 3 / 4 * (old : ℚ) + 1 / 4 * (m : ℚ) := by
      push_cast
      norm_num
      ring
    rw [e] at this
    rw [this]
    push_cast
    ring
  have hfl : ⌊((3 * old + m : ℕ) : ℚ) / ((4 : ℕ) : ℚ)⌋ = (((3 * old + m) / 4 : ℕ) : Int) := by
    rw [Rat.floor_natCast_div_natCast]
    norm_cast
  have hnn : (0 : ℚ) ≤ ((3 * old + m : ℕ) : ℚ) / ((4 : ℕ) : ℚ) := by positivity
  have hlt : ((3 * old + m : ℕ) : ℚ) / ((4 : ℕ) : ℚ) < 2 ^ 63 := by
    rw [div_lt_iff₀ (by norm_num)]
    have : ((3 * old + m : ℕ) : ℚ) < ((2 ^ 53 : ℕ) : ℚ) := by
      exact_mod_cast (by omega : 3 * old + m < 2 ^ 53)
    calc ((3 * old + m : ℕ) : ℚ) < ((2 ^ 53 : ℕ) : ℚ) := this
      _ ≤ 2 ^ 63 * ((4 : ℕ) : ℚ) := by norm_num
  simp only [qosTuner, qosTuningImpact_eq, h34, hold, hmed, hp1, hp2, hs,
    floatToInt64_of_range indef hnn hlt, hfl]
  have htu : toUint64 (((3 * old + m) / 4 : ℕ) : Int) = (3 * old + m) / 4 := by
    unfold toUint64
    have : (3 * old + m) / 4 < 2 ^ 64 := by omega
    omega
  rw [htu]

/-- C16: for every current estimate `old` in [2 s, 20 s] and every median of
the peer round trip times, one pass of the tuner sets the estimate to
`0.75 * old + 0.25 * m` rounded down to whole nanoseconds, `(3 * old + m) / 4`,
where `m` is the median clamped to [2 s, 20 s] that `medianRTT` returns, so
the estimate stored lies in [2 s, 20 s] after the pass; the same holds for
every value `m` in [2 s, 20 s] handed to the tuner. -/
theorem qosTuner_rtt (indef : Int) (raw : Int) (d : QoS)
    (h1 : rttMinEstimate ≤ d.rttEstimate) (h2 : (d.rttEstimate : Int) ≤ rttMaxEstimate) :
    (rttMinEstimate ≤ medianRTT raw ∧ medianRTT raw ≤ rttMaxEstimate) ∧
    ((qosTuner indef (medianRTT raw) d).rttEstimate : Int) =
      (3 * d.rttEstimate + medianRTT raw) / 4 ∧
    rttMinEstimate ≤ (qosTuner indef (medianRTT raw) d).rttEstimate ∧
    ((qosTuner indef (medianRTT raw) d).rttEstimate : Int) ≤ rttMaxEstimate ∧
    (∀ median : Int, rttMinEstimate ≤ median → median ≤ rttMaxEstimate →
      ((qosTuner indef median d).rttEstimate : Int) = (3 * d.rttEstimate + median) / 4 ∧
      rttMinEstimate ≤ (qosTuner indef median d).rttEstimate ∧
      ((qosTuner indef median d).rttEstimate : Int) ≤ rttMaxEstimate) := by
  have key : ∀ median : Int, rttMinEstimate ≤ median → median ≤ rttMaxEstimate →
      ((qosTuner indef median d).rttEstimate : Int) = (3 * d.rttEstimate + median) / 4 ∧
      rttMinEstimate ≤ (qosTuner indef median d).rttEstimate ∧
      ((qosTuner indef median d).rttEstimate : Int) ≤ rttMaxEstimate := by
    intro median ha hb
    simp only [rttMinEstimate, rttMaxEstimate] at *
    obtain ⟨m, rfl⟩ := Int.eq_ofNat_of_zero_le (by omega : (0 : Int) ≤ median)
    have hmn : m < 2 ^ 51 := by omega
    rw [qosTuner_exact indef m d (by omega) hmn]
    simp only
    refine ⟨by omega, by omega, by omega⟩
  have hclamp : rttMinEstimate ≤ medianRTT raw ∧ medianRTT raw ≤ rttMaxEstimate := by
    unfold medianRTT
    simp only [rttMinEstimate, rttMaxEstimate]
    split_ifs <;> constructor <;> omega
  obtain ⟨k1, k2, k3⟩ := key (medianRTT raw) hclamp.1 hclamp.2
  exact ⟨hclamp, k1, k2, k3, key⟩

theorem qosTuner_rtt_witness :
    (rttMinEstimate ≤ (20000000000 : Nat) ∧ ((20000000000 : Nat) : Int) ≤ rttMaxEstimate) ∧
    medianRTT 100000000000 = 20000000000 ∧
    ((qosTuner 0 (medianRTT 100000000000) ⟨20000000000, 1000000⟩).rttEstimate : Int) =
      (3 * (20000000000 : Nat) + medianRTT 100000000000) / 4 ∧
    rttMinEstimate ≤ (qosTuner 0 (medianRTT 100000000000) ⟨20000000000, 1000000⟩).rttEstimate ∧
    ((qosTuner 0 (medianRTT 100000000000) ⟨20000000000, 1000000⟩).rttEstimate : Int) ≤
      rttMaxEstimate :=
  ⟨⟨by decide, by decide⟩, by decide,
    (qosTuner_rtt 0 100000000000 ⟨20000000000, 1000000⟩ (by decide) (by decide)).2.1,
    (qosTuner_rtt 0 100000000000 ⟨20000000000, 1000000⟩ (by decide) (by decide)).2.2.1,
    (qosTuner_rtt 0 100000000000 ⟨20000000000, 1000000⟩ (by decide) (by decide)).2.2.2.1⟩

/-- The confidence a pass of the tuner stores does not depend on the floats. -/
theorem qosTuner_confidence (indef : Int) (median : Int) (d : QoS) :
    (qosTuner indef median d).rttConfidence =
      u64add d.rttConfidence (u64sub 1000000 d.rttConfidence / 2) := rfl

theorem qosTuner_confidence_range (indef : Int) (median : Int) (d : QoS)
    (h1 : 100000 ≤ d.rttConfidence) (h2 : d.rttConfidence ≤ 1000000) :
    d.rttConfidence ≤ (qosTuner indef median d).rttConfidence ∧
    (qosTuner indef median d).rttConfidence ≤ 1000000 ∧
    (qosTuner indef median d).rttConfidence =
      d.rttConfidence + (1000000 - d.rttConfidence) / 2 := by
  rw [qosTuner_confidence]
  simp only [u64add, u64sub]
  omega

theorem qosReduceConfidence_range (indef peers : Nat) (d : QoS)
    (h1 : 100000 ≤ d.rttConfidence) (h2 : d.rttConfidence ≤ 1000000) :
    100000 ≤ (qosReduceConfidence indef peers d).rttConfidence ∧
    (qosReduceConfidence indef peers d).rttConfidence ≤ 1000000 := by
  have hcap : toUint64 qosConfidenceCap = 10 := by decide
  by_cases hp1 : peers = 1
  · subst hp1
    simp [qosReduceConfidence]
  by_cases hp : peers = 0 ∨ 10 ≤ peers
  · have hsame : qosReduceConfidence indef peers d = d := by
      unfold qosReduceConfidence
      rcases hp with h | h
      · rw [if_pos h]
      · rw [if_neg (by omega), if_neg (by omega), if_pos (by rw [hcap]; omega)]
    rw [hsame]
    exact ⟨h1, h2⟩
  · have ha : 1 < peers := by omega
    have hb : peers < 10 := by omega
    rw [qosReduceConfidence_mid indef peers d (by omega) ha hb]
    have hle : d.rttConfidence * (peers - 1) / peers ≤ d.rttConfidence := by
      apply Nat.div_le_of_le_mul
      rw [Nat.mul_comm]
      exact Nat.mul_le_mul_right _ (by omega)
    constructor
    · exact le_max_left _ _
    · exact max_le (by omega) (by omega)

theorem qosRun_range (indefInt : Int) (indefUint : Nat) :
    ∀ (steps : List QosStep) (d : QoS),
      100000 ≤ d.rttConfidence → d.rttConfidence ≤ 1000000 →
      100000 ≤ (qosRun indefInt indefUint d steps).rttConfidence ∧
      (qosRun indefInt indefUint d steps).rttConfidence ≤ 1000000 := by
  intro steps
  induction steps with
  | nil => intro d h1 h2; exact ⟨h1, h2⟩
  | cons s rest ih =>
    intro d h1 h2
    cases s with
    | tick median =>
      have h := qosTuner_confidence_range indefInt median d h1 h2
      exact ih _ (by omega) h.2.1
    | reduce peers =>
      have h := qosReduceConfidence_range indefUint peers d h1 h2
      exact ih _ h.1 h.2

/-- C15: the confidence `New` sets is 1,000,000, and after every sequence of
tuner passes and `qosReduceConfidence` calls from there the stored confidence
is at least 100,000 and at most 1,000,000; a further tuner pass stores
`conf + (1,000,000 - conf) / 2`, which is never below `conf`. -/
theorem qosRun_confidence (indefInt : Int) (indefUint : Nat) (steps : List QosStep)
    (median : Int) :
    New.rttConfidence = 1000000 ∧
    100000 ≤ (qosRun indefInt indefUint New steps).rttConfidence ∧
    (qosRun indefInt indefUint New steps).rttConfidence ≤ 1000000 ∧
    (qosRun indefInt indefUint New steps).rttConfidence ≤
      (qosTuner indefInt median (qosRun indefInt indefUint New steps)).rttConfidence ∧
    (qosTuner indefInt median (qosRun indefInt indefUint New steps)).rttConfidence =
      (qosRun indefInt indefUint New steps).rttConfidence +
        (1000000 - (qosRun indefInt indefUint New steps).rttConfidence) / 2 := by
  have h := qosRun_range indefInt indefUint steps New (by decide) (by decide)
  have ht := qosTuner_confidence_range indefInt median _ h.1 h.2
  exact ⟨rfl, h.1, h.2, ht.1, ht.2.2⟩

/-! ## UnmarshalText -/

/-- C21: `UnmarshalText` returns no error exactly when the text is "full",
"fast" or "light", and then stores the mode of that name; for every other
text, such as "Full" or " full", it returns an error and leaves the mode of
the receiver as it was. -/
theorem UnmarshalText_accepts (mode : SyncMode) (text : String) :
    ((UnmarshalText mode text).2 = none ↔
      text = "full" ∨ text = "fast" ∨ text = "light") ∧
    (text = "full" → UnmarshalText mode text = (FullSync, none)) ∧
    (text = "fast" → UnmarshalText mode text = (FastSync, none)) ∧
    (text = "light" → UnmarshalText mode text = (LightSync, none)) ∧
    (¬ (text = "full" ∨ text = "fast" ∨ text = "light") →
      (UnmarshalText mode text).1 = mode ∧ ∃ msg, (UnmarshalText mode text).2 = some msg) ∧
    (UnmarshalText mode "Full").2 ≠ none ∧ (UnmarshalText mode " full").2 ≠ none ∧
    (UnmarshalText mode "light ").2 ≠ none := by
  have hfast : ("fast" : String) ≠ "full" := by decide
  have hlight1 : ("light" : String) ≠ "full" := by decide
  have hlight2 : ("light" : String) ≠ "fast" := by decide
  refine ⟨?_, ?_, ?_, ?_, ?_, ?_, ?_, ?_⟩
  · unfold UnmarshalText
    by_cases h1 : text = "full"
    · simp [h1]
    by_cases h2 : text = "fast"
    · simp [h2, hfast]
    by_cases h3 : text = "light"
    · simp [h3, hlight1, hlight2]
    simp [h1, h2, h3]
  · intro h
    subst h
    rfl
  · intro h
    subst h
    rfl
  · intro h
    subst h
    rfl
  · intro h
    have h1 : ¬ text = "full" := fun e => h (Or.inl e)
    have h2 : ¬ text = "fast" := fun e => h (Or.inr (Or.inl e))
    have h3 : ¬ text = "light" := fun e => h (Or.inr (Or.inr e))
    unfold UnmarshalText
    rw [if_neg h1, if_neg h2, if_neg h3]
    exact ⟨rfl, _, rfl⟩
  · unfold UnmarshalText
    rw [if_neg (by decide), if_neg (by decide), if_neg (by decide)]
    simp
  · unfold UnmarshalText
    rw [if_neg (by decide), if_neg (by decide), if_neg (by decide)]
    simp
  · unfold UnmarshalText
    rw [if_neg (by decide), if_neg (by decide), if_neg (by decide)]
    simp

theorem UnmarshalText_accepts_witness :
    UnmarshalText FullSync "light" = (LightSync, none) ∧
    ((UnmarshalText FastSync "FAST").1 = FastSync ∧
      ∃ msg, (UnmarshalText FastSync "FAST").2 = some msg) :=
  ⟨(UnmarshalText_accepts FullSync "light").2.2.2.1 rfl,
    (UnmarshalText_accepts FastSync "FAST").2.2.2.2.1 (by decide)⟩

/-! ## processFastSyncContent: pivot re-selection -/

/-- The commits of one iteration leave `d.pivotHeader` as it is. -/
theorem fastSyncCommit_pivotHeader (r : FastRound) (st : FastState)
    (results : List FetchResult) :
    (fastSyncCommit r st results).1.pivotHeader = st.pivotHeader := by
  have hcd : ∀ (s : FastState) (l : List FetchResult),
      (commitFastSyncData r s l).1.pivotHeader = s.pivotHeader := by
    intro s l
    unfold commitFastSyncData
    repeat' split
    all_goals rfl
  have hcp : ∀ (s : FastState) (P : FetchResult),
      (commitPivotBlock r s P).1.pivotHeader = s.pivotHeader := by
    intro s P
    unfold commitPivotBlock
    repeat' split
    all_goals rfl
  have hib : ∀ (s : FastState) (l : List FetchResult),
      (importBlockResults r s l).1.pivotHeader = s.pivotHeader := by
    intro s l
    unfold importBlockResults
    repeat' split
    all_goals rfl
  unfold fastSyncCommit
  dsimp only
  cases h1 : commitFastSyncData r st (splitAroundPivot st.pivotHeader.NumberU64 results).2.1 with
  | mk s1 o1 =>
    have e1 : s1.pivotHeader = st.pivotHeader := by
      have := hcd st (splitAroundPivot st.pivotHeader.NumberU64 results).2.1
      rw [h1] at this
      exact this
    cases o1 with
    | some out => exact e1
    | none =>
      dsimp only
      cases hP : (splitAroundPivot st.pivotHeader.NumberU64 results).1 with
      | none =>
        dsimp only
        rw [hib]
        exact e1
      | some P =>
        dsimp only
        have e2 : (if s1.oldPivot ≠ some P then
            { s1 with syncRoot := P.header.root, oldPivot := some P,
                      calls := s1.calls ++ [ChainCall.syncState P.header.root] }
            else s1).pivotHeader = st.pivotHeader := by
          split_ifs
          · exact e1
          · exact e1
        generalize (if s1.oldPivot ≠ some P then
            { s1 with syncRoot := P.header.root, oldPivot := some P,
                      calls := s1.calls ++ [ChainCall.syncState P.header.root] }
            else s1) = s2 at e2
        cases hsd : r.syncDone with
        | none => exact e2
        | some d =>
          cases d with
          | some err => exact e2
          | none =>
            dsimp only
            cases h3 : commitPivotBlock r s2 P with
            | mk s3 o3 =>
              have e3 : s3.pivotHeader = st.pivotHeader := by
                have := hcp s2 P
                rw [h3] at this
                rw [this]
                exact e2
              cases o3 with
              | some out => exact e3
              | none =>
                dsimp only
                rw [hib]
                exact e3

/-- The pivot header after an iteration of `processFastSyncContent` that gets
past the checks of an empty batch is the one the re-selection yields. -/
theorem fastSyncRound_pivotHeader (st : FastState) (r : FastRound) (p : Header)
    (hmove : r.pivotMove = none)
    (h1 : ¬ (r.results.length = 0 ∧ st.oldPivot = none))
    (h2 : ¬ (r.results.length = 0 ∧ r.cancelled = true))
    (hsel : reselectPivot st.committed st.pivotHeader (pendingResults st ++ r.results) = some p) :
    (fastSyncRound st r).1.pivotHeader = p := by
  unfold fastSyncRound
  rw [if_neg h1, if_neg h2, hmove]
  dsimp only
  have hres : ∀ s : FastState, s.oldPivot = st.oldPivot → s.oldTail = st.oldTail →
      (match s.oldPivot with
        | none => r.results
        | some old => old :: s.oldTail ++ r.results) = pendingResults st ++ r.results := by
    intro s ho ht
    rw [ho, ht]
    unfold pendingResults
    cases st.oldPivot <;> rfl
  by_cases hc : st.oldPivot = none ∧ st.pivotHeader.root ≠ st.syncRoot
  · rw [if_pos hc]
    dsimp only
    rw [hres _ rfl rfl, hsel]
    dsimp only
    rw [fastSyncCommit_pivotHeader]
  · rw [if_neg hc]
    rw [hres _ rfl rfl, hsel]
    dsimp only
    rw [fastSyncCommit_pivotHeader]

set_option maxRecDepth 8192 in
/-- C22 (counterexample): with the pivot at height 100 and a batch of the
heights 100 to 226, the last height exceeds the pivot by exactly 126 and the
pivot is re-selected, to the header of height 164. -/
theorem reselectPivot_threshold_counterexample :
    (resultRun 100 127).getLast? = some (mkResult 226) ∧
    (mkResult 226).header.NumberU64 - (mkHeader 100 1).NumberU64 = 126 ∧
    reselectPivot false (mkHeader 100 1) (resultRun 100 127) = some (mkResult 164).header ∧
    (mkResult 164).header ≠ mkHeader 100 1 := by
  decide

/-- C22: while the pivot is uncommitted, `processFastSyncContent` re-selects
the pivot exactly when the height of the last result of the batch is at least
the pivot height plus `2*64 - 2 = 126`: the new pivot is then the header of
`results[len(results) - 63]`, and the index is out of range for a batch of
fewer than 63 results; when the difference is below 126 the pivot header is
left as it is, as it is once the pivot is committed.  The header so selected
is `d.pivotHeader` after the iteration. -/
theorem reselectPivot_threshold (pivot : Header) (results : List FetchResult)
    (latest : FetchResult) (hlast : results.getLast? = some latest)
    (hpv : pivot.NumberU64 + 126 < 2 ^ 64) :
    (pivot.NumberU64 + 126 ≤ latest.header.NumberU64 →
      reselectPivot false pivot results =
        if results.length < 63 then none
        else (results[results.length - 63]?).map FetchResult.header) ∧
    (latest.header.NumberU64 < pivot.NumberU64 + 126 →
      reselectPivot false pivot results = some pivot) ∧
    reselectPivot true pivot results = some pivot ∧
    (∀ (st : FastState) (r : FastRound) (p : Header),
      st.committed = false → st.pivotHeader = pivot → pendingResults st ++ r.results = results →
      r.pivotMove = none → (r.results.length = 0 → r.cancelled = false) →
      reselectPivot false pivot results = some p →
      (fastSyncRound st r).1.pivotHeader = p) := by
  have hthr : u64sub (u64add pivot.NumberU64 (2 * fsMinFullBlocks)) reorgProtHeaderDelay =
      pivot.NumberU64 + 126 := by
    simp only [u64sub, u64add, fsMinFullBlocks, reorgProtHeaderDelay]
    omega
  refine ⟨?_, ?_, ?_, ?_⟩
  · intro h
    unfold reselectPivot
    simp only [Bool.false_eq_true, if_false, hlast, hthr]
    rw [if_pos h]
    simp only [fsMinFullBlocks, reorgProtHeaderDelay]
    by_cases hl : results.length < 63
    · rw [if_pos hl, if_pos (by omega)]
    · rw [if_neg hl, if_neg (by omega)]
      have : ((results.length : Int) - 1 - ((64 : Nat) : Int) + ((2 : Nat) : Int)).toNat =
          results.length - 63 := by omega
      rw [this]
  · intro h
    unfold reselectPivot
    simp only [Bool.false_eq_true, if_false, hlast, hthr]
    rw [if_neg (by omega)]
  · simp [reselectPivot]
  · intro st r p hc hp hres hmove hcanc hsel
    have hne : results ≠ [] := by
      intro h
      rw [h] at hlast
      simp at hlast
    have hnil : r.results.length = 0 → st.oldPivot ≠ none := by
      intro h0 hn
      apply hne
      rw [← hres, List.length_eq_zero.mp h0]
      simp [pendingResults, hn]
    have hcan : ¬ (r.results.length = 0 ∧ r.cancelled = true) := by
      intro h
      have := hcanc h.1
      rw [h.2] at this
      cases this
    exact fastSyncRound_pivotHeader st r p hmove (fun h => hnil h.1 h.2) hcan
      (by rw [hc, hp, hres]; exact hsel)

theorem reselectPivot_threshold_witness :
    (resultRun 170 60).getLast? = some (mkResult 229) ∧
    (reselectPivot false (mkHeader 100 1) (resultRun 170 60) =
      if (resultRun 170 60).length < 63 then none
      else ((resultRun 170 60)[(resultRun 170 60).length - 63]?).map FetchResult.header) ∧
    (resultRun 200 26).getLast? = some (mkResult 225) ∧
    reselectPivot false (mkHeader 100 1) (resultRun 200 26) = some (mkHeader 100 1) :=
  ⟨by decide,
    (reselectPivot_threshold (mkHeader 100 1) (resultRun 170 60) (mkResult 229) (by decide)
      (by decide)).1 (by decide),
    by decide,
    (reselectPivot_threshold (mkHeader 100 1) (resultRun 200 26) (mkResult 225) (by decide)
      (by decide)).2.1 (by decide)⟩

/-- C29: when the batch seen by `processFastSyncContent` rises by one from a
height at or below the pivot height (heights below 2^64) and the re-selection
triggers, the batch holds at least 127 results, so the index
`len(results) - 1 - 64 + 2 = len(results) - 63` is in range, and the header
selected has the height of the last result less 62, which is at least the old
pivot height plus 64. -/
theorem reselectPivot_forward (pivot : Header) (results : List FetchResult)
    (latest : FetchResult) (a : Nat)
    (hlast : results.getLast? = some latest)
    (hc : contiguousFrom a (results.map FetchResult.header) = true)
    (ha : a ≤ pivot.NumberU64) (hfit : a + results.length ≤ 2 ^ 64)
    (hpv : pivot.NumberU64 + 126 < 2 ^ 64)
    (htrig : latest.header.NumberU64 ≥
      u64sub (u64add pivot.NumberU64 (2 * fsMinFullBlocks)) reorgProtHeaderDelay) :
    127 ≤ results.length ∧
    (0 : Int) ≤ (results.length : Int) - 1 - (fsMinFullBlocks : Int) +
      (reorgProtHeaderDelay : Int) ∧
    (results.length : Int) - 1 - (fsMinFullBlocks : Int) + (reorgProtHeaderDelay : Int) <
      results.length ∧
    ∃ r, results[results.length - 63]? = some r ∧
      reselectPivot false pivot results = some r.header ∧
      r.header.NumberU64 + 62 = latest.header.NumberU64 ∧
      pivot.NumberU64 + 64 ≤ r.header.NumberU64 := by
  have hne : results ≠ [] := by
    intro h
    rw [h] at hlast
    simp at hlast
  have hlen : 0 < results.length := List.length_pos.mpr hne
  have hlastget : results[results.length - 1]? = some latest := by
    rw [← List.getLast?_eq_getElem?]
    exact hlast
  have hlastnum := contiguousResults_u64 results a _ _ hc hfit hlastget
  have hthr : u64sub (u64add pivot.NumberU64 (2 * fsMinFullBlocks)) reorgProtHeaderDelay =
      pivot.NumberU64 + 126 := by
    unfold u64sub u64add fsMinFullBlocks reorgProtHeaderDelay
    omega
  rw [hthr] at htrig
  have hl127 : 127 ≤ results.length := by omega
  obtain ⟨r, hget⟩ : ∃ r, results[results.length - 63]? = some r := by
    cases hg : results[results.length - 63]? with
    | some r => exact ⟨r, rfl⟩
    | none =>
      rw [List.getElem?_eq_none_iff] at hg
      omega
  have hnum := contiguousResults_u64 results a _ _ hc hfit hget
  refine ⟨hl127, ?_, ?_, r, hget, ?_, by omega, by omega⟩
  · unfold fsMinFullBlocks reorgProtHeaderDelay
    omega
  · unfold fsMinFullBlocks reorgProtHeaderDelay
    omega
  · unfold reselectPivot
    simp only [Bool.false_eq_true, if_false, hlast, hthr]
    rw [if_pos htrig]
    have hidx : ((results.length : Int) - 1 - (fsMinFullBlocks : Int) +
        (reorgProtHeaderDelay : Int)).toNat = results.length - 63 := by
      unfold fsMinFullBlocks reorgProtHeaderDelay
      omega
    simp only [hidx, hget, Option.map_some']
    rw [if_neg]
    unfold fsMinFullBlocks reorgProtHeaderDelay
    omega

set_option maxRecDepth 65536 in
theorem reselectPivot_forward_witness :
    127 ≤ (resultRun 90 140).length ∧
    ∃ r, (resultRun 90 140)[(resultRun 90 140).length - 63]? = some r ∧
      reselectPivot false (mkHeader 100 1) (resultRun 90 140) = some r.header ∧
      r.header.NumberU64 + 62 = (mkResult 229).header.NumberU64 ∧
      (mkHeader 100 1).NumberU64 + 64 ≤ r.header.NumberU64 :=
  have h := reselectPivot_forward (mkHeader 100 1) (resultRun 90 140) (mkResult 229) 90
    (by decide) (by decide) (by decide) (by decide) (by decide) (by decide)
  ⟨h.1, h.2.2.2⟩

/-! ## splitAroundPivot -/

/-- The loop of `splitAroundPivot` over results of rising heights keeps the
order: what it has put aside, followed by the results still to visit, is what
it returns, once every result still to visit lies above the pivot as soon as
a pivot or a later result has been put aside. -/
theorem splitLoop_sorted (pv : Nat) (l : List FetchResult) :
    l.Pairwise (fun x y => x.header.NumberU64 < y.header.NumberU64) →
    ∀ (p : Option FetchResult) (b a : List FetchResult),
      ((p ≠ none ∨ a ≠ []) → ∀ x ∈ l, pv < x.header.NumberU64) →
      (splitLoop pv l (p, b, a)).2.1 ++ (splitLoop pv l (p, b, a)).1.toList ++
        (splitLoop pv l (p, b, a)).2.2 = b ++ p.toList ++ a ++ l := by
  induction l with
  | nil => intro _ p b a _; simp [splitLoop]
  | cons x rest ih =>
    intro hs p b a hacc
    rw [List.pairwise_cons] at hs
    obtain ⟨hx, hrest⟩ := hs
    have hemp : ¬ pv < x.header.NumberU64 → p = none ∧ a = [] := by
      intro hn
      constructor
      · by_contra hp
        exact hn (hacc (Or.inl hp) x (List.mem_cons_self _ _))
      · by_contra ha
        exact hn (hacc (Or.inr ha) x (List.mem_cons_self _ _))
    unfold splitLoop
    by_cases h1 : x.header.NumberU64 < pv
    · rw [if_pos h1]
      obtain ⟨hp, ha⟩ := hemp (by omega)
      subst hp
      subst ha
      rw [ih hrest none (b ++ [x]) [] (by simp)]
      simp
    · rw [if_neg h1]
      by_cases h2 : x.header.NumberU64 = pv
      · rw [if_pos h2]
        obtain ⟨hp, ha⟩ := hemp (by omega)
        subst hp
        subst ha
        rw [ih hrest (some x) b [] (fun _ y hy => by have := hx y hy; omega)]
        simp
      · rw [if_neg h2]
        rw [ih hrest p b (a ++ [x]) (fun _ y hy => by have := hx y hy; omega)]
        simp

/-- In a list of rising heights no result lies above the last one. -/
theorem pairwise_le_last (l : List FetchResult) (last : FetchResult)
    (hs : l.Pairwise (fun x y => x.header.NumberU64 < y.header.NumberU64))
    (hl : l.getLast? = some last) :
    ∀ x ∈ l, x.header.NumberU64 ≤ last.header.NumberU64 := by
  induction l with
  | nil => intro x hx; simp at hx
  | cons y rest ih =>
    intro x hx
    rw [List.pairwise_cons] at hs
    cases rest with
    | nil =>
      simp only [List.getLast?_singleton, Option.some.injEq] at hl
      simp only [List.mem_singleton] at hx
      rw [hx, hl]
    | cons z tl =>
      have hl2 : (z :: tl).getLast? = some last := by
        rw [List.getLast?_cons_cons] at hl
        exact hl
      have hlast_mem : last ∈ z :: tl := List.mem_of_getLast?_eq_some hl2
      rcases List.mem_cons.mp hx with h | h
      · rw [h]
        exact Nat.le_of_lt (hs.1 last hlast_mem)
      · exact ih hs.2 hl2 x h

/-- C28: for every pivot height and every list of results of strictly rising
heights, `splitAroundPivot` returns `(p, before, after)` such that `before`,
then `p` when it is not nil, then `after` is the list in its order; every
result of `before` is below the pivot height and every result of `after`
above it; and `p` is the result at the pivot height when there is one, and
nil when there is none. -/
theorem splitAroundPivot_sorted (pv : Nat) (results : List FetchResult)
    (hs : results.Pairwise (fun x y => x.header.NumberU64 < y.header.NumberU64)) :
    (splitAroundPivot pv results).2.1 ++ (splitAroundPivot pv results).1.toList ++
      (splitAroundPivot pv results).2.2 = results ∧
    (∀ x ∈ (splitAroundPivot pv results).2.1, x.header.NumberU64 < pv) ∧
    (∀ x ∈ (splitAroundPivot pv results).2.2, pv < x.header.NumberU64) ∧
    (∀ P, (splitAroundPivot pv results).1 = some P → P ∈ results ∧ P.header.NumberU64 = pv) ∧
    (∀ x ∈ results, x.header.NumberU64 = pv → (splitAroundPivot pv results).1 = some x) ∧
    ((splitAroundPivot pv results).1 = none ↔ ∀ x ∈ results, x.header.NumberU64 ≠ pv) := by
  have hcat : (splitAroundPivot pv results).2.1 ++ (splitAroundPivot pv results).1.toList ++
      (splitAroundPivot pv results).2.2 = results := by
    unfold splitAroundPivot
    cases hl : results.getLast? with
    | none =>
      have : results = [] := List.getLast?_eq_none_iff.mp hl
      simp [this]
    | some last =>
      dsimp only
      split_ifs with h1
      · simp
      · rw [splitLoop_sorted pv results hs none [] [] (by simp)]
        simp
  have hbefore : ∀ x ∈ (splitAroundPivot pv results).2.1, x.header.NumberU64 < pv := by
    intro x hx
    unfold splitAroundPivot at hx
    cases hl : results.getLast? with
    | none => simp [hl] at hx
    | some last =>
      simp only [hl] at hx
      split_ifs at hx with h1
      · have := pairwise_le_last results last hs hl x hx
        omega
      · rw [splitLoop_before] at hx
        simp only [List.nil_append, List.mem_filter, decide_eq_true_eq] at hx
        exact hx.2
  have hafter := splitAroundPivot_after_gt pv results
  have hfind : ∀ x ∈ results, x.header.NumberU64 = pv →
      (splitAroundPivot pv results).1 = some x := by
    intro x hx hnum
    rw [← hcat] at hx
    simp only [List.mem_append] at hx
    rcases hx with (hx | hx) | hx
    · have := hbefore x hx
      omega
    · cases hp : (splitAroundPivot pv results).1 with
      | none => rw [hp] at hx; simp at hx
      | some P =>
        rw [hp] at hx
        simp only [Option.toList_some, List.mem_singleton] at hx
        rw [hx]
    · have := hafter x hx
      omega
  refine ⟨hcat, hbefore, hafter, fun P hP => splitAroundPivot_pivot pv results P hP, hfind, ?_⟩
  constructor
  · intro hnone x hx hnum
    rw [hfind x hx hnum] at hnone
    cases hnone
  · intro hno
    cases hp : (splitAroundPivot pv results).1 with
    | none => rfl
    | some P =>
      obtain ⟨hmem, hnum⟩ := splitAroundPivot_pivot pv results P hp
      exact absurd hnum (hno P hmem)

theorem splitAroundPivot_sorted_witness :
    splitAroundPivot 7 [mkResult 5, mkResult 7, mkResult 8, mkResult 12] =
      (some (mkResult 7), [mkResult 5], [mkResult 8, mkResult 12]) ∧
    (splitAroundPivot 7 [mkResult 5, mkResult 7, mkResult 8, mkResult 12]).2.1 ++
        (splitAroundPivot 7 [mkResult 5, mkResult 7, mkResult 8, mkResult 12]).1.toList ++
        (splitAroundPivot 7 [mkResult 5, mkResult 7, mkResult 8, mkResult 12]).2.2 =
      [mkResult 5, mkResult 7, mkResult 8, mkResult 12] :=
  ⟨by decide,
    (splitAroundPivot_sorted 7 [mkResult 5, mkResult 7, mkResult 8, mkResult 12]
      (by decide)).1⟩

/-! ## calculateRequestSpan: coverage and bounds -/

/-- The parts of `calculateRequestSpan` for heights below 2^63: the request
head `H`, the request bottom `B`, the stride `span` and the count. -/
theorem calculateRequestSpan_parts (remoteHeight localHeight : Nat)
    (hr : remoteHeight < 2 ^ 63) (hl : localHeight < 2 ^ 63) :
    ∃ H B span count : Int,
      H = max 0 ((remoteHeight : Int) - 1) ∧ B = max 0 ((localHeight : Int) - 1) ∧
      2 ≤ span ∧ span ≤ 16 ∧ 2 ≤ count ∧ count ≤ 12 ∧
      (2 ≤ H - B → (count - 1) * span ≤ H - B) ∧
      calculateRequestSpan remoteHeight localHeight =
        (max 0 (H - (count - 1) * span), count, span - 1,
          (max 0 (H - (count - 1) * span) + (count - 1) * span).toNat) := by
  have hrh : wrapInt64 (toInt64 remoteHeight - 1) = (remoteHeight : Int) - 1 := by
    have : toInt64 remoteHeight = (remoteHeight : Int) := by
      unfold toInt64
      rw [Nat.mod_eq_of_lt (by omega), if_pos hr]
    rw [this, wrapInt64_of_range (by omega) (by omega)]
  have hrb : toInt64 (u64sub localHeight 1) = (localHeight : Int) - 1 := by
    unfold toInt64 u64sub
    split_ifs <;> omega
  refine ⟨max 0 ((remoteHeight : Int) - 1), max 0 ((localHeight : Int) - 1), ?_⟩
  generalize hH : max 0 ((remoteHeight : Int) - 1) = H
  generalize hB : max 0 ((localHeight : Int) - 1) = B
  have hH0 : 0 ≤ H := by rw [← hH]; exact le_max_left _ _
  have hH1 : H < 2 ^ 63 := by rw [← hH]; omega
  have hB0 : 0 ≤ B := by rw [← hB]; exact le_max_left _ _
  have e1 : (if (remoteHeight : Int) - 1 < 0 then 0 else (remoteHeight : Int) - 1) = H := by
    rw [← hH]
    split_ifs <;> omega
  have e2 : (if (localHeight : Int) - 1 < 0 then 0 else (localHeight : Int) - 1) = B := by
    rw [← hB]
    split_ifs <;> omega
  -- the stride
  generalize hspan : (if (if 1 + Int.tdiv (H - B) 12 < 2 then 2 else 1 + Int.tdiv (H - B) 12) > 16
      then 16 else (if 1 + Int.tdiv (H - B) 12 < 2 then 2 else 1 + Int.tdiv (H - B) 12)) = span
  have hs2 : 2 ≤ span := by rw [← hspan]; split_ifs <;> omega
  have hs16 : span ≤ 16 := by rw [← hspan]; split_ifs <;> omega
  have hsT : 2 ≤ H - B → span ≤ H - B := by
    intro hT
    have hd : Int.tdiv (H - B) 12 = (H - B) / 12 := Int.tdiv_eq_ediv (by omega) (by omega)
    rw [← hspan, hd]
    split_ifs <;> omega
  -- the count
  generalize hcount : (if (if 1 + Int.tdiv (H - B) span > 12 then 12 else 1 + Int.tdiv (H - B) span) < 2
      then 2 else (if 1 + Int.tdiv (H - B) span > 12 then 12 else 1 + Int.tdiv (H - B) span)) = count
  have hc2 : 2 ≤ count := by rw [← hcount]; split_ifs <;> omega
  have hc12 : count ≤ 12 := by rw [← hcount]; split_ifs <;> omega
  have hcT : 2 ≤ H - B → (count - 1) * span ≤ H - B := by
    intro hT
    have hsp := hsT hT
    have hd : Int.tdiv (H - B) span = (H - B) / span := Int.tdiv_eq_ediv (by omega) (by omega)
    have hq1 : 1 ≤ (H - B) / span := Int.le_ediv_of_mul_le (by omega) (by omega)
    have hq : (H - B) / span * span ≤ H - B := Int.ediv_mul_le _ (by omega)
    have hle : count - 1 ≤ (H - B) / span := by
      rw [← hcount, hd]
      split_ifs <;> omega
    calc (count - 1) * span ≤ (H - B) / span * span :=
          Int.mul_le_mul_of_nonneg_right hle (by omega)
      _ ≤ H - B := hq
  refine ⟨span, count, rfl, rfl, hs2, hs16, hc2, hc12, hcT, ?_⟩
  have hmc : ((MaxHeaderFetch / 16 : Nat) : Int) = 12 := by decide
  simp only [calculateRequestSpan, hrh, hrb, e1, e2, hmc, hspan, hcount]
  have ht0 : 0 ≤ (count - 1) * span := Int.mul_nonneg (by omega) (by omega)
  have ht1 : (count - 1) * span ≤ 176 := by
    calc (count - 1) * span ≤ 11 * span := Int.mul_le_mul_of_nonneg_right (by omega) (by omega)
      _ ≤ 176 := by omega
  generalize (count - 1) * span = t at ht0 ht1
  have hfrom : (if H - t < 0 then 0 else H - t) = max 0 (H - t) := by
    split_ifs <;> omega
  rw [hfrom]
  have hu : toUint64 (max 0 (H - t) + t) = (max 0 (H - t) + t).toNat := by
    unfold toUint64
    rw [Int.emod_eq_of_lt (by omega) (by omega)]
  rw [hu]

/-- C25: for heights below 2^63 with `(remoteHeight - 1) - max(0, localHeight - 1) >= 2`,
`calculateRequestSpan` returns `(from, count, skip, max)` with
`max = remoteHeight - 1`, the last requested height `from + (count-1)*(skip+1)`
equal to it, and every requested height `from + i*(skip+1)`, `0 <= i < count`,
between `max(0, localHeight - 1)` and `remoteHeight - 1`. -/
theorem calculateRequestSpan_covers (remoteHeight localHeight : Nat)
    (hr : remoteHeight < 2 ^ 63) (hl : localHeight < 2 ^ 63)
    (hT : ((remoteHeight : Int) - 1) - max 0 ((localHeight : Int) - 1) ≥ 2) :
    ((calculateRequestSpan remoteHeight localHeight).2.2.2 : Int) = (remoteHeight : Int) - 1 ∧
    (calculateRequestSpan remoteHeight localHeight).1 +
      ((calculateRequestSpan remoteHeight localHeight).2.1 - 1) *
        ((calculateRequestSpan remoteHeight localHeight).2.2.1 + 1) = (remoteHeight : Int) - 1 ∧
    ∀ i : Int, 0 ≤ i → i < (calculateRequestSpan remoteHeight localHeight).2.1 →
      max 0 ((localHeight : Int) - 1) ≤
        (calculateRequestSpan remoteHeight localHeight).1 +
          i * ((calculateRequestSpan remoteHeight localHeight).2.2.1 + 1) ∧
      (calculateRequestSpan remoteHeight localHeight).1 +
          i * ((calculateRequestSpan remoteHeight localHeight).2.2.1 + 1) ≤
        (remoteHeight : Int) - 1 := by
  obtain ⟨H, B, span, count, hH, hB, hs2, hs16, hc2, hc12, hcov, heq⟩ :=
    calculateRequestSpan_parts remoteHeight localHeight hr hl
  rw [heq]
  dsimp only
  have hB0 : 0 ≤ B := by rw [hB]; exact le_max_left _ _
  have hHr : H = (remoteHeight : Int) - 1 := by
    rw [hH]
    have : (0 : Int) ≤ max 0 ((localHeight : Int) - 1) := le_max_left _ _
    exact max_eq_right (by omega)
  have hTB : 2 ≤ H - B := by rw [hHr, hB]; omega
  have ht := hcov hTB
  have ht0 : 0 ≤ (count - 1) * span := Int.mul_nonneg (by omega) (by omega)
  have hfrom : max 0 (H - (count - 1) * span) = H - (count - 1) * span :=
    max_eq_right (by omega)
  rw [hfrom, ← hB, ← hHr]
  have hsp : span - 1 + 1 = span := by omega
  rw [hsp]
  refine ⟨?_, by omega, ?_⟩
  · have : H - (count - 1) * span + (count - 1) * span = H := by omega
    rw [this]
    omega
  · intro i hi0 hic
    have h1 : i * span ≤ (count - 1) * span :=
      Int.mul_le_mul_of_nonneg_right (by omega) (by omega)
    have h2 : 0 ≤ i * span := Int.mul_nonneg hi0 (by omega)
    constructor
    · omega
    · omega

theorem calculateRequestSpan_covers_witness :
    calculateRequestSpan 201 10 = (24, 12, 15, 200) ∧
    ((200 : Nat) : Int) = ((201 : Nat) : Int) - 1 ∧
    (24 : Int) + (12 - 1) * (15 + 1) = ((201 : Nat) : Int) - 1 :=
  have h := calculateRequestSpan_covers 201 10 (by decide) (by decide) (by decide)
  ⟨by decide, h.1, h.2.1⟩

/-- C26: for all remote and local heights below 2^63, `calculateRequestSpan`
returns a count from 2 to 12 (`MaxHeaderFetch/16`), a skip from 1 to 15, a
start `from >= 0`, and `max = from + (count-1)*(skip+1)`. -/
theorem calculateRequestSpan_bounds (remoteHeight localHeight : Nat)
    (hr : remoteHeight < 2 ^ 63) (hl : localHeight < 2 ^ 63) :
    2 ≤ (calculateRequestSpan remoteHeight localHeight).2.1 ∧
    (calculateRequestSpan remoteHeight localHeight).2.1 ≤ 12 ∧
    ((MaxHeaderFetch / 16 : Nat) : Int) = 12 ∧
    1 ≤ (calculateRequestSpan remoteHeight localHeight).2.2.1 ∧
    (calculateRequestSpan remoteHeight localHeight).2.2.1 ≤ 15 ∧
    0 ≤ (calculateRequestSpan remoteHeight localHeight).1 ∧
    ((calculateRequestSpan remoteHeight localHeight).2.2.2 : Int) =
      (calculateRequestSpan remoteHeight localHeight).1 +
        ((calculateRequestSpan remoteHeight localHeight).2.1 - 1) *
          ((calculateRequestSpan remoteHeight localHeight).2.2.1 + 1) := by
  obtain ⟨H, B, span, count, hH, hB, hs2, hs16, hc2, hc12, hcov, heq⟩ :=
    calculateRequestSpan_parts remoteHeight localHeight hr hl
  rw [heq]
  dsimp only
  have ht0 : 0 ≤ (count - 1) * span := Int.mul_nonneg (by omega) (by omega)
  have hsp : span - 1 + 1 = span := by omega
  rw [hsp]
  refine ⟨hc2, hc12, by decide, by omega, by omega, le_max_left _ _, ?_⟩
  have h0 : (0 : Int) ≤ max 0 (H - (count - 1) * span) := le_max_left _ _
  rw [Int.toNat_of_nonneg (by omega)]

theorem calculateRequestSpan_bounds_witness :
    calculateRequestSpan 0 500 = (0, 2, 1, 2) ∧
    (2 : Int) ≤ 2 ∧ (2 : Int) ≤ 12 ∧ (1 : Int) ≤ 1 ∧ (1 : Int) ≤ 15 ∧ (0 : Int) ≤ 0 ∧
    ((2 : Nat) : Int) = 0 + (2 - 1) * (1 + 1) :=
  have h := calculateRequestSpan_bounds 0 500 (by decide) (by decide)
  ⟨by decide, h.1, h.2.1, h.2.2.2.1, h.2.2.2.2.1, h.2.2.2.2.2.1, h.2.2.2.2.2.2⟩

/-! ## findAncestor: the span probe -/

/-- The scan of the span response stops at the first header, in scan order,
that is in range and known. -/
theorem spanScan_select (mode : SyncMode) (c : Chain) (from_ : Int) (max : Nat)
    (h : Header) (below : List Header)
    (hin : ¬ (h.NumberI64 < from_ ∨ h.NumberU64 > max))
    (hk : known mode c h.hash h.NumberU64 = true) :
    ∀ above : List Header,
      (∀ x ∈ above, ¬ (¬ (x.NumberI64 < from_ ∨ x.NumberU64 > max) ∧
        known mode c x.hash x.NumberU64 = true)) →
      spanScan mode c from_ max (above ++ h :: below) = (h.NumberU64, h.hash) := by
  intro above
  induction above with
  | nil =>
    intro _
    simp only [List.nil_append, spanScan]
    rw [if_neg hin, if_pos hk]
  | cons x xs ih =>
    intro hno
    have hx := hno x (List.mem_cons_self _ _)
    have ih := ih (fun y hy => hno y (List.mem_cons_of_mem _ hy))
    simp only [List.cons_append, spanScan]
    by_cases hr : x.NumberI64 < from_ ∨ x.NumberU64 > max
    · rw [if_pos hr]
      exact ih
    · rw [if_neg hr]
      have hkx : ¬ known mode c x.hash x.NumberU64 = true := fun hkx => hx ⟨hr, hkx⟩
      rw [if_neg hkx]
      exact ih

/-- The scan of a span response without a header in range and known leaves
the zero hash. -/
theorem spanScan_none (mode : SyncMode) (c : Chain) (from_ : Int) (max : Nat) :
    ∀ hs : List Header,
      (∀ x ∈ hs, ¬ (¬ (x.NumberI64 < from_ ∨ x.NumberU64 > max) ∧
        known mode c x.hash x.NumberU64 = true)) →
      spanScan mode c from_ max hs = (0, 0) := by
  intro hs
  induction hs with
  | nil => intro _; rfl
  | cons x xs ih =>
    intro hno
    have hx := hno x (List.mem_cons_self _ _)
    have ih := ih (fun y hy => hno y (List.mem_cons_of_mem _ hy))
    simp only [spanScan]
    by_cases hr : x.NumberI64 < from_ ∨ x.NumberU64 > max
    · rw [if_pos hr]
      exact ih
    · rw [if_neg hr]
      have hkx : ¬ known mode c x.hash x.NumberU64 = true := fun hkx => hx ⟨hr, hkx⟩
      rw [if_neg hkx]
      exact ih

/-- The span probe on a well-formed response: what it leaves is the scan of
the response from its last header down. -/
theorem spanProbe_response (mode : SyncMode) (c : Chain) (pid : String) (from_ skip : Int)
    (max : Nat) (pre rest : List Event) (hs : List Header)
    (hpre : ∀ e ∈ pre, ignorable pid e = true) (hne : hs ≠ [])
    (hord : orderingOk from_ skip 0 hs = true) :
    spanProbe mode c pid from_ skip max (pre ++ .headers pid hs :: rest) =
      .ok (spanScan mode c from_ max hs.reverse, rest) := by
  rw [spanProbe_skip mode c pid from_ skip max pre _ hpre]
  have hlen : ¬ hs.length = 0 := fun h => hne (List.length_eq_zero.mp h)
  simp only [spanProbe, ne_eq, not_true_eq_false, if_false, hlen, hord, Bool.true_eq_false]

/-- C23: for a span-probe response that is not empty and has the requested
heights, `findAncestor` takes as ancestor the response header of greatest
index among those with a height in `[from, max]` that are locally known under
the predicate of the mode (its hash not being the zero hash, which stands for
"none found"): it returns that height when it is above the floor, whatever
comes after the response, so without a binary-search request, and
`errInvalidAncestor` otherwise; when no response header in range is known,
the result is that of the binary search started at `max(floor, 0)`. -/
theorem findAncestor_span_select (mode : SyncMode) (c : Chain) (genesis : Nat) (pid : String)
    (remoteHeight : Nat) (pre rest : List Event) (from_ count skip : Int) (max : Nat)
    (hpre : ∀ e ∈ pre, ignorable pid e = true)
    (hspan : calculateRequestSpan remoteHeight (localHeightOf mode c) =
      (from_, count, skip, max)) :
    (∀ (lower higher : List Header) (h : Header),
      orderingOk from_ skip 0 (lower ++ h :: higher) = true →
      ¬ (h.NumberI64 < from_ ∨ h.NumberU64 > max) →
      known mode c h.hash h.NumberU64 = true → h.hash ≠ 0 →
      (∀ x ∈ higher, ¬ (¬ (x.NumberI64 < from_ ∨ x.NumberU64 > max) ∧
        known mode c x.hash x.NumberU64 = true)) →
      findAncestor mode c genesis pid remoteHeight
          (pre ++ .headers pid (lower ++ h :: higher) :: rest) =
        if toInt64 h.NumberU64 ≤ (ancestorFloor mode c genesis).1 then
          .error (.sentinel .errInvalidAncestor)
        else .ok h.NumberU64) ∧
    (∀ hs : List Header, hs ≠ [] → orderingOk from_ skip 0 hs = true →
      (∀ x ∈ hs, ¬ (¬ (x.NumberI64 < from_ ∨ x.NumberU64 > max) ∧
        known mode c x.hash x.NumberU64 = true)) →
      findAncestor mode c genesis pid remoteHeight (pre ++ .headers pid hs :: rest) =
        match binarySearch mode c pid
            (if (ancestorFloor mode c genesis).1 > 0 then
              toUint64 (ancestorFloor mode c genesis).1 else 0)
            remoteHeight rest with
        | .error e => .error e
        | .waiting => .waiting
        | .panic => .panic
        | .ok start =>
          if toInt64 start ≤ (ancestorFloor mode c genesis).1 then
            .error (.sentinel .errInvalidAncestor)
          else .ok start) := by
  constructor
  · intro lower higher h hord hin hk hz hno
    have hne : lower ++ h :: higher ≠ [] := by simp
    unfold findAncestor
    simp only [hspan]
    rw [spanProbe_response mode c pid from_ skip max pre rest _ hpre hne hord]
    have hrev : (lower ++ h :: higher).reverse = higher.reverse ++ h :: lower.reverse := by
      simp
    rw [hrev, spanScan_select mode c from_ max h lower.reverse hin hk higher.reverse
      (fun x hx => hno x (List.mem_reverse.mp hx))]
    simp only [ne_eq, hz, not_false_eq_true, if_true]
  · intro hs hne hord hno
    unfold findAncestor
    simp only [hspan]
    rw [spanProbe_response mode c pid from_ skip max pre rest _ hpre hne hord]
    rw [spanScan_none mode c from_ max hs.reverse
      (fun x hx => hno x (List.mem_reverse.mp hx))]
    simp only [ne_eq, not_true_eq_false, if_false]

theorem findAncestor_span_select_witness :
    calculateRequestSpan 2 (localHeightOf FullSync genesisOnlyChain) = (0, 2, 1, 2) ∧
    findAncestor FullSync genesisOnlyChain 0 "peer1" 2
        ([.stray] ++ .headers "peer1" ([] ++ mkHeader 0 100 :: [mkHeader 2 6]) :: [.cancel]) =
      (if toInt64 (mkHeader 0 100).NumberU64 ≤ (ancestorFloor FullSync genesisOnlyChain 0).1 then
        .error (.sentinel .errInvalidAncestor)
      else .ok (mkHeader 0 100).NumberU64) ∧
    findAncestor FullSync genesisOnlyChain 0 "peer1" 2
        ([.stray] ++ .headers "peer1" ([] ++ mkHeader 0 100 :: [mkHeader 2 6]) :: [.cancel]) =
      .ok 0 :=
  ⟨by decide,
    (findAncestor_span_select FullSync genesisOnlyChain 0 "peer1" 2 [.stray] [.cancel]
      0 2 1 2 (by decide) (by decide)).1 [] [mkHeader 2 6] (mkHeader 0 100)
      (by decide) (by decide) (by decide) (by decide) (by decide),
    by decide⟩

/-! ## findAncestor: the binary search -/

/-- The midpoint the binary search requests lies strictly between `start` and
`end`, so either new interval is shorter. -/
theorem binarySearch_midpoint (start end_ : Nat) (h : start + 1 < end_) (he : end_ < 2 ^ 63) :
    u64add start 1 < end_ ∧ u64add start end_ / 2 = (start + end_) / 2 ∧
    start < (start + end_) / 2 ∧ (start + end_) / 2 < end_ ∧
    end_ - (start + end_) / 2 < end_ - start ∧ (start + end_) / 2 - start < end_ - start := by
  unfold u64add
  omega

/-- The binary search against a peer that serves the requested heights, for
a chain known locally exactly up to `a`, ends at `a`. -/
theorem binarySearch_finds (mode : SyncMode) (c : Chain) (pid : String) (a : Nat) :
    ∀ (answers : List Event) (start end_ : Nat), end_ < 2 ^ 63 → start ≤ a → a < end_ →
      servesSearch pid a start end_ answers = true →
      (∀ ev ∈ answers, ∀ h, ev = Event.headers pid [h] →
        (known mode c h.hash h.NumberU64 = true ↔ h.NumberU64 ≤ a) ∧
        (known mode c h.hash h.NumberU64 = true →
          ∃ stored, c.getHeaderByHash h.hash = some stored ∧
            stored.NumberU64 = h.NumberU64)) →
      binarySearch mode c pid start end_ answers = .ok a := by
  intro answers
  induction answers with
  | nil =>
    intro start end_ he hs ha hserve _
    simp only [servesSearch, Bool.not_eq_true', decide_eq_false_iff_not] at hserve
    have h1 : ¬ u64add start 1 < end_ := by
      unfold u64add
      omega
    simp only [binarySearch, h1, if_false]
    have : start = a := by omega
    rw [this]
  | cons ev rest ih =>
    intro start end_ he hs ha hserve hk
    simp only [servesSearch, Bool.and_eq_true, decide_eq_true_eq] at hserve
    obtain ⟨hlt, hmatch⟩ := hserve
    obtain ⟨h1, hchk, hm1, hm2, -, -⟩ := binarySearch_midpoint start end_ hlt he
    cases ev with
    | cancel => simp at hmatch
    | timeout => simp at hmatch
    | stray => simp at hmatch
    | headers peerId headers =>
      cases headers with
      | nil => simp at hmatch
      | cons h tl =>
        cases tl with
        | cons h2 tl2 => simp at hmatch
        | nil =>
          simp only [Bool.and_eq_true, decide_eq_true_eq] at hmatch
          obtain ⟨⟨hp, hnum⟩, hrest⟩ := hmatch
          subst hp
          obtain ⟨hiff, hstored⟩ := hk _ (List.mem_cons_self _ _) h rfl
          have hk2 : ∀ ev ∈ rest, ∀ h, ev = Event.headers peerId [h] →
              (known mode c h.hash h.NumberU64 = true ↔ h.NumberU64 ≤ a) ∧
              (known mode c h.hash h.NumberU64 = true →
                ∃ stored, c.getHeaderByHash h.hash = some stored ∧
                  stored.NumberU64 = h.NumberU64) :=
            fun ev hev => hk ev (List.mem_cons_of_mem _ hev)
          simp only [binarySearch, h1, if_true, hchk, ne_eq, not_true_eq_false, if_false]
          by_cases hle : (start + end_) / 2 ≤ a
          · rw [if_pos hle, if_pos hle] at hrest
            have hkn : known mode c h.hash h.NumberU64 = true := hiff.mpr (by omega)
            obtain ⟨stored, hget, hsn⟩ := hstored hkn
            simp only [hkn, Bool.true_eq_false, if_false, hget]
            rw [if_neg (by rw [hsn, hnum]; simp)]
            exact ih _ _ he hle ha hrest hk2
          · rw [if_neg hle, if_neg hle] at hrest
            have hkn : known mode c h.hash h.NumberU64 = false := by
              cases hkv : known mode c h.hash h.NumberU64 with
              | false => rfl
              | true => exact absurd (hiff.mp hkv) (by omega)
            simp only [hkn, if_true]
            exact ih _ _ (by omega) hs (by omega) hrest hk2

/-- A peer that serves the requested heights answers the binary search with
at most `end - start` headers, after which no request is left. -/
theorem searchAnswers_serves (pid : String) (serve : Nat → Header) (a : Nat)
    (hserve : ∀ n, (serve n).NumberU64 = n) :
    ∀ (fuel start end_ : Nat), end_ - start ≤ fuel →
      servesSearch pid a start end_ (searchAnswers pid serve a fuel start end_) = true ∧
      (searchAnswers pid serve a fuel start end_).length ≤ end_ - start := by
  intro fuel
  induction fuel with
  | zero =>
    intro start end_ hf
    simp only [searchAnswers, servesSearch, List.length_nil, Bool.not_eq_true',
      decide_eq_false_iff_not]
    omega
  | succ fuel ih =>
    intro start end_ hf
    by_cases hlt : start + 1 < end_
    · simp only [searchAnswers, hlt, if_true, servesSearch, decide_True, Bool.true_and,
        hserve, List.length_cons]
      by_cases hle : (start + end_) / 2 ≤ a
      · simp only [hle, if_true]
        obtain ⟨h1, h2⟩ := ih ((start + end_) / 2) end_ (by omega)
        exact ⟨h1, by omega⟩
      · simp only [hle, if_false]
        obtain ⟨h1, h2⟩ := ih start ((start + end_) / 2) (by omega)
        exact ⟨h1, by omega⟩
    · simp only [searchAnswers, hlt, if_false, servesSearch, List.length_nil,
        Bool.not_eq_true', decide_eq_false_iff_not]
      exact ⟨not_false, Nat.zero_le _⟩

/-- C24: when the span probe finds nothing, the binary search of
`findAncestor` runs from `max(floor, 0)` to `remoteHeight` (below 2^63); each
request is for the midpoint `(start + end) / 2`, strictly between `start` and
`end`, so `end - start` falls with every answered request and a peer that
serves the requested heights is asked at most `remoteHeight - max(floor, 0)`
times; and when the headers served are locally known exactly for the heights
up to `a`, with `max(floor, 0) <= a < remoteHeight` and `a > floor`,
`findAncestor` returns `a`. -/
theorem findAncestor_binarySearch (mode : SyncMode) (c : Chain) (genesis : Nat) (pid : String)
    (remoteHeight a : Nat) (pre answers : List Event) (hs : List Header)
    (from_ count skip : Int) (max : Nat)
    (hpre : ∀ e ∈ pre, ignorable pid e = true)
    (hspan : calculateRequestSpan remoteHeight (localHeightOf mode c) =
      (from_, count, skip, max))
    (hne : hs ≠ []) (hord : orderingOk from_ skip 0 hs = true)
    (hnone : ∀ x ∈ hs, ¬ (¬ (x.NumberI64 < from_ ∨ x.NumberU64 > max) ∧
      known mode c x.hash x.NumberU64 = true))
    (hr : remoteHeight < 2 ^ 63)
    (hstart : (if (ancestorFloor mode c genesis).1 > 0 then
      toUint64 (ancestorFloor mode c genesis).1 else 0) ≤ a)
    (ha : a < remoteHeight) (hfloor : (ancestorFloor mode c genesis).1 < (a : Int))
    (hserve : servesSearch pid a
      (if (ancestorFloor mode c genesis).1 > 0 then
        toUint64 (ancestorFloor mode c genesis).1 else 0) remoteHeight answers = true)
    (hk : ∀ ev ∈ answers, ∀ h, ev = Event.headers pid [h] →
      (known mode c h.hash h.NumberU64 = true ↔ h.NumberU64 ≤ a) ∧
      (known mode c h.hash h.NumberU64 = true →
        ∃ stored, c.getHeaderByHash h.hash = some stored ∧
          stored.NumberU64 = h.NumberU64)) :
    findAncestor mode c genesis pid remoteHeight (pre ++ .headers pid hs :: answers) = .ok a ∧
    (∀ start end_ : Nat, start + 1 < end_ → end_ < 2 ^ 63 →
      u64add start end_ / 2 = (start + end_) / 2 ∧
      start < (start + end_) / 2 ∧ (start + end_) / 2 < end_ ∧
      end_ - (start + end_) / 2 < end_ - start ∧ (start + end_) / 2 - start < end_ - start) ∧
    (∀ serve : Nat → Header, (∀ n, (serve n).NumberU64 = n) →
      servesSearch pid a
        (if (ancestorFloor mode c genesis).1 > 0 then
          toUint64 (ancestorFloor mode c genesis).1 else 0) remoteHeight
        (searchAnswers pid serve a remoteHeight
          (if (ancestorFloor mode c genesis).1 > 0 then
            toUint64 (ancestorFloor mode c genesis).1 else 0) remoteHeight) = true ∧
      (searchAnswers pid serve a remoteHeight
          (if (ancestorFloor mode c genesis).1 > 0 then
            toUint64 (ancestorFloor mode c genesis).1 else 0) remoteHeight).length ≤
        remoteHeight - (if (ancestorFloor mode c genesis).1 > 0 then
          toUint64 (ancestorFloor mode c genesis).1 else 0)) := by
  refine ⟨?_, ?_, ?_⟩
  · unfold findAncestor
    simp only [hspan]
    rw [spanProbe_response mode c pid from_ skip max pre answers _ hpre hne hord]
    rw [spanScan_none mode c from_ max hs.reverse
      (fun x hx => hnone x (List.mem_reverse.mp hx))]
    simp only [ne_eq, not_true_eq_false, if_false]
    rw [binarySearch_finds mode c pid a answers _ remoteHeight hr hstart ha hserve hk]
    simp only
    rw [toInt64_of_lt (by omega), if_neg (by omega)]
  · intro start end_ hlt he
    obtain ⟨-, h2, h3, h4, h5, h6⟩ := binarySearch_midpoint start end_ hlt he
    exact ⟨h2, h3, h4, h5, h6⟩
  · intro serve hsv
    exact searchAnswers_serves pid serve a hsv remoteHeight _ remoteHeight (Nat.sub_le _ _)

theorem findAncestor_binarySearch_witness :
    calculateRequestSpan 30 (localHeightOf FullSync (sharedChain 20 3)) = (19, 6, 1, 29) ∧
    findAncestor FullSync (sharedChain 20 3) 0 "peer1" 30
      ([.stray] ++ .headers "peer1"
          [mkHeader 19 5019, mkHeader 21 5021, mkHeader 23 5023, mkHeader 25 5025,
            mkHeader 27 5027, mkHeader 29 5029] ::
        [.headers "peer1" [mkHeader 15 5015], .headers "peer1" [mkHeader 7 5007],
          .headers "peer1" [mkHeader 3 1003], .headers "peer1" [mkHeader 5 5005],
          .headers "peer1" [mkHeader 4 5004]]) = .ok 3 :=
  ⟨by decide,
    (findAncestor_binarySearch FullSync (sharedChain 20 3) 0 "peer1" 30 3 [.stray]
      [.headers "peer1" [mkHeader 15 5015], .headers "peer1" [mkHeader 7 5007],
        .headers "peer1" [mkHeader 3 1003], .headers "peer1" [mkHeader 5 5005],
        .headers "peer1" [mkHeader 4 5004]]
      [mkHeader 19 5019, mkHeader 21 5021, mkHeader 23 5023, mkHeader 25 5025,
        mkHeader 27 5027, mkHeader 29 5029]
      19 6 1 29 (by decide) (by decide) (by decide) (by decide) (by decide) (by decide)
      (by decide) (by decide) (by decide) (by decide)
      (fun ev hev h heq => by
        subst heq
        simp only [List.mem_cons, Event.headers.injEq, List.cons.injEq, and_true, true_and,
          List.mem_singleton, List.not_mem_nil, or_false] at hev
        rcases hev with hh | hh | hh | hh | hh
        · subst hh
          exact ⟨by decide, fun hkn => absurd hkn (by decide)⟩
        · subst hh
          exact ⟨by decide, fun hkn => absurd hkn (by decide)⟩
        · subst hh
          exact ⟨by decide, fun _ => ⟨mkHeader 3 1003, by decide, by decide⟩⟩
        · subst hh
          exact ⟨by decide, fun hkn => absurd hkn (by decide)⟩
        · subst hh
          exact ⟨by decide, fun hkn => absurd hkn (by decide)⟩)).1⟩

/-! ## fetchHeaders: headers held back -/

/-- C27: in the contiguous header fetch, for a batch of `n > 0` headers that
is not cut short by a cancel, with `head` the larger of the local head and the
height the fetch started at (`head + 48` below 2^64): when `head + 48` is
below the height of the last header of the batch, the first `n - min(2, n)`
headers are sent to the header processor, in their order, and no send is made
when these are none; else all `n` headers are sent. -/
theorem fetchHeadersPacket_delay (mode : SyncMode) (env : PacketEnv) (ancestor from_ : Nat)
    (headers : List Header) (last : Header)
    (hlast : headers.getLast? = some last) (hc : env.cancelled = false)
    (hfit : max (specLocalHead mode env) ancestor + 48 < 2 ^ 64) :
    (max (specLocalHead mode env) ancestor + 48 < last.NumberU64 →
      delayHeaders mode env ancestor headers =
        headers.take (headers.length - min 2 headers.length) ∧
      fetchHeadersPacket mode env ancestor from_ headers =
        if headers.length ≤ 2 then ([.getHeaders from_], from_, none)
        else
          ([.send (headers.take (headers.length - min 2 headers.length)),
            .getHeaders (u64add from_ (headers.length - 2))],
            u64add from_ (headers.length - 2), none)) ∧
    (¬ max (specLocalHead mode env) ancestor + 48 < last.NumberU64 →
      delayHeaders mode env ancestor headers = headers ∧
      fetchHeadersPacket mode env ancestor from_ headers =
        ([.send headers, .getHeaders (u64add from_ headers.length)],
          u64add from_ headers.length, none)) := by
  have hne : headers ≠ [] := by
    intro h
    rw [h] at hlast
    simp at hlast
  have hlen : 0 < headers.length := List.length_pos.mpr hne
  have hhead : (if (if mode = LightSync then env.currentHeader
        else if env.currentFastBlock < env.currentBlock then env.currentBlock
        else env.currentFastBlock) < ancestor then ancestor
      else (if mode = LightSync then env.currentHeader
        else if env.currentFastBlock < env.currentBlock then env.currentBlock
        else env.currentFastBlock)) = max (specLocalHead mode env) ancestor := by
    unfold specLocalHead
    by_cases hm : mode = LightSync
    · simp only [hm, if_true]
      split_ifs <;> omega
    · simp only [hm, if_false]
      split_ifs <;> omega
  have hadd : u64add (max (specLocalHead mode env) ancestor) reorgProtThreshold =
      max (specLocalHead mode env) ancestor + 48 := by
    unfold u64add reorgProtThreshold
    exact Nat.mod_eq_of_lt hfit
  have hdelay : (if reorgProtHeaderDelay > headers.length then headers.length
      else reorgProtHeaderDelay) = min 2 headers.length := by
    unfold reorgProtHeaderDelay
    split_ifs <;> omega
  have hd : delayHeaders mode env ancestor headers =
      if max (specLocalHead mode env) ancestor + 48 < last.NumberU64 then
        headers.take (headers.length - min 2 headers.length)
      else headers := by
    unfold delayHeaders
    simp only [hlast, hhead, hadd, hdelay]
  constructor
  · intro hlt
    rw [if_pos hlt] at hd
    refine ⟨hd, ?_⟩
    unfold fetchHeadersPacket
    rw [if_neg (by omega)]
    simp only [hd, hc, Bool.false_eq_true, if_false, List.length_take]
    by_cases h2 : headers.length ≤ 2
    · rw [if_pos h2, if_neg (by omega)]
    · rw [if_neg h2, if_pos (by omega)]
      have e : min (headers.length - min 2 headers.length) headers.length =
          headers.length - 2 := by omega
      rw [e]
  · intro hge
    rw [if_neg hge] at hd
    refine ⟨hd, ?_⟩
    unfold fetchHeadersPacket
    rw [if_neg (by omega)]
    simp only [hd, hc, Bool.false_eq_true, if_false]
    rw [if_pos hlen]

theorem fetchHeadersPacket_delay_witness :
    fetchHeadersPacket FastSync ⟨some 500, false, 100, 90, 80, false⟩ 50 101
        (headerRun 101 60) =
      ([.send (headerRun 101 58), .getHeaders 159], 159, none) ∧
    fetchHeadersPacket FastSync ⟨some 500, false, 100, 90, 80, false⟩ 50 101
        (headerRun 101 20) =
      ([.send (headerRun 101 20), .getHeaders 121], 121, none) ∧
    (delayHeaders FastSync ⟨some 500, false, 100, 90, 80, false⟩ 50 (headerRun 101 60) =
        (headerRun 101 60).take ((headerRun 101 60).length - min 2 (headerRun 101 60).length) ∧
      fetchHeadersPacket FastSync ⟨some 500, false, 100, 90, 80, false⟩ 50 101
          (headerRun 101 60) =
        if (headerRun 101 60).length ≤ 2 then ([.getHeaders 101], 101, none)
        else
          ([.send ((headerRun 101 60).take
              ((headerRun 101 60).length - min 2 (headerRun 101 60).length)),
            .getHeaders (u64add 101 ((headerRun 101 60).length - 2))],
            u64add 101 ((headerRun 101 60).length - 2), none)) :=
  ⟨by decide, by decide,
    (fetchHeadersPacket_delay FastSync ⟨some 500, false, 100, 90, 80, false⟩ 50 101
      (headerRun 101 60) (mkHeader 160 1160) (by decide) (by decide) (by decide)).1
      (by decide)⟩

/-! ## processHeaders: the rollback point -/

theorem insertChunk_calls_extend (mode : SyncMode) (e : ChunkEnv) (st : ProcState)
    (chunk : List Header) : st.calls <+: (insertChunk mode e st chunk).1.calls := by
  unfold insertChunk
  dsimp only
  repeat' split
  all_goals first
    | exact List.prefix_refl _
    | exact List.prefix_append _ _

theorem scheduleChunk_calls_extend (mode : SyncMode) (e : ChunkEnv) (st : ProcState)
    (chunk : List Header) : st.calls <+: (scheduleChunk mode e st chunk).1.calls := by
  unfold scheduleChunk
  dsimp only
  repeat' split
  all_goals first
    | exact List.prefix_refl _
    | exact List.prefix_append _ _

theorem insertedHeads_extend {a b : List ProcCall} (h : a <+: b) :
    insertedHeads a <+: insertedHeads b := by
  obtain ⟨t, rfl⟩ := h
  unfold insertedHeads
  rw [List.filterMap_append]
  exact List.prefix_append _ _

theorem pairwise_of_extend {a b : List Nat} (h : a <+: b) (hp : b.Pairwise (· < ·)) :
    a.Pairwise (· < ·) := hp.sublist h.sublist

theorem processChunks_calls_extend (mode : SyncMode) (env : Nat → ChunkEnv) :
    ∀ (fuel : Nat) (st : ProcState) (headers : List Header),
      st.calls <+: (processChunks mode env fuel st headers).1.calls := by
  intro fuel
  induction fuel with
  | zero => intro st headers; exact List.prefix_refl _
  | succ fuel ih =>
    intro st headers
    unfold processChunks
    by_cases h0 : headers.length = 0
    · rw [if_pos h0]
    rw [if_neg h0]
    dsimp only
    by_cases hc : (env st.chunkIndex).cancelled = true
    · rw [if_pos hc]
    rw [if_neg hc]
    have h1 := insertChunk_calls_extend mode (env st.chunkIndex)
      { st with chunkIndex := st.chunkIndex + 1 }
      (headers.take (if maxHeadersProcess > headers.length then headers.length
        else maxHeadersProcess))
    cases hi : insertChunk mode (env st.chunkIndex)
        { st with chunkIndex := st.chunkIndex + 1 }
        (headers.take (if maxHeadersProcess > headers.length then headers.length
          else maxHeadersProcess)) with
    | mk s1 o1 =>
      rw [hi] at h1
      cases o1 with
      | some out => exact h1
      | none =>
        dsimp only
        have h2 := scheduleChunk_calls_extend mode (env st.chunkIndex) s1
          (headers.take (if maxHeadersProcess > headers.length then headers.length
            else maxHeadersProcess))
        cases hs : scheduleChunk mode (env st.chunkIndex) s1
            (headers.take (if maxHeadersProcess > headers.length then headers.length
              else maxHeadersProcess)) with
        | mk s2 o2 =>
          rw [hs] at h2
          cases o2 with
          | some out => exact List.IsPrefix.trans h1 h2
          | none =>
            dsimp only
            have h3 := ih
              ⟨s2.rollback,
                u64add s2.origin
                  (if maxHeadersProcess > headers.length then headers.length
                    else maxHeadersProcess),
                s2.chunkIndex, s2.calls⟩
              (headers.drop (if maxHeadersProcess > headers.length then headers.length
                else maxHeadersProcess))
            exact List.IsPrefix.trans (List.IsPrefix.trans h1 h2) h3

theorem processLoop_calls_extend (mode : SyncMode) (env : Nat → ChunkEnv)
    (td blockTd headerTd : Nat) :
    ∀ (evs : List ProcEvent) (st : ProcState) (got : Bool),
      st.calls <+: (processLoop mode env td blockTd headerTd st got evs).1.calls := by
  intro evs
  induction evs with
  | nil => intro st got; exact List.prefix_refl _
  | cons ev rest ih =>
    intro st got
    cases ev with
    | cancel => exact List.prefix_refl _
    | run headers =>
      unfold processLoop
      by_cases h0 : headers.length = 0
      · rw [if_pos h0]
        split_ifs <;> exact List.prefix_refl _
      · rw [if_neg h0]
        have h1 := processChunks_calls_extend mode env headers.length st headers
        cases hp : processChunks mode env headers.length st headers with
        | mk s1 o1 =>
          rw [hp] at h1
          cases o1 with
          | some out => exact h1
          | none =>
            dsimp only
            exact List.IsPrefix.trans h1 (ih _ _)

theorem lastNumber_lt (chunk : List Header) :
    (chunk.getLast?.map Header.NumberU64).getD 0 < 2 ^ 64 := by
  cases chunk.getLast? with
  | none => simp
  | some h =>
    simp only [Option.map_some', Option.getD_some, Header.NumberU64]
    exact Nat.mod_lt _ (by decide)

theorem insertedHeads_append_success (calls : List ProcCall) (chunk : List Header) (f : Nat) :
    insertedHeads (calls ++ [ProcCall.insertHeaderChain chunk f none]) =
      insertedHeads calls ++ [(chunk.getLast?.map Header.NumberU64).getD 0] := by
  simp [insertedHeads, List.filterMap_append, insertedHead]

theorem insertedHeads_append_failure (calls : List ProcCall) (chunk : List Header) (f : Nat)
    (r : Nat × GoError) :
    insertedHeads (calls ++ [ProcCall.insertHeaderChain chunk f (some r)]) =
      insertedHeads calls := by
  simp [insertedHeads, List.filterMap_append, insertedHead]

theorem insertedHeads_append_schedule (calls : List ProcCall) (chunk : List Header) (o : Nat) :
    insertedHeads (calls ++ [ProcCall.schedule chunk o]) = insertedHeads calls := by
  simp [insertedHeads, List.filterMap_append, insertedHead]

/-- The rollback point a successful insertion stores, after the chunks
inserted before it. -/
theorem rollback_after_success (rollback last : Nat) (heads : List Nat)
    (hl : last < 2 ^ 64)
    (h0 : heads = [] → rollback = 0)
    (h1 : ∀ head, heads.getLast? = some head → rollback = max 1 (head - 2048))
    (hpw : (heads ++ [last]).Pairwise (· < ·)) :
    (if u64sub last rollback > fsHeaderSafetyNet then u64sub last fsHeaderSafetyNet else 1) =
      max 1 (last - 2048) := by
  have key : rollback = 0 ∨ ∃ prev, prev < last ∧ rollback = max 1 (prev - 2048) := by
    cases hg : heads.getLast? with
    | none => exact Or.inl (h0 (List.getLast?_eq_none_iff.mp hg))
    | some prev =>
      have hmem : prev ∈ heads := List.mem_of_getLast?_eq_some hg
      rw [List.pairwise_append] at hpw
      exact Or.inr ⟨prev, hpw.2.2 prev hmem last (List.mem_singleton_self _), h1 prev hg⟩
  clear h0 h1 hpw
  unfold u64sub fsHeaderSafetyNet
  rcases key with hr | ⟨prev, hlt, hr⟩
  · rw [hr]
    split_ifs <;> omega
  · have hr2 : prev ≤ rollback + 2048 := by omega
    have hr3 : 1 ≤ rollback := by omega
    by_cases hp : prev ≤ 2049
    · have hr1 : rollback = 1 := by omega
      clear hr
      split_ifs <;> omega
    · have hr1 : rollback + 2048 = prev := by omega
      clear hr
      split_ifs <;> omega

theorem insertChunk_fast_success (e : ChunkEnv) (st : ProcState) (chunk : List Header)
    (hins : e.insert = none) :
    insertChunk FastSync e st chunk =
      (⟨if u64sub ((chunk.getLast?.map Header.NumberU64).getD 0) st.rollback >
            fsHeaderSafetyNet then
          u64sub ((chunk.getLast?.map Header.NumberU64).getD 0) fsHeaderSafetyNet else 1,
        st.origin, st.chunkIndex,
        st.calls ++ [ProcCall.insertHeaderChain chunk
          (if u64add ((chunk.getLast?.map Header.NumberU64).getD 0) fsHeaderForceVerify >
            e.pivot.getD 0 then 1 else fsHeaderCheckFrequency) none]⟩, none) := by
  simp only [insertChunk, true_or, if_true, hins]
  split_ifs <;> rfl

theorem insertChunk_fast_failure (e : ChunkEnv) (st : ProcState) (chunk : List Header)
    (n : Nat) (err : GoError) (hins : e.insert = some (n, err)) :
    ∃ out, insertChunk FastSync e st chunk =
      (⟨if n > 0 ∧ st.rollback = 0 then (chunk.head?.map Header.NumberU64).getD 0
          else st.rollback,
        st.origin, st.chunkIndex,
        st.calls ++ [ProcCall.insertHeaderChain chunk
          (if u64add ((chunk.getLast?.map Header.NumberU64).getD 0) fsHeaderForceVerify >
            e.pivot.getD 0 then 1 else fsHeaderCheckFrequency) (some (n, err))]⟩, some out) := by
  simp only [insertChunk, true_or, if_true, true_and, hins]
  by_cases hn : n < chunk.length
  · rw [if_pos hn]
    refine ⟨.error (.wrapf "invalid header encountered" (.sentinel .errInvalidChain)), ?_⟩
    split_ifs <;> rfl
  · rw [if_neg hn]
    refine ⟨.panic, ?_⟩
    split_ifs <;> rfl

theorem insertChunk_exact (e : ChunkEnv) (st : ProcState) (chunk : List Header)
    (hP : rollbackExact st)
    (hpw : (insertedHeads (insertChunk FastSync e st chunk).1.calls).Pairwise (· < ·)) :
    ((insertChunk FastSync e st chunk).2 = none →
      rollbackExact (insertChunk FastSync e st chunk).1) ∧
    (∀ out, (insertChunk FastSync e st chunk).2 = some out →
      rollbackSettled (insertChunk FastSync e st chunk).1) := by
  obtain ⟨hP0, hP1⟩ := hP
  cases hins : e.insert with
  | none =>
    rw [insertChunk_fast_success e st chunk hins] at hpw ⊢
    simp only [insertedHeads_append_success] at hpw
    have hrb := rollback_after_success st.rollback
      ((chunk.getLast?.map Header.NumberU64).getD 0) (insertedHeads st.calls)
      (lastNumber_lt chunk) hP0 hP1 hpw
    constructor
    · intro _
      constructor
      · intro hnil
        simp only [insertedHeads_append_success] at hnil
        simp at hnil
      · intro head hhead
        simp only [insertedHeads_append_success, List.getLast?_append,
          List.getLast?_singleton, Option.or, Option.some.injEq] at hhead
        rw [← hhead]
        exact hrb
    · intro out hout
      simp at hout
  | some r =>
    obtain ⟨n, err⟩ := r
    obtain ⟨out0, hres⟩ := insertChunk_fast_failure e st chunk n err hins
    rw [hres]
    constructor
    · intro hnone
      simp at hnone
    · intro out _ head hhead
      simp only [insertedHeads_append_failure] at hhead
      have hr := hP1 head hhead
      have hpos : ¬ (n > 0 ∧ st.rollback = 0) := by
        intro hc
        rw [hc.2] at hr
        omega
      simp only [if_neg hpos]
      exact hr

theorem rollbackExact_congr {st st' : ProcState} (hc : st'.calls = st.calls)
    (hr : st'.rollback = st.rollback) (h : rollbackExact st) : rollbackExact st' := by
  unfold rollbackExact rollbackSettled at *
  rw [hc, hr]
  exact h

theorem scheduleChunk_heads (mode : SyncMode) (e : ChunkEnv) (st : ProcState)
    (chunk : List Header) :
    insertedHeads (scheduleChunk mode e st chunk).1.calls = insertedHeads st.calls ∧
    (scheduleChunk mode e st chunk).1.rollback = st.rollback := by
  unfold scheduleChunk
  dsimp only
  repeat' split
  all_goals first
    | exact ⟨rfl, rfl⟩
    | exact ⟨insertedHeads_append_schedule _ _ _, rfl⟩

theorem processChunks_exact (env : Nat → ChunkEnv) :
    ∀ (fuel : Nat) (st : ProcState) (headers : List Header),
      rollbackExact st →
      (insertedHeads (processChunks FastSync env fuel st headers).1.calls).Pairwise (· < ·) →
      ((processChunks FastSync env fuel st headers).2 = none →
        rollbackExact (processChunks FastSync env fuel st headers).1) ∧
      (∀ out, (processChunks FastSync env fuel st headers).2 = some out →
        rollbackSettled (processChunks FastSync env fuel st headers).1) := by
  intro fuel
  induction fuel with
  | zero =>
    intro st headers hP _
    simp only [processChunks]
    exact ⟨fun _ => hP, fun out h => by simp at h⟩
  | succ fuel ih =>
    intro st headers hP hpw
    unfold processChunks at hpw ⊢
    by_cases h0 : headers.length = 0
    · rw [if_pos h0]
      exact ⟨fun _ => hP, fun out h => by simp at h⟩
    rw [if_neg h0] at hpw ⊢
    dsimp only at hpw ⊢
    have hP1 : rollbackExact
        (⟨st.rollback, st.origin, st.chunkIndex + 1, st.calls⟩ : ProcState) :=
      rollbackExact_congr rfl rfl hP
    by_cases hc : (env st.chunkIndex).cancelled = true
    · rw [if_pos hc]
      exact ⟨fun h => by simp at h, fun out _ => hP1.2⟩
    rw [if_neg hc] at hpw ⊢
    generalize hlim : (if maxHeadersProcess > headers.length then headers.length
      else maxHeadersProcess) = limit at hpw ⊢
    have hpre1 := insertChunk_calls_extend FastSync (env st.chunkIndex)
      ⟨st.rollback, st.origin, st.chunkIndex + 1, st.calls⟩ (headers.take limit)
    cases hi : insertChunk FastSync (env st.chunkIndex)
        ⟨st.rollback, st.origin, st.chunkIndex + 1, st.calls⟩ (headers.take limit) with
    | mk s1 o1 =>
      have hex := insertChunk_exact (env st.chunkIndex)
        ⟨st.rollback, st.origin, st.chunkIndex + 1, st.calls⟩ (headers.take limit) hP1
      rw [hi] at hpw hex hpre1
      cases o1 with
      | some out1 =>
        dsimp only at hpw ⊢
        obtain ⟨-, hset⟩ := hex hpw
        exact ⟨fun h => by simp at h, fun out _ => hset out1 rfl⟩
      | none =>
        dsimp only at hpw hex ⊢
        have hsh := scheduleChunk_heads FastSync (env st.chunkIndex) s1 (headers.take limit)
        have hpre2 := scheduleChunk_calls_extend FastSync (env st.chunkIndex) s1
          (headers.take limit)
        cases hs : scheduleChunk FastSync (env st.chunkIndex) s1 (headers.take limit) with
        | mk s2 o2 =>
          rw [hs] at hpw hsh hpre2
          dsimp only at hsh hpre2
          cases o2 with
          | some out2 =>
            dsimp only at hpw ⊢
            have hpw1 : (insertedHeads s1.calls).Pairwise (· < ·) := by
              rw [← hsh.1]
              exact hpw
            obtain ⟨hexact, -⟩ := hex hpw1
            have hP2 : rollbackExact s2 := by
              unfold rollbackExact rollbackSettled
              rw [hsh.1, hsh.2]
              exact hexact rfl
            exact ⟨fun h => by simp at h, fun out _ => hP2.2⟩
          | none =>
            dsimp only at hpw ⊢
            have hpre3 := processChunks_calls_extend FastSync env fuel
              ⟨s2.rollback, u64add s2.origin limit, s2.chunkIndex, s2.calls⟩
              (headers.drop limit)
            have hpw1 : (insertedHeads s1.calls).Pairwise (· < ·) :=
              pairwise_of_extend
                (insertedHeads_extend (List.IsPrefix.trans hpre2 hpre3)) hpw
            obtain ⟨hexact, -⟩ := hex hpw1
            have hP2 : rollbackExact
                (⟨s2.rollback, u64add s2.origin limit, s2.chunkIndex, s2.calls⟩ :
                  ProcState) := by
              unfold rollbackExact rollbackSettled
              dsimp only
              rw [hsh.1, hsh.2]
              exact hexact rfl
            exact ih _ _ hP2 hpw

theorem processLoop_exact (env : Nat → ChunkEnv) (td blockTd headerTd : Nat) :
    ∀ (evs : List ProcEvent) (st : ProcState) (got : Bool),
      rollbackExact st →
      (insertedHeads (processLoop FastSync env td blockTd headerTd st got evs).1.calls).Pairwise
        (· < ·) →
      ((processLoop FastSync env td blockTd headerTd st got evs).2 = .ok () →
        (processLoop FastSync env td blockTd headerTd st got evs).1.rollback = 0) ∧
      ((processLoop FastSync env td blockTd headerTd st got evs).2 ≠ .ok () →
        rollbackSettled (processLoop FastSync env td blockTd headerTd st got evs).1) := by
  intro evs
  induction evs with
  | nil =>
    intro st got hP _
    simp only [processLoop]
    exact ⟨fun h => (by cases h), fun _ => hP.2⟩
  | cons ev rest ih =>
    intro st got hP hpw
    cases ev with
    | cancel =>
      simp only [processLoop]
      exact ⟨fun h => (by cases h), fun _ => hP.2⟩
    | run headers =>
      unfold processLoop at hpw ⊢
      by_cases h0 : headers.length = 0
      · rw [if_pos h0]
        split_ifs
        · exact ⟨fun h => (by cases h), fun _ => hP.2⟩
        · exact ⟨fun h => (by cases h), fun _ => hP.2⟩
        · exact ⟨fun _ => rfl, fun h => absurd rfl h⟩
      · rw [if_neg h0] at hpw ⊢
        have hpre := processChunks_calls_extend FastSync env headers.length st headers
        have hex := processChunks_exact env headers.length st headers hP
        cases hp : processChunks FastSync env headers.length st headers with
        | mk s1 o1 =>
          rw [hp] at hpw hex hpre
          cases o1 with
          | some out =>
            dsimp only at hpw hex ⊢
            obtain ⟨-, hset⟩ := hex hpw
            refine ⟨fun h => ?_, fun _ => hset out rfl⟩
            rw [h] at hp
            exact absurd hp (processChunks_not_ok _ _ _ _ _ _)
          | none =>
            dsimp only at hpw hex hpre ⊢
            have hpre2 := processLoop_calls_extend FastSync env td blockTd headerTd rest s1 true
            have hpw1 : (insertedHeads s1.calls).Pairwise (· < ·) :=
              pairwise_of_extend (insertedHeads_extend hpre2) hpw
            exact ih s1 true ((hex hpw1).1 rfl) hpw

/-- C30: in fast mode, provided the last heights of the chunks inserted
successfully rise strictly: a successful insertion of a chunk whose last
header has height `head` stores the rollback point `max(1, head - 2048)`;
while `processHeaders` waits for the next run, and when it is left with an
error, the rollback point is that of the last chunk inserted; so when it is
left with an error after a chunk was inserted, such as a later insertion
failure, its deferred function sets the head back to `max(0, head - 2049)`. -/
theorem processHeaders_rollback_point (env : Nat → ChunkEnv)
    (td blockTd headerTd origin : Nat) (evs : List ProcEvent)
    (hinc : (insertedHeads
      (processHeaders FastSync env td blockTd headerTd origin evs).calls).Pairwise (· < ·)) :
    (∀ (e : ChunkEnv) (st : ProcState) (chunk : List Header) (last : Header),
      chunk.getLast? = some last → e.insert = none →
      (st.rollback = 0 ∨ ∃ prev, prev < last.NumberU64 ∧ st.rollback = max 1 (prev - 2048)) →
      (insertChunk FastSync e st chunk).1.rollback = max 1 (last.NumberU64 - 2048) ∧
      (insertChunk FastSync e st chunk).2 = none) ∧
    (∀ st head,
      processLoop FastSync env td blockTd headerTd
        { rollback := 0, origin := origin, chunkIndex := 0, calls := [] } false evs =
        (st, .waiting) →
      (insertedHeads st.calls).getLast? = some head →
      st.rollback = max 1 (head - 2048)) ∧
    (∀ head,
      (insertedHeads
        (processHeaders FastSync env td blockTd headerTd origin evs).calls).getLast? =
        some head →
      ((∃ err, (processHeaders FastSync env td blockTd headerTd origin evs).outcome =
          .error err) ∨
        (processHeaders FastSync env td blockTd headerTd origin evs).outcome = .panic) →
      (processHeaders FastSync env td blockTd headerTd origin evs).setHead =
        some (max 1 (head - 2048) - 1) ∧
      ((max 1 (head - 2048) - 1 : Nat) : Int) = max 0 ((head : Int) - 2049)) := by
  have hinit : rollbackExact
      { rollback := 0, origin := origin, chunkIndex := 0, calls := [] } := by
    constructor
    · intro _; rfl
    · intro head h
      simp [insertedHeads] at h
  have hcalls : (processHeaders FastSync env td blockTd headerTd origin evs).calls =
      (processLoop FastSync env td blockTd headerTd
        { rollback := 0, origin := origin, chunkIndex := 0, calls := [] } false evs).1.calls := by
    unfold processHeaders
    cases processLoop FastSync env td blockTd headerTd
        { rollback := 0, origin := origin, chunkIndex := 0, calls := [] } false evs with
    | mk st out =>
      cases out with
      | waiting => rfl
      | ok u => dsimp only; split_ifs <;> rfl
      | error e => dsimp only; split_ifs <;> rfl
      | panic => dsimp only; split_ifs <;> rfl
  rw [hcalls] at hinc
  obtain ⟨hok, hset⟩ := processLoop_exact env td blockTd headerTd evs _ false hinit hinc
  refine ⟨?_, ?_, ?_⟩
  · intro e st chunk last hlast hins hprev
    rw [insertChunk_fast_success e st chunk hins]
    refine ⟨?_, rfl⟩
    simp only [hlast, Option.map_some', Option.getD_some]
    have hl : last.NumberU64 < 2 ^ 64 := Nat.mod_lt _ (by decide)
    unfold u64sub fsHeaderSafetyNet
    rcases hprev with hr | ⟨prev, hlt, hr⟩
    · rw [hr]
      split_ifs <;> omega
    · have hr3 : 1 ≤ st.rollback := by omega
      by_cases hp : prev ≤ 2049
      · have hr1 : st.rollback = 1 := by omega
        clear hr
        split_ifs <;> omega
      · have hr1 : st.rollback + 2048 = prev := by omega
        clear hr
        split_ifs <;> omega
  · intro st head hloop hhead
    rw [hloop] at hset
    exact hset (by simp) head hhead
  · intro head hhead hout
    rw [hcalls] at hhead
    have harith : ((max 1 (head - 2048) - 1 : Nat) : Int) = max 0 ((head : Int) - 2049) := by
      omega
    refine ⟨?_, harith⟩
    unfold processHeaders at hout ⊢
    cases hl : processLoop FastSync env td blockTd headerTd
        { rollback := 0, origin := origin, chunkIndex := 0, calls := [] } false evs with
    | mk st out =>
      rw [hl] at hset hhead hout
      dsimp only at hset hhead
      have hne : out ≠ .ok () := by
        intro h
        rw [h] at hout
        dsimp only at hout
        rcases hout with ⟨err, he⟩ | he
        · split_ifs at he
        · split_ifs at he
      have hrb := hset hne head hhead
      have hpos : st.rollback > 0 := by omega
      cases out with
      | waiting =>
        dsimp only at hout
        rcases hout with ⟨err, he⟩ | he
        · cases he
        · cases he
      | ok u => exact absurd rfl hne
      | error e =>
        dsimp only
        rw [if_pos hpos, hrb]
      | panic =>
        dsimp only
        rw [if_pos hpos, hrb]

theorem processHeaders_rollback_point_witness :
    insertedHeads (processHeaders FastSync (failingEnv (some 10000) 1) 10 5 5 3000
      [.run (headerRun 3000 3), .run (headerRun 3003 3)]).calls = [3002] ∧
    (processHeaders FastSync (failingEnv (some 10000) 1) 10 5 5 3000
      [.run (headerRun 3000 3), .run (headerRun 3003 3)]).outcome =
      .error (.wrapf "invalid header encountered" (.sentinel .errInvalidChain)) ∧
    (processHeaders FastSync (failingEnv (some 10000) 1) 10 5 5 3000
      [.run (headerRun 3000 3), .run (headerRun 3003 3)]).setHead = some 953 ∧
    ((processHeaders FastSync (failingEnv (some 10000) 1) 10 5 5 3000
        [.run (headerRun 3000 3), .run (headerRun 3003 3)]).setHead =
        some (max 1 (3002 - 2048) - 1) ∧
      ((max 1 (3002 - 2048) - 1 : Nat) : Int) = max 0 (((3002 : Nat) : Int) - 2049)) :=
  ⟨by decide, by decide, by decide,
    (processHeaders_rollback_point (failingEnv (some 10000) 1) 10 5 5 3000
      [.run (headerRun 3000 3), .run (headerRun 3003 3)] (by decide)).2.2 3002 (by decide)
      (Or.inl ⟨.wrapf "invalid header encountered" (.sentinel .errInvalidChain),
        by decide⟩)⟩

end Downloader





